import Mathlib

/-!
# EKF-Fast-LIO2 adaptive filter: embedding of `src/EKFAdaptiveFilter.cpp`

The C++ node keeps a 12-dimensional state `X`, its covariance `P`, three
measurement buffers and a handful of flags.  It is embedded here as pure
functions over a record of those fields.

Conventions of the embedding.

* `double`/`float` values are elements of an arbitrary linearly ordered field
  `α` (exact arithmetic; rounding, infinities and NaN are not modelled).
* The routines the source takes from `libm` and Eigen (`sin`, `cos`, `tan`,
  `atan2`, `MatrixXd::inverse`) are a parameter `L : Numerics α`.  The
  predicate `Numerics.Exact` states that such an `L` over `ℝ` is the
  mathematical one; Eigen documents the result of `inverse()` on a
  non-invertible matrix as undefined, so `Exact` constrains it on invertible
  matrices only.
* Eigen vectors are functions `Fin n → α`, Eigen matrices are Mathlib
  matrices over `Fin r` and `Fin c`; `block` / `setBlock` / `vecBlock` /
  `setVecBlock` are the Eigen `.block(i, j, p, q)` reads and writes.
* The ROS message types are records holding the fields the handlers read;
  the roll/pitch/yaw that `tf::Matrix3x3::getRPY` extracts from the message
  quaternion is a field of the record.
* `abs` in `wheelOdometryAdaptiveCovariance` is `std::abs` on `double`, the
  absolute value of the field.
* A local vector or matrix that the source declares without a value and then
  fills completely (`xp`, `u_diff`, the `J` of the three Jacobians) starts as
  zero.  The `for` loop of each Jacobian writes column `i` in iteration `i`
  and nothing else, so the Jacobian is given column by column.
* `run()` is one function per block of its loop body, composed in `run_tick`;
  the clock reading of the iteration is an argument, and what a tick publishes
  is the character handed to `publish_odom`.
-/

namespace EKF

/-! ## Library routines -/

/-- The numerical routines the source calls but does not define. -/
structure Numerics (α : Type) where
  /-- `sin` of `<cmath>` -/
  sin : α → α
  /-- `cos` of `<cmath>` -/
  cos : α → α
  /-- `tan` of `<cmath>` -/
  tan : α → α
  /-- `atan2 y x` of `<cmath>` -/
  atan2 : α → α → α
  /-- Eigen `inverse()` on an `n × n` matrix -/
  inverse : (n : ℕ) → Matrix (Fin n) (Fin n) α → Matrix (Fin n) (Fin n) α

/-- The routines are the mathematical ones: real sine, cosine and tangent,
`atan2 y x` the argument of `x + y i`, and `inverse` the matrix inverse on
every invertible matrix (nothing is said about it on singular ones). -/
structure Numerics.Exact (L : Numerics ℝ) : Prop where
  sin_eq : ∀ x, L.sin x = Real.sin x
  cos_eq : ∀ x, L.cos x = Real.cos x
  tan_eq : ∀ x, L.tan x = Real.tan x
  atan2_eq : ∀ y x, L.atan2 y x = Complex.arg ((x : ℂ) + (y : ℂ) * Complex.I)
  inverse_eq : ∀ (n : ℕ) (S : Matrix (Fin n) (Fin n) ℝ), IsUnit S.det → L.inverse n S = S⁻¹

section Blocks

variable {α : Type}

/-- Eigen `x.block(i0, 0, p, 1)` of a column vector (read). -/
def vecBlock {n : ℕ} (x : Fin n → α) (i0 p : ℕ) (h : i0 + p ≤ n) : Fin p → α :=
  fun i => x ⟨i0 + i.val, by omega⟩

/-- Eigen `x.block(i0, 0, p, 1) = y` of a column vector (write). -/
def setVecBlock {n p : ℕ} (x : Fin n → α) (i0 : ℕ) (y : Fin p → α) : Fin n → α :=
  fun i => if h : i0 ≤ i.val ∧ i.val < i0 + p then y ⟨i.val - i0, by omega⟩ else x i

/-- Eigen `M.block(i0, j0, p, q)` (read). -/
def block {r c : ℕ} (M : Matrix (Fin r) (Fin c) α) (i0 j0 p q : ℕ)
    (hi : i0 + p ≤ r) (hj : j0 + q ≤ c) : Matrix (Fin p) (Fin q) α :=
  Matrix.of fun i j => M ⟨i0 + i.val, by omega⟩ ⟨j0 + j.val, by omega⟩

/-- Eigen `M.block(i0, j0, p, q) = B` (write). -/
def setBlock {r c p q : ℕ} (M : Matrix (Fin r) (Fin c) α) (i0 j0 : ℕ)
    (B : Matrix (Fin p) (Fin q) α) : Matrix (Fin r) (Fin c) α :=
  Matrix.of fun i j =>
    if h : (i0 ≤ i.val ∧ i.val < i0 + p) ∧ (j0 ≤ j.val ∧ j.val < j0 + q) then
      B ⟨i.val - i0, by omega⟩ ⟨j.val - j0, by omega⟩
    else M i j

end Blocks

/-! ## Configuration and filter state -/

/-- The process-wide parameters read in `main`. -/
structure Config (α : Type) where
  enableFilter : Bool
  enableImu : Bool
  enableWheel : Bool
  enableLidar : Bool
  lidarG : α
  wheelG : α
  imuG : α
  gamma_vx : α
  gamma_omegaz : α
  delta_vx : α
  delta_omegaz : α
  filterFreq : String

/-- The data members of `class AdaptiveFilter` that the filter reads or
writes (the ROS handles and the unused `V`, `PV`, bias fields are left out). -/
structure AdaptiveFilter (α : Type) where
  headerI : α
  headerW : α
  headerL : α
  imuMeasure : Fin 9 → α
  wheelMeasure : Fin 2 → α
  lidarMeasure : Fin 6 → α
  lidarMeasureL : Fin 6 → α
  E_imu : Matrix (Fin 9) (Fin 9) α
  E_wheel : Matrix (Fin 2) (Fin 2) α
  E_lidar : Matrix (Fin 6) (Fin 6) α
  E_lidarL : Matrix (Fin 6) (Fin 6) α
  E_pred : Matrix (Fin 12) (Fin 12) α
  X : Fin 12 → α
  P : Matrix (Fin 12) (Fin 12) α
  imuTimeLast : α
  wheelTimeLast : α
  lidarTimeLast : α
  imuTimeCurrent : α
  wheelTimeCurrent : α
  lidarTimeCurrent : α
  imu_dt : α
  wheel_dt : α
  lidar_dt : α
  imuActivated : Bool
  wheelActivated : Bool
  lidarActivated : Bool
  imuNew : Bool
  wheelNew : Bool
  lidarNew : Bool
  velComp : Bool

section Model

variable {α : Type} [LinearOrderedField α]

/-- The body of `initialization()`: every field it assigns; `imu_dt` and the
headers are not assigned there and keep the value they had. -/
def initialization (s : AdaptiveFilter α) : AdaptiveFilter α :=
  let P0 : Matrix (Fin 12) (Fin 12) α := Matrix.diagonal fun _ => 0.1
  { s with
    imuTimeLast := 0
    lidarTimeLast := 0
    wheelTimeLast := 0
    imuTimeCurrent := 0
    lidarTimeCurrent := 0
    wheelTimeCurrent := 0
    wheel_dt := 0.05
    lidar_dt := 0.1
    imuActivated := false
    lidarActivated := false
    wheelActivated := false
    imuNew := false
    wheelNew := false
    lidarNew := false
    velComp := false
    imuMeasure := 0
    wheelMeasure := 0
    lidarMeasure := 0
    lidarMeasureL := 0
    E_imu := 0
    E_lidar := 0
    E_lidarL := 0
    E_wheel := 0
    E_pred := setBlock 0 6 6 ((0.01 : α) • block P0 6 6 6 6 (by decide) (by decide))
    X := 0
    P := P0 }

/-! ## Models -/

/-- Rotation about the x axis, `Eigen::AngleAxisd(a, UnitX())` as a matrix. -/
def Rx (L : Numerics α) (a : α) : Matrix (Fin 3) (Fin 3) α :=
  !![1, 0, 0; 0, L.cos a, -L.sin a; 0, L.sin a, L.cos a]

/-- Rotation about the y axis, `Eigen::AngleAxisd(a, UnitY())` as a matrix. -/
def Ry (L : Numerics α) (a : α) : Matrix (Fin 3) (Fin 3) α :=
  !![L.cos a, 0, L.sin a; 0, 1, 0; -L.sin a, 0, L.cos a]

/-- Rotation about the z axis, `Eigen::AngleAxisd(a, UnitZ())` as a matrix. -/
def Rz (L : Numerics α) (a : α) : Matrix (Fin 3) (Fin 3) α :=
  !![L.cos a, -L.sin a, 0; L.sin a, L.cos a, 0; 0, 0, 1]

/-- The matrix `J` written out in `f_prediction_model` and in
`indirect_lidar_measurement` (body angular velocity to Euler-angle rates). -/
def eulerRateJ (L : Numerics α) (roll pitch : α) : Matrix (Fin 3) (Fin 3) α :=
  !![1, L.sin roll * L.tan pitch, L.cos roll * L.tan pitch;
     0, L.cos roll, -L.sin roll;
     0, L.sin roll / L.cos pitch, L.cos roll / L.cos pitch]

/-- The scratch copy `x2` of `f_prediction_model`: the state with entries
7, 8, 9, 10 overwritten by zero (`x2.block(7,0,4,1) << 0, 0, 0, 0`). -/
def f_prediction_model_x2 (x : Fin 12 → α) : Fin 12 → α :=
  setVecBlock x 7 (![0, 0, 0, 0] : Fin 4 → α)

/-- The matrix `A` of `f_prediction_model`: identity with `R = Rz Ry Rx` in
the top-left and `J` in the bottom-right 3 × 3 block. -/
def f_prediction_model_A (L : Numerics α) (x : Fin 12 → α) : Matrix (Fin 6) (Fin 6) α :=
  setBlock (setBlock (1 : Matrix (Fin 6) (Fin 6) α) 0 0 (Rz L (x 5) * Ry L (x 4) * Rx L (x 3)))
    3 3 (eulerRateJ L (x 3) (x 4))

/-- `VectorXd f_prediction_model(VectorXd x, double dt)`. -/
def f_prediction_model (L : Numerics α) (x : Fin 12 → α) (dt : α) : Fin 12 → α :=
  let x2 := f_prediction_model_x2 x
  let A := f_prediction_model_A L x
  let xp : Fin 12 → α := 0
  let xp := setVecBlock xp 0
    (vecBlock x2 0 6 (by decide) + dt • (A.mulVec (vecBlock x2 6 6 (by decide))))
  setVecBlock xp 6 (vecBlock x2 6 6 (by decide))

/-- `MatrixXd jacobian_state(VectorXd x, double dt)`: column `i` is the
forward difference of `f_prediction_model` in coordinate `i` with step
`0.0001`, rows 3, 4, 5 of it replaced by `sin(f1 - f0)/delta`. -/
def jacobian_state (L : Numerics α) (x : Fin 12 → α) (dt : α) : Matrix (Fin 12) (Fin 12) α :=
  let f0 := f_prediction_model L x dt
  let delta : α := 0.0001
  Matrix.of fun r i =>
    let x_plus := Function.update x i (x i + delta)
    let f1 := f_prediction_model L x_plus dt
    if r.val = 3 ∨ r.val = 4 ∨ r.val = 5 then L.sin (f1 r - f0 r) / delta
    else (f1 r - f0 r) / delta

/-- `void prediction_stage(double dt)`. -/
def prediction_stage (L : Numerics α) (s : AdaptiveFilter α) (dt : α) : AdaptiveFilter α :=
  let F := jacobian_state L s.X dt
  { s with
    X := f_prediction_model L s.X dt
    P := F * s.P * F.transpose + s.E_pred }

/-- `VectorXd indirect_lidar_measurement(VectorXd u, VectorXd ul, double dt)`. -/
def indirect_lidar_measurement (L : Numerics α) (u ul : Fin 6 → α) (dt : α) : Fin 6 → α :=
  let R := Rz L (ul 5) * Ry L (ul 4) * Rx L (ul 3)
  let J := eulerRateJ L (ul 3) (ul 4)
  let u_diff : Fin 6 → α := 0
  let u_diff := setVecBlock u_diff 0 (vecBlock u 0 3 (by decide) - vecBlock ul 0 3 (by decide))
  let u_diff := Function.update u_diff 3 (L.atan2 (L.sin (u 3 - ul 3)) (L.cos (u 3 - ul 3)))
  let u_diff := Function.update u_diff 4 (L.atan2 (L.sin (u 4 - ul 4)) (L.cos (u 4 - ul 4)))
  let u_diff := Function.update u_diff 5 (L.atan2 (L.sin (u 5 - ul 5)) (L.cos (u 5 - ul 5)))
  let A : Matrix (Fin 6) (Fin 6) α := 0
  let A := setBlock A 0 0 R.transpose
  let A := setBlock A 3 3 (L.inverse 3 J)
  fun i => (A.mulVec u_diff) i / dt

/-- `MatrixXd jacobian_lidar_measurement(VectorXd u, VectorXd ul, double dt)`:
forward differences in the current pose `u`, step `0.0000001`. -/
def jacobian_lidar_measurement (L : Numerics α) (u ul : Fin 6 → α) (dt : α) :
    Matrix (Fin 6) (Fin 6) α :=
  let f0 := indirect_lidar_measurement L u ul dt
  let delta : α := 0.0000001
  Matrix.of fun r i =>
    let u_plus := Function.update u i (u i + delta)
    let f1 := indirect_lidar_measurement L u_plus ul dt
    if r.val = 3 ∨ r.val = 4 ∨ r.val = 5 then L.sin (f1 r - f0 r) / delta
    else (f1 r - f0 r) / delta

/-- `MatrixXd jacobian_lidar_measurementL(VectorXd u, VectorXd ul, double dt)`:
forward differences in the previous pose `ul`, step `0.0000001`. -/
def jacobian_lidar_measurementL (L : Numerics α) (u ul : Fin 6 → α) (dt : α) :
    Matrix (Fin 6) (Fin 6) α :=
  let f0 := indirect_lidar_measurement L u ul dt
  let delta : α := 0.0000001
  Matrix.of fun r i =>
    let ul_plus := Function.update ul i (ul i + delta)
    let f1 := indirect_lidar_measurement L u ul_plus dt
    if r.val = 3 ∨ r.val = 4 ∨ r.val = 5 then L.sin (f1 r - f0 r) / delta
    else (f1 r - f0 r) / delta

/-! ## Correction stages

The local variables `H`, `S`, `K` (and `Y`, `hx`, `Q`, `residues`) of each
stage are definitions of their own, so that statements can name them. -/

/-- `M(i, j) = v` on a matrix. -/
def setEntry {r c : ℕ} (M : Matrix (Fin r) (Fin c) α) (i : Fin r) (j : Fin c) (v : α) :
    Matrix (Fin r) (Fin c) α :=
  Matrix.of fun a b => if a = i ∧ b = j then v else M a b

/-- `H` of `correction_wheel_stage`: zero but `H(0,6) = 1`, `H(1,11) = 1`. -/
def wheel_H (α : Type) [LinearOrderedField α] : Matrix (Fin 2) (Fin 12) α :=
  setEntry (setEntry 0 0 6 1) 1 11 1

/-- `hx` of `correction_wheel_stage`. -/
def wheel_hx (s : AdaptiveFilter α) : Fin 2 → α := ![s.X 6, s.X 11]

/-- `S = H*P*H.transpose() + E` of `correction_wheel_stage`, `E` being `E_wheel`. -/
def wheel_S (s : AdaptiveFilter α) : Matrix (Fin 2) (Fin 2) α :=
  wheel_H α * s.P * (wheel_H α).transpose + s.E_wheel

/-- `K = P*H.transpose()*S.inverse()` of `correction_wheel_stage`. -/
def wheel_K (L : Numerics α) (s : AdaptiveFilter α) : Matrix (Fin 12) (Fin 2) α :=
  s.P * (wheel_H α).transpose * L.inverse 2 (wheel_S s)

/-- `void correction_wheel_stage(double dt)`; `dt` is not used by the body. -/
def correction_wheel_stage (L : Numerics α) (s : AdaptiveFilter α) (_dt : α) :
    AdaptiveFilter α :=
  let Y := s.wheelMeasure
  { s with
    X := s.X + (wheel_K L s).mulVec (Y - wheel_hx s)
    P := s.P - wheel_K L s * wheel_H α * s.P }

/-- `H` of `correction_imu_stage`: zero but the identity in columns 3, 4, 5. -/
def imu_H (α : Type) [LinearOrderedField α] : Matrix (Fin 3) (Fin 12) α :=
  setBlock 0 0 3 (1 : Matrix (Fin 3) (Fin 3) α)

/-- `S` of `correction_imu_stage`, with `E = E_imu.block(6,6,3,3)`. -/
def imu_S (s : AdaptiveFilter α) : Matrix (Fin 3) (Fin 3) α :=
  imu_H α * s.P * (imu_H α).transpose + block s.E_imu 6 6 3 3 (by decide) (by decide)

/-- `K` of `correction_imu_stage`.  Where `S` is singular the source's
`Matrix3d::inverse()` divides by a zero determinant and `K` holds infinities and
NaN; `L.inverse` is unspecified there, so what is stated about the output of
the stage is stated for an invertible `S`. -/
def imu_K (L : Numerics α) (s : AdaptiveFilter α) : Matrix (Fin 12) (Fin 3) α :=
  s.P * (imu_H α).transpose * L.inverse 3 (imu_S s)

/-- `residues` of `correction_imu_stage`: `atan2(sin(Y - hx), cos(Y - hx))`
per angle, with `hx = X.block(3,0,3,1)` and `Y = imuMeasure.block(6,0,3,1)`. -/
def imu_residues (L : Numerics α) (s : AdaptiveFilter α) : Fin 3 → α :=
  let hx := vecBlock s.X 3 3 (by decide)
  let Y := vecBlock s.imuMeasure 6 3 (by decide)
  ![L.atan2 (L.sin (Y 0 - hx 0)) (L.cos (Y 0 - hx 0)),
    L.atan2 (L.sin (Y 1 - hx 1)) (L.cos (Y 1 - hx 1)),
    L.atan2 (L.sin (Y 2 - hx 2)) (L.cos (Y 2 - hx 2))]

/-- `void correction_imu_stage(double dt)`; `dt` is not used by the body. -/
def correction_imu_stage (L : Numerics α) (s : AdaptiveFilter α) (_dt : α) :
    AdaptiveFilter α :=
  let KR := (imu_K L s).mulVec (imu_residues L s)
  let X := s.X
  let X := setVecBlock X 0 (vecBlock X 0 3 (by decide) + vecBlock KR 0 3 (by decide))
  let X := Function.update X 3 (L.atan2 (L.sin (X 3 + KR 3)) (L.cos (X 3 + KR 3)))
  let X := Function.update X 4 (L.atan2 (L.sin (X 4 + KR 4)) (L.cos (X 4 + KR 4)))
  let X := Function.update X 5 (L.atan2 (L.sin (X 5 + KR 5)) (L.cos (X 5 + KR 5)))
  let X := setVecBlock X 6 (vecBlock X 6 6 (by decide) + vecBlock KR 6 6 (by decide))
  { s with
    X := X
    P := s.P - imu_K L s * imu_H α * s.P }

/-- `H` of `correction_lidar_stage`: zero but the identity in columns 6..11. -/
def lidar_H (α : Type) [LinearOrderedField α] : Matrix (Fin 6) (Fin 12) α :=
  setBlock 0 0 6 (1 : Matrix (Fin 6) (Fin 6) α)

/-- `Q` of `correction_lidar_stage`: the noise of both poses propagated
through the two numeric Jacobians. -/
def lidar_Q (L : Numerics α) (s : AdaptiveFilter α) (dt : α) : Matrix (Fin 6) (Fin 6) α :=
  let G := jacobian_lidar_measurement L s.lidarMeasure s.lidarMeasureL dt
  let Gl := jacobian_lidar_measurementL L s.lidarMeasure s.lidarMeasureL dt
  G * s.E_lidar * G.transpose + Gl * s.E_lidarL * Gl.transpose

/-- `S = H*P*H.transpose() + Q` of `correction_lidar_stage`. -/
def lidar_S (L : Numerics α) (s : AdaptiveFilter α) (dt : α) : Matrix (Fin 6) (Fin 6) α :=
  lidar_H α * s.P * (lidar_H α).transpose + lidar_Q L s dt

/-- `K` of `correction_lidar_stage`. -/
def lidar_K (L : Numerics α) (s : AdaptiveFilter α) (dt : α) : Matrix (Fin 12) (Fin 6) α :=
  s.P * (lidar_H α).transpose * L.inverse 6 (lidar_S L s dt)

/-- `void correction_lidar_stage(double dt)`. -/
def correction_lidar_stage (L : Numerics α) (s : AdaptiveFilter α) (dt : α) :
    AdaptiveFilter α :=
  let hx := vecBlock s.X 6 6 (by decide)
  let Y := indirect_lidar_measurement L s.lidarMeasure s.lidarMeasureL dt
  { s with
    X := s.X + (lidar_K L s dt).mulVec (Y - hx)
    P := s.P - lidar_K L s dt * lidar_H α * s.P
    lidarMeasureL := s.lidarMeasure
    E_lidarL := s.E_lidar }

/-- `void wheelOdometryAdaptiveCovariance()`. -/
def wheelOdometryAdaptiveCovariance (cfg : Config α) (s : AdaptiveFilter α) :
    AdaptiveFilter α :=
  let omegaz_wheel_odom := s.wheelMeasure 1
  let omegaz_imu := s.imuMeasure 5
  let E := setEntry s.E_wheel 0 0 (cfg.gamma_vx * |omegaz_wheel_odom - omegaz_imu| + cfg.delta_vx)
  let E := setEntry E 1 1 (cfg.gamma_omegaz * |omegaz_wheel_odom - omegaz_imu| + cfg.delta_omegaz)
  { s with E_wheel := E }

end Model

/-! ## Callbacks -/

/-- The fields of a `sensor_msgs::Imu` record that `imuHandler` reads; `rpy`
is the roll, pitch, yaw that `getRPY` returns for the record's orientation. -/
structure Imu (α : Type) where
  stamp : α
  linear_acceleration : Fin 3 → α
  angular_velocity : Fin 3 → α
  rpy : Fin 3 → α
  linear_acceleration_covariance : Fin 9 → α
  angular_velocity_covariance : Fin 9 → α
  orientation_covariance : Fin 9 → α

/-- The fields of a `nav_msgs::Odometry` record that the wheel and the lidar
handler read; `rpy` is the roll, pitch, yaw of the pose orientation. -/
structure Odometry (α : Type) where
  stamp : α
  position : Fin 3 → α
  rpy : Fin 3 → α
  pose_covariance : Fin 36 → α
  twist_linear : Fin 3 → α
  twist_angular : Fin 3 → α

section Handlers

variable {α : Type} [LinearOrderedField α]

/-- `void imuHandler(const sensor_msgs::Imu::ConstPtr& imuIn)`; `timeL` and
`timeEnd` are the two readings of `ros::Time::now()`. -/
def imuHandler (cfg : Config α) (timeL timeEnd : α) (imuIn : Imu α) (s : AdaptiveFilter α) :
    AdaptiveFilter α :=
  let imuTimeCurrent := imuIn.stamp
  let imuTimeLast := if s.imuActivated then s.imuTimeCurrent else imuTimeCurrent + 0.01
  let imuMeasure := setVecBlock s.imuMeasure 0 imuIn.linear_acceleration
  let imuMeasure := setVecBlock imuMeasure 3 imuIn.angular_velocity
  let imuMeasure := setVecBlock imuMeasure 6 imuIn.rpy
  let a := imuIn.linear_acceleration_covariance
  let g := imuIn.angular_velocity_covariance
  let o := imuIn.orientation_covariance
  let E := setBlock s.E_imu 0 0 !![a 0, a 1, a 2; a 3, a 4, a 5; a 6, a 7, a 8]
  let E := setBlock E 3 3 !![g 0, g 1, g 2; g 3, g 4, g 5; g 6, g 7, g 8]
  let E := setBlock E 6 6 !![o 0, o 1, o 2; o 3, o 4, o 5; o 6, o 7, o 4]
  let E := setBlock E 3 3 (cfg.imuG • block E 3 3 3 3 (by decide) (by decide))
  let E := setBlock E 6 6 (cfg.imuG • block E 6 6 3 3 (by decide) (by decide))
  let timediff := timeEnd - timeL + imuTimeCurrent
  { s with
    imuTimeLast := imuTimeLast
    imuTimeCurrent := imuTimeCurrent
    imuActivated := true
    imuMeasure := imuMeasure
    E_imu := E
    imu_dt := 0.02
    headerI := timediff
    imuNew := true }

/-- `void wheelOdometryHandler(const nav_msgs::Odometry::ConstPtr& wheelOdometry)`. -/
def wheelOdometryHandler (cfg : Config α) (timeL timeEnd : α) (wheelOdometry : Odometry α)
    (s : AdaptiveFilter α) : AdaptiveFilter α :=
  let wheelTimeCurrent := wheelOdometry.stamp
  let wheelTimeLast := if s.wheelActivated then s.wheelTimeCurrent else wheelTimeCurrent + 0.05
  let s1 : AdaptiveFilter α :=
    { s with
      wheelTimeLast := wheelTimeLast
      wheelTimeCurrent := wheelTimeCurrent
      wheelActivated := true
      wheelMeasure := ![1.0 * wheelOdometry.twist_linear 0, wheelOdometry.twist_angular 2] }
  let s2 := wheelOdometryAdaptiveCovariance cfg s1
  let timediff := timeEnd - timeL + wheelTimeCurrent
  { s2 with
    wheel_dt := 0.02
    headerW := timediff
    wheelNew := true }

/-- `void laserOdometryHandler(const nav_msgs::Odometry::ConstPtr& laserOdometry)`. -/
def laserOdometryHandler (cfg : Config α) (timeL timeEnd : α) (laserOdometry : Odometry α)
    (s : AdaptiveFilter α) : AdaptiveFilter α :=
  let lidarTimeCurrent := laserOdometry.stamp
  let lidarTimeLast := if s.lidarActivated then s.lidarTimeCurrent else lidarTimeCurrent + 0.1
  let lidarMeasure := setVecBlock s.lidarMeasure 0 laserOdometry.position
  let lidarMeasure := setVecBlock lidarMeasure 3 laserOdometry.rpy
  let E_lidar : Matrix (Fin 6) (Fin 6) α :=
    Matrix.of fun i j => cfg.lidarG * laserOdometry.pose_covariance ⟨6 * i.val + j.val, by omega⟩
  let timediff := timeEnd - timeL + lidarTimeCurrent
  { s with
    lidarTimeLast := lidarTimeLast
    lidarTimeCurrent := lidarTimeCurrent
    lidarActivated := true
    lidarMeasure := lidarMeasure
    E_lidar := E_lidar
    lidar_dt := 0.1
    headerL := timediff
    lidarNew := true }

end Handlers

/-! ## The scheduler loop -/

/-- The filter object together with the local variables of `run()` that
live across iterations of its loop. -/
structure RunState (α : Type) where
  AF : AdaptiveFilter α
  t_last : α
  pub_lidar : Bool
  pub_wheel : Bool
  pub_imu : Bool
  pub_pred : Bool

section Run

variable {α : Type} [LinearOrderedField α]

/-- The state on entry to the loop of `run()`, `t0` being the clock reading
`t_last` is initialised with. -/
def run_init (af : AdaptiveFilter α) (t0 : α) : RunState α :=
  { AF := af, t_last := t0, pub_lidar := false, pub_wheel := false, pub_imu := false,
    pub_pred := false }

/-- The prediction block of the loop body. -/
def run_prediction (cfg : Config α) (L : Numerics α) (t_now : α) (st : RunState α) :
    RunState α :=
  if cfg.enableFilter then
    let dt_now := t_now - st.t_last
    { st with
      t_last := t_now
      AF := prediction_stage L st.AF dt_now
      pub_pred := if cfg.filterFreq = "p" then true else st.pub_pred }
  else st

/-- The IMU correction block of the loop body. -/
def run_imu (cfg : Config α) (L : Numerics α) (st : RunState α) : RunState α :=
  if cfg.enableFilter && cfg.enableImu && st.AF.imuActivated && st.AF.imuNew then
    { st with
      AF := { correction_imu_stage L st.AF st.AF.imu_dt with imuNew := false }
      pub_imu := if cfg.filterFreq = "i" then true else st.pub_imu }
  else st

/-- The wheel correction block of the loop body. -/
def run_wheel (cfg : Config α) (L : Numerics α) (st : RunState α) : RunState α :=
  if cfg.enableFilter && cfg.enableWheel && st.AF.wheelActivated && st.AF.wheelNew then
    { st with
      AF := { correction_wheel_stage L st.AF st.AF.wheel_dt with wheelNew := false }
      pub_wheel := if cfg.filterFreq = "w" then true else st.pub_wheel }
  else st

/-- The lidar correction block of the loop body. -/
def run_lidar (cfg : Config α) (L : Numerics α) (st : RunState α) : RunState α :=
  if cfg.enableFilter && cfg.enableLidar && st.AF.lidarActivated && st.AF.lidarNew then
    { st with
      AF := { correction_lidar_stage L st.AF st.AF.lidar_dt with lidarNew := false }
      pub_lidar := if cfg.filterFreq = "l" then true else st.pub_lidar }
  else st

/-- The publishing block of the loop body: the argument of the one
`publish_odom` call it makes, if any, and the flags after it. -/
def run_publish (st : RunState α) : RunState α × Option Char :=
  if st.pub_pred then ({ st with pub_pred := false }, some 'p')
  else if st.pub_lidar then ({ st with pub_lidar := false }, some 'l')
  else if st.pub_wheel then ({ st with pub_wheel := false }, some 'w')
  else if st.pub_imu then ({ st with pub_imu := false }, some 'i')
  else (st, none)

/-- One iteration of the loop of `run()` up to `ros::spinOnce()`: prediction,
the three corrections in the order IMU, wheel, lidar, then publishing.
`t_now` is the clock reading of the iteration. -/
def run_tick (cfg : Config α) (L : Numerics α) (t_now : α) (st : RunState α) :
    RunState α × Option Char :=
  run_publish (run_lidar cfg L (run_wheel cfg L (run_imu cfg L (run_prediction cfg L t_now st))))

/-- The arrivals and ticks the node reacts to: the three callbacks, each with
its record and its two clock readings, and one iteration of the loop. -/
inductive Event (α : Type) where
  | imu (timeL timeEnd : α) (imuIn : Imu α)
  | wheel (timeL timeEnd : α) (wheelOdometry : Odometry α)
  | lidar (timeL timeEnd : α) (laserOdometry : Odometry α)
  | tick (t_now : α)

/-- Whether an event is the arrival of an IMU record. -/
def Event.isImu {α : Type} : Event α → Bool
  | .imu _ _ _ => true
  | _ => false

/-- Whether an event is the arrival of a wheel-odometry record. -/
def Event.isWheel {α : Type} : Event α → Bool
  | .wheel _ _ _ => true
  | _ => false

/-- Whether an event is the arrival of a lidar-odometry record. -/
def Event.isLidar {α : Type} : Event α → Bool
  | .lidar _ _ _ => true
  | _ => false

/-- The effect of one event on the running node; callbacks run from
`ros::spinOnce()` between two iterations of the loop. -/
def step (cfg : Config α) (L : Numerics α) (st : RunState α) : Event α → RunState α
  | .imu timeL timeEnd imuIn => { st with AF := imuHandler cfg timeL timeEnd imuIn st.AF }
  | .wheel timeL timeEnd w => { st with AF := wheelOdometryHandler cfg timeL timeEnd w st.AF }
  | .lidar timeL timeEnd l => { st with AF := laserOdometryHandler cfg timeL timeEnd l st.AF }
  | .tick t_now => (run_tick cfg L t_now st).1

/-- The state after a sequence of events, oldest first. -/
def runEvents (cfg : Config α) (L : Numerics α) (st : RunState α) (es : List (Event α)) :
    RunState α :=
  es.foldl (step cfg L) st

end Run

/-! ## Observing the scheduler

The guards of the three correction blocks as predicates of their own, a count of
the calls of a correction stage along a run, and the filter that prediction alone
produces. -/


/-- The three sensors the scheduler serves. -/
inductive Sensor where
  | imu
  | wheel
  | lidar

/-- Whether an event is an iteration of the loop. -/
def Event.isTick {α : Type} : Event α → Bool
  | .tick _ => true
  | _ => false

/-- Whether an event is the arrival of a record of the given sensor. -/
def Event.isArrivalOf {α : Type} (k : Sensor) (e : Event α) : Bool :=
  match k with
  | .imu => e.isImu
  | .wheel => e.isWheel
  | .lidar => e.isLidar

section Guards

variable {α : Type} [LinearOrderedField α]

/-- The `Activated` flag of a sensor. -/
def Sensor.activated (k : Sensor) (s : AdaptiveFilter α) : Bool :=
  match k with
  | .imu => s.imuActivated
  | .wheel => s.wheelActivated
  | .lidar => s.lidarActivated

/-- The `New` flag of a sensor. -/
def Sensor.isNew (k : Sensor) (s : AdaptiveFilter α) : Bool :=
  match k with
  | .imu => s.imuNew
  | .wheel => s.wheelNew
  | .lidar => s.lidarNew

/-- The enable parameter of a sensor. -/
def Sensor.enabled (k : Sensor) (cfg : Config α) : Bool :=
  match k with
  | .imu => cfg.enableImu
  | .wheel => cfg.enableWheel
  | .lidar => cfg.enableLidar

/-- The condition of the `if` that guards a sensor's correction in the loop body. -/
def correctionGuard (cfg : Config α) (k : Sensor) (s : AdaptiveFilter α) : Bool :=
  match k with
  | .imu => cfg.enableFilter && cfg.enableImu && s.imuActivated && s.imuNew
  | .wheel => cfg.enableFilter && cfg.enableWheel && s.wheelActivated && s.wheelNew
  | .lidar => cfg.enableFilter && cfg.enableLidar && s.lidarActivated && s.lidarNew

/-- Whether the tick at `t_now` calls the sensor's correction stage: its guard, read
where the loop body reads it (IMU after the prediction block, wheel after the IMU
block, lidar after the wheel block). -/
def correctionRuns (cfg : Config α) (L : Numerics α) (k : Sensor) (t_now : α)
    (st : RunState α) : Bool :=
  match k with
  | .imu => correctionGuard cfg .imu (run_prediction cfg L t_now st).AF
  | .wheel => correctionGuard cfg .wheel (run_imu cfg L (run_prediction cfg L t_now st)).AF
  | .lidar =>
    correctionGuard cfg .lidar
      (run_wheel cfg L (run_imu cfg L (run_prediction cfg L t_now st))).AF

/-- The number of calls of a sensor's correction stage along a sequence of events. -/
def correctionCount (cfg : Config α) (L : Numerics α) (k : Sensor) :
    RunState α → List (Event α) → ℕ
  | _, [] => 0
  | st, e :: es =>
    (match e with
      | .tick t_now => if correctionRuns cfg L k t_now st then 1 else 0
      | _ => 0)
    + correctionCount cfg L k (step cfg L st e) es

/-- What prediction alone makes of a filter over the ticks at the clock readings `ts`,
the previous reading being `t_last`. -/
def predictionOnly (L : Numerics α) : AdaptiveFilter α → α → List α → AdaptiveFilter α
  | s, _, [] => s
  | s, t_last, t_now :: ts => predictionOnly L (prediction_stage L s (t_now - t_last)) t_now ts

/-- The filter `s` with the nine time-keeping fields (the last and current stamp
and the output header of each sensor) taken from `t`. -/
def withClockFieldsOf (s t : AdaptiveFilter α) : AdaptiveFilter α :=
  { s with
    headerI := t.headerI
    headerW := t.headerW
    headerL := t.headerL
    imuTimeLast := t.imuTimeLast
    wheelTimeLast := t.wheelTimeLast
    lidarTimeLast := t.lidarTimeLast
    imuTimeCurrent := t.imuTimeCurrent
    wheelTimeCurrent := t.wheelTimeCurrent
    lidarTimeCurrent := t.lidarTimeCurrent }

end Guards

section Fixtures

variable (α : Type) [LinearOrderedField α]

/-- A filter object whose every field is zero or false: the object as
constructed, before `initialization()` runs. -/
def blankFilter : AdaptiveFilter α :=
  { headerI := 0, headerW := 0, headerL := 0, imuMeasure := 0, wheelMeasure := 0,
    lidarMeasure := 0, lidarMeasureL := 0, E_imu := 0, E_wheel := 0, E_lidar := 0,
    E_lidarL := 0, E_pred := 0, X := 0, P := 0, imuTimeLast := 0, wheelTimeLast := 0,
    lidarTimeLast := 0, imuTimeCurrent := 0, wheelTimeCurrent := 0, lidarTimeCurrent := 0,
    imu_dt := 0, wheel_dt := 0, lidar_dt := 0, imuActivated := false, wheelActivated := false,
    lidarActivated := false, imuNew := false, wheelNew := false, lidarNew := false,
    velComp := false }

/-- The parameter defaults of `main`. -/
def defaultConfig : Config α :=
  { enableFilter := true, enableImu := true, enableWheel := true, enableLidar := true,
    lidarG := 75, wheelG := 0.5, imuG := 100, gamma_vx := 0.05, gamma_omegaz := 0.01,
    delta_vx := 0.0001, delta_omegaz := 0.00001, filterFreq := "l" }

/-- An odometry record with every field zero. -/
def zeroOdometry : Odometry α :=
  { stamp := 0, position := 0, rpy := 0, pose_covariance := 0, twist_linear := 0,
    twist_angular := 0 }

/-- A lidar-odometry record reporting the pose one metre ahead on the x axis,
level, with zero covariance. -/
def oneMetreOdometry : Odometry α :=
  { zeroOdometry α with position := ![1, 0, 0] }

/-- An IMU record with every field zero. -/
def zeroImu : Imu α :=
  { stamp := 0, linear_acceleration := 0, angular_velocity := 0, rpy := 0,
    linear_acceleration_covariance := 0, angular_velocity_covariance := 0,
    orientation_covariance := 0 }

/-- The initialized filter with a covariance in which `vx` and `wz` are
perfectly correlated (ones in rows and columns 6 and 11, zero elsewhere) and
a pending wheel measurement `(1, 0)`; `E_wheel` is zero, so the wheel
innovation covariance is the singular matrix of ones. -/
def correlatedWheelFilter : AdaptiveFilter α :=
  { initialization (blankFilter α) with
    P := Matrix.of fun i j => if (i = 6 ∨ i = 11) ∧ (j = 6 ∨ j = 11) then 1 else 0
    wheelMeasure := ![1, 0] }

/-- The initialized filter with the yaw set to 3.14 rad and the yaw rate
`wz` set to 2 rad/s. -/
def nearPiYawFilter : AdaptiveFilter α :=
  { initialization (blankFilter α) with X := ![0, 0, 0, 0, 0, 3.14, 0, 0, 0, 0, 0, 2] }

/-- The initialized filter with the yaw set to 3.14 rad, the yaw rate `wz` set to
-1 rad/s, and a covariance of 0.05 between yaw and yaw rate. -/
def yawRateCorrelatedFilter : AdaptiveFilter α :=
  { initialization (blankFilter α) with
    X := ![0, 0, 0, 0, 0, 3.14, 0, 0, 0, 0, 0, -1]
    P := Matrix.of fun i j =>
      if i = j then 0.1 else if (i = 5 ∧ j = 11) ∨ (i = 11 ∧ j = 5) then 0.05 else 0 }

end Fixtures

/-! # Theorems -/

section BlockLemmas

variable {α : Type}

theorem vecBlock_apply {n : ℕ} (x : Fin n → α) (i0 p : ℕ) (h : i0 + p ≤ n) (i : Fin p) :
    vecBlock x i0 p h i = x ⟨i0 + i.val, by omega⟩ := rfl

theorem setVecBlock_apply {n p : ℕ} (x : Fin n → α) (i0 : ℕ) (y : Fin p → α) (i : Fin n) :
    setVecBlock x i0 y i
      = if h : i0 ≤ i.val ∧ i.val < i0 + p then y ⟨i.val - i0, by omega⟩ else x i := rfl

theorem block_apply {r c : ℕ} (M : Matrix (Fin r) (Fin c) α) (i0 j0 p q : ℕ)
    (hi : i0 + p ≤ r) (hj : j0 + q ≤ c) (i : Fin p) (j : Fin q) :
    block M i0 j0 p q hi hj i j = M ⟨i0 + i.val, by omega⟩ ⟨j0 + j.val, by omega⟩ := rfl

theorem setBlock_apply {r c p q : ℕ} (M : Matrix (Fin r) (Fin c) α) (i0 j0 : ℕ)
    (B : Matrix (Fin p) (Fin q) α) (i : Fin r) (j : Fin c) :
    setBlock M i0 j0 B i j
      = if h : (i0 ≤ i.val ∧ i.val < i0 + p) ∧ (j0 ≤ j.val ∧ j.val < j0 + q) then
          B ⟨i.val - i0, by omega⟩ ⟨j.val - j0, by omega⟩
        else M i j := rfl

theorem setBlock_apply_add {r c p q : ℕ} (M : Matrix (Fin r) (Fin c) α) (i0 j0 : ℕ)
    (B : Matrix (Fin p) (Fin q) α) (i : Fin p) (j : Fin q) (hi : i0 + i.val < r)
    (hj : j0 + j.val < c) : setBlock M i0 j0 B ⟨i0 + i.val, hi⟩ ⟨j0 + j.val, hj⟩ = B i j := by
  have h : (i0 ≤ i0 + i.val ∧ i0 + i.val < i0 + p) ∧ (j0 ≤ j0 + j.val ∧ j0 + j.val < j0 + q) :=
    ⟨⟨by omega, by omega⟩, ⟨by omega, by omega⟩⟩
  rw [setBlock_apply, dif_pos h]
  congr <;> simp

theorem setBlock_apply_of_not {r c p q : ℕ} (M : Matrix (Fin r) (Fin c) α) (i0 j0 : ℕ)
    (B : Matrix (Fin p) (Fin q) α) (i : Fin r) (j : Fin c)
    (h : ¬ ((i0 ≤ i.val ∧ i.val < i0 + p) ∧ (j0 ≤ j.val ∧ j.val < j0 + q))) :
    setBlock M i0 j0 B i j = M i j := by
  rw [setBlock_apply, dif_neg h]

theorem mat3_apply (a : Fin 9 → α) (i j : Fin 3) :
    (!![a 0, a 1, a 2; a 3, a 4, a 5; a 6, a 7, a 8] : Matrix (Fin 3) (Fin 3) α) i j
      = a ⟨3 * i.val + j.val, by omega⟩ := by
  fin_cases i <;> fin_cases j <;> rfl

theorem vec6_apply (a0 a1 a2 a3 a4 a5 : α) :
    (![a0, a1, a2, a3, a4, a5] : Fin 6 → α) 0 = a0 ∧
    (![a0, a1, a2, a3, a4, a5] : Fin 6 → α) 1 = a1 ∧
    (![a0, a1, a2, a3, a4, a5] : Fin 6 → α) 2 = a2 ∧
    (![a0, a1, a2, a3, a4, a5] : Fin 6 → α) 3 = a3 ∧
    (![a0, a1, a2, a3, a4, a5] : Fin 6 → α) 4 = a4 ∧
    (![a0, a1, a2, a3, a4, a5] : Fin 6 → α) 5 = a5 :=
  ⟨rfl, rfl, rfl, rfl, rfl, rfl⟩

end BlockLemmas

/-- The real-number library exists: real `sin`, `cos`, `tan`, `atan2` as the
argument of `x + y i`, and the matrix inverse. -/
theorem Numerics.exists_exact : ∃ L : Numerics ℝ, L.Exact :=
  ⟨⟨Real.sin, Real.cos, Real.tan, fun y x => Complex.arg ((x : ℂ) + (y : ℂ) * Complex.I),
    fun _ S => S⁻¹⟩, ⟨fun _ => rfl, fun _ => rfl, fun _ => rfl, fun _ _ => rfl, fun _ _ _ => rfl⟩⟩

section Prediction

variable {α : Type} [LinearOrderedField α]

/-- What `f_prediction_model` returns in the six velocity components. -/
theorem f_prediction_model_vel (L : Numerics α) (x : Fin 12 → α) (dt : α) :
    f_prediction_model L x dt 6 = x 6 ∧ f_prediction_model L x dt 7 = 0 ∧
    f_prediction_model L x dt 8 = 0 ∧ f_prediction_model L x dt 9 = 0 ∧
    f_prediction_model L x dt 10 = 0 ∧ f_prediction_model L x dt 11 = x 11 := by
  simp [f_prediction_model, setVecBlock_apply, vecBlock_apply, f_prediction_model_x2,
    Fin.coe_ofNat_eq_mod]

/-- The velocity part of the scratch copy `x2`. -/
theorem f_prediction_model_x2_vel (x : Fin 12 → α) :
    vecBlock (f_prediction_model_x2 x) 6 6 (by decide) = ![x 6, 0, 0, 0, 0, x 11] := by
  funext i
  fin_cases i
  all_goals simp [setVecBlock_apply, vecBlock_apply, f_prediction_model_x2, Fin.coe_ofNat_eq_mod]
  rfl

/-- The pose components of `f_prediction_model`: the pose plus `dt` times
`A` applied to the velocities with `vy, vz, wx, wy` suppressed. -/
theorem f_prediction_model_pose (L : Numerics α) (x : Fin 12 → α) (dt : α) (i : Fin 12)
    (h : i.val < 6) :
    f_prediction_model L x dt i
      = x i + dt * ((f_prediction_model_A L x).mulVec ![x 6, 0, 0, 0, 0, x 11]) ⟨i.val, h⟩ := by
  have hx2 := f_prediction_model_x2_vel x
  have hx : f_prediction_model_x2 x i = x i := by
    simp only [f_prediction_model_x2, setVecBlock_apply]
    rw [dif_neg (by omega)]
  simp only [f_prediction_model, setVecBlock_apply, hx2]
  rw [dif_neg (by omega), dif_pos (by omega)]
  simp [vecBlock_apply, hx]

/-- Rows 6..11 of `jacobian_state`: rows 6 and 11 are unit vectors, rows
7..10 are zero, for every state and every `dt`. -/
theorem jacobian_state_vel_rows (L : Numerics α) (x : Fin 12 → α) (dt : α) (r k : Fin 12)
    (hr : 6 ≤ r.val) :
    jacobian_state L x dt r k = if (r = 6 ∨ r = 11) ∧ k = r then 1 else 0 := by
  have hd : (0.0001 : α) ≠ 0 := by norm_num
  have h345 : ¬ (r.val = 3 ∨ r.val = 4 ∨ r.val = 5) := by omega
  simp only [jacobian_state, Matrix.of_apply, if_neg h345]
  have hv := fun y => f_prediction_model_vel L y dt
  fin_cases r <;> simp at hr <;> fin_cases k <;>
    simp [hv, Function.update, hd]

/-- The matrix `A` applied to a velocity vector whose entries 1..4 are zero. -/
theorem f_prediction_model_A_mulVec (L : Numerics α) (x : Fin 12 → α) (a b : α) :
    (f_prediction_model_A L x).mulVec ![a, 0, 0, 0, 0, b]
      = ![L.cos (x 5) * L.cos (x 4) * a, L.sin (x 5) * L.cos (x 4) * a, -L.sin (x 4) * a,
          L.cos (x 3) * L.tan (x 4) * b, -L.sin (x 3) * b, L.cos (x 3) / L.cos (x 4) * b] := by
  funext i
  fin_cases i
  all_goals
    simp [f_prediction_model_A, setBlock_apply, Matrix.mulVec, Matrix.dotProduct,
      Fin.sum_univ_six, Fin.sum_univ_three, Rx, Ry, Rz, eulerRateJ, Matrix.mul_apply,
      Fin.coe_ofNat_eq_mod, Matrix.one_apply, vec6_apply]

/-- The six pose components of `f_prediction_model`, written out. -/
theorem f_prediction_model_pose_explicit (L : Numerics α) (x : Fin 12 → α) (dt : α) :
    f_prediction_model L x dt 0 = x 0 + dt * (L.cos (x 5) * L.cos (x 4) * x 6) ∧
    f_prediction_model L x dt 1 = x 1 + dt * (L.sin (x 5) * L.cos (x 4) * x 6) ∧
    f_prediction_model L x dt 2 = x 2 + dt * (-L.sin (x 4) * x 6) ∧
    f_prediction_model L x dt 3 = x 3 + dt * (L.cos (x 3) * L.tan (x 4) * x 11) ∧
    f_prediction_model L x dt 4 = x 4 + dt * (-L.sin (x 3) * x 11) ∧
    f_prediction_model L x dt 5 = x 5 + dt * (L.cos (x 3) / L.cos (x 4) * x 11) := by
  have hA := f_prediction_model_A_mulVec L x (x 6) (x 11)
  refine ⟨?_, ?_, ?_, ?_, ?_, ?_⟩
  · exact (f_prediction_model_pose L x dt 0 (by decide)).trans (by rw [hA]; rfl)
  · exact (f_prediction_model_pose L x dt 1 (by decide)).trans (by rw [hA]; rfl)
  · exact (f_prediction_model_pose L x dt 2 (by decide)).trans (by rw [hA]; rfl)
  · exact (f_prediction_model_pose L x dt 3 (by decide)).trans (by rw [hA]; rfl)
  · exact (f_prediction_model_pose L x dt 4 (by decide)).trans (by rw [hA]; rfl)
  · exact (f_prediction_model_pose L x dt 5 (by decide)).trans (by rw [hA]; rfl)

/-- The velocity block of the predicted covariance: `F P Fᵀ` keeps the
entries of `P` among `vx, wz` and is zero in the rows and columns 7..10. -/
theorem prediction_stage_P_vel (L : Numerics α) (s : AdaptiveFilter α) (dt : α) (i j : Fin 12)
    (hi : 6 ≤ i.val) (hj : 6 ≤ j.val) :
    (prediction_stage L s dt).P i j
      = (if i = 6 ∨ i = 11 then 1 else 0) * (if j = 6 ∨ j = 11 then 1 else 0) * s.P i j
        + s.E_pred i j := by
  have hFi := fun k => jacobian_state_vel_rows L s.X dt i k hi
  have hFj := fun k => jacobian_state_vel_rows L s.X dt j k hj
  simp only [prediction_stage, Matrix.add_apply, Matrix.mul_apply, Matrix.transpose_apply, hFi,
    hFj]
  congr 1
  by_cases h1 : i = 6 ∨ i = 11 <;> by_cases h2 : j = 6 ∨ j = 11 <;> simp [h1, h2]

/-- The process noise set by `initialization()`: `0.001` on the diagonal
entries 6..11 and zero elsewhere. -/
theorem initialization_E_pred (s : AdaptiveFilter α) (i j : Fin 12) :
    (initialization s).E_pred i j = if i = j ∧ 6 ≤ i.val then 0.001 else 0 := by
  simp only [initialization, setBlock_apply, block_apply, Matrix.smul_apply, Matrix.diagonal_apply,
    Matrix.zero_apply]
  by_cases h : 6 ≤ i.val <;> by_cases h2 : 6 ≤ j.val <;> by_cases h3 : i = j
  all_goals first
    | (subst h3; simp [h, i.isLt]; try norm_num)
    | (have : i.val ≠ j.val := fun h => h3 (Fin.ext h)
       simp [h, h2, h3, i.isLt, j.isLt, Fin.ext_iff]; try omega)

/-- C3 (amended): for every state and every `dt`, `f_prediction_model` (and
so `prediction_stage`) returns `vx` and `wz` (components 6 and 11) unchanged
and returns 0 in the components 7..10 (`vy, vz, wx, wy`): the velocity part is
copied from the zeroed scratch copy `x2`. -/
theorem f_prediction_model_velocity_states (L : Numerics α) (s : AdaptiveFilter α) (dt : α) :
    (f_prediction_model L s.X dt 6 = s.X 6 ∧ f_prediction_model L s.X dt 11 = s.X 11 ∧
      ∀ i : Fin 12, 7 ≤ i.val → i.val ≤ 10 → f_prediction_model L s.X dt i = 0) ∧
    ((prediction_stage L s dt).X 6 = s.X 6 ∧ (prediction_stage L s dt).X 11 = s.X 11 ∧
      ∀ i : Fin 12, 7 ≤ i.val → i.val ≤ 10 → (prediction_stage L s dt).X i = 0) := by
  obtain ⟨h6, h7, h8, h9, h10, h11⟩ := f_prediction_model_vel L s.X dt
  have key : ∀ i : Fin 12, 7 ≤ i.val → i.val ≤ 10 → f_prediction_model L s.X dt i = 0 := by
    intro i hi hi2
    fin_cases i <;> simp at hi hi2 <;> assumption
  exact ⟨⟨h6, h11, key⟩, ⟨h6, h11, key⟩⟩

/-- C3 (as stated, refuted): at the state `(0,0,0,0,0,0,1,2,3,4,5,6)` with
`dt = 1` the returned components 7..10 are 0, not the input 2, 3, 4, 5. -/
theorem f_prediction_model_velocity_not_unchanged :
    ∃ L : Numerics ℝ, L.Exact ∧
      f_prediction_model L ![0, 0, 0, 0, 0, 0, 1, 2, 3, 4, 5, 6] 1 7
        ≠ (![0, 0, 0, 0, 0, 0, 1, 2, 3, 4, 5, 6] : Fin 12 → ℝ) 7 := by
  obtain ⟨L, hL⟩ := Numerics.exists_exact
  refine ⟨L, hL, ?_⟩
  rw [(f_prediction_model_vel L _ 1).2.1]
  show (0 : ℝ) ≠ 2
  norm_num

/-- C4: for every `dt` and every state whose six velocity components are
zero, `prediction_stage` leaves the components 0..5 of `X` unchanged. -/
theorem prediction_stage_zero_velocity_pose (L : Numerics α) (s : AdaptiveFilter α) (dt : α)
    (hv : ∀ i : Fin 12, 6 ≤ i.val → s.X i = 0) (i : Fin 12) (hi : i.val < 6) :
    (prediction_stage L s dt).X i = s.X i := by
  have h6 : s.X 6 = 0 := hv 6 (by decide)
  have h11 : s.X 11 = 0 := hv 11 (by decide)
  have hz : (![0, 0, 0, 0, 0, 0] : Fin 6 → α) = 0 := by
    funext j; fin_cases j <;> rfl
  show f_prediction_model L s.X dt i = s.X i
  rw [f_prediction_model_pose L s.X dt i hi, h6, h11, hz, Matrix.mulVec_zero]
  simp

/-- C4 at a concrete input: the initialized filter (zero state) and the
nominal tick `dt = 0.005`. -/
theorem prediction_stage_zero_velocity_pose_witness :
    ∃ L : Numerics ℝ, L.Exact ∧ ∀ i : Fin 12, i.val < 6 →
      (prediction_stage L (initialization (blankFilter ℝ)) 0.005).X i
        = (initialization (blankFilter ℝ)).X i := by
  obtain ⟨L, hL⟩ := Numerics.exists_exact
  exact ⟨L, hL, prediction_stage_zero_velocity_pose L _ _ (fun i _ => rfl)⟩

/-- C5 (amended): for every state, covariance `P` and `dt`, the covariance
`F·P·Fᵀ + E_pred` produced by `prediction_stage` has the diagonal entries of
`vx` and `wz` (6 and 11) equal to the prior entry plus the entry of `E_pred`,
and the diagonal entries of `vy, vz, wx, wy` (7..10) equal to the entry of
`E_pred` alone, whatever the prior entry was; with `E_pred` as set by
`initialization()` each of these entries of `E_pred` is `0.001`.  (So the trace
is not monotone: the entries 7..10 are reset.) -/
theorem prediction_stage_P_velocity_diagonal (L : Numerics α) (s : AdaptiveFilter α) (dt : α) :
    (prediction_stage L s dt).P 6 6 = s.P 6 6 + s.E_pred 6 6 ∧
    (prediction_stage L s dt).P 11 11 = s.P 11 11 + s.E_pred 11 11 ∧
    (∀ i : Fin 12, 7 ≤ i.val → i.val ≤ 10 → (prediction_stage L s dt).P i i = s.E_pred i i) ∧
    (∀ i : Fin 12, 6 ≤ i.val → (initialization s).E_pred i i = 0.001) := by
  refine ⟨?_, ?_, ?_, ?_⟩
  · rw [prediction_stage_P_vel L s dt 6 6 (by decide) (by decide)]; simp
  · rw [prediction_stage_P_vel L s dt 11 11 (by decide) (by decide)]; simp
  · intro i h7 h10
    rw [prediction_stage_P_vel L s dt i i (by omega) (by omega)]
    have h : ¬ (i = 6 ∨ i = 11) := by
      rintro (h | h) <;> (rw [h] at h7 h10; revert h7 h10; decide)
    simp [h]
  · intro i hi
    rw [initialization_E_pred]
    simp [hi]

end Prediction

section PredictionReal

/-- Rows 0, 1, 2 of `jacobian_state` at the zero state. -/
theorem jacobian_state_zero_pos (L : Numerics ℝ) (hL : L.Exact) (dt : ℝ) (r k : Fin 12)
    (hr : r.val < 3) :
    jacobian_state L 0 dt r k = if k = r then 1 else if r = 0 ∧ k = 6 then dt else 0 := by
  have hp := fun y => f_prediction_model_pose_explicit L y dt
  have h345 : ¬ (r.val = 3 ∨ r.val = 4 ∨ r.val = 5) := by omega
  simp only [jacobian_state, Matrix.of_apply, if_neg h345]
  fin_cases r <;> simp at hr <;> fin_cases k <;>
    simp [hp, Function.update, hL.sin_eq, hL.cos_eq, hL.tan_eq] <;> norm_num

/-- Rows 3, 4, 5 of `jacobian_state` at the zero state. -/
theorem jacobian_state_zero_ang (L : Numerics ℝ) (hL : L.Exact) (dt : ℝ) (r k : Fin 12)
    (hr : r.val = 3 ∨ r.val = 4 ∨ r.val = 5) :
    jacobian_state L 0 dt r k
      = if k = r then Real.sin 0.0001 / 0.0001
        else if r = 5 ∧ k = 11 then Real.sin (dt * 0.0001) / 0.0001 else 0 := by
  have hp := fun y => f_prediction_model_pose_explicit L y dt
  simp only [jacobian_state, Matrix.of_apply, if_pos hr]
  fin_cases r <;> simp at hr <;> fin_cases k <;>
    simp [hp, Function.update, hL.sin_eq, hL.cos_eq, hL.tan_eq]

/-- The pose diagonal of the covariance after the first prediction from
the initialized filter. -/
theorem prediction_initial_diag_pose (L : Numerics ℝ) (hL : L.Exact) (dt : ℝ) (i : Fin 12)
    (hi : i.val < 6) :
    (prediction_stage L (initialization (blankFilter ℝ)) dt).P i i
      = if i = 0 then 0.1 * (1 + dt ^ 2)
        else if i.val < 3 then 0.1
        else if i = 5 then
          0.1 * ((Real.sin 0.0001 / 0.0001) ^ 2 + (Real.sin (dt * 0.0001) / 0.0001) ^ 2)
        else 0.1 * (Real.sin 0.0001 / 0.0001) ^ 2 := by
  have hE := initialization_E_pred (blankFilter ℝ)
  have hX : (initialization (blankFilter ℝ)).X = 0 := rfl
  have hP : (initialization (blankFilter ℝ)).P = Matrix.diagonal fun _ => 0.1 := rfl
  simp only [prediction_stage, Matrix.add_apply, hE, hX, hP,
    Matrix.mul_diagonal, Matrix.mul_apply, Matrix.transpose_apply]
  by_cases h3 : i.val < 3
  · have hF := fun k => jacobian_state_zero_pos L hL dt i k h3
    simp only [hF]
    fin_cases i <;> simp at h3 <;>
      simp [Finset.sum_fin_eq_sum_range, Finset.sum_range_succ]
    ring
  · have hF := fun k => jacobian_state_zero_ang L hL dt i k (by omega)
    simp only [hF]
    fin_cases i <;> simp at h3 hi <;>
      simp [Finset.sum_fin_eq_sum_range, Finset.sum_range_succ] <;> ring

/-- The trace of the covariance after the first prediction from the
initialized filter (before it, the trace is 1.2). -/
theorem prediction_initial_trace (L : Numerics ℝ) (hL : L.Exact) (dt : ℝ) :
    Matrix.trace (prediction_stage L (initialization (blankFilter ℝ)) dt).P
      = 0.506 + 0.1 * dt ^ 2 + 0.3 * (Real.sin 0.0001 / 0.0001) ^ 2
        + 0.1 * (Real.sin (dt * 0.0001) / 0.0001) ^ 2 := by
  have hd : ∀ i : Fin 12, (prediction_stage L (initialization (blankFilter ℝ)) dt).P i i
      = if i.val < 6 then
          (if i = 0 then 0.1 * (1 + dt ^ 2)
           else if i.val < 3 then 0.1
           else if i = 5 then
            0.1 * ((Real.sin 0.0001 / 0.0001) ^ 2 + (Real.sin (dt * 0.0001) / 0.0001) ^ 2)
           else 0.1 * (Real.sin 0.0001 / 0.0001) ^ 2)
        else (if i = 6 ∨ i = 11 then 0.101 else 0.001) := by
    intro i
    by_cases h : i.val < 6
    · rw [if_pos h]; exact prediction_initial_diag_pose L hL dt i h
    · rw [if_neg h, prediction_stage_P_vel L _ dt i i (by omega) (by omega),
        initialization_E_pred]
      have hP : (initialization (blankFilter ℝ)).P i i = 0.1 := by
        simp [initialization]
      rw [hP]
      by_cases h1 : i = 6 ∨ i = 11
      · simp [h1, not_lt.mp h]; norm_num
      · simp [h1, not_lt.mp h]
  simp only [Matrix.trace, Matrix.diag_apply, hd]
  simp [Finset.sum_fin_eq_sum_range, Finset.sum_range_succ]
  ring

/-- C5 (as stated, refuted): at the initialized filter (zero state, the
symmetric positive semi-definite `P = 0.1·I`, the initial process noise) and
the nominal tick `dt = 0.005`, the trace of the covariance after
`prediction_stage` is smaller than before (below 0.91 against 1.2). -/
theorem prediction_stage_trace_decreases :
    ∃ L : Numerics ℝ, L.Exact ∧
      (∀ i : Fin 12, 6 ≤ i.val → (initialization (blankFilter ℝ)).X i = 0) ∧
      (initialization (blankFilter ℝ)).P.PosSemidef ∧
      Matrix.trace (prediction_stage L (initialization (blankFilter ℝ)) 0.005).P
        < Matrix.trace (initialization (blankFilter ℝ)).P := by
  obtain ⟨L, hL⟩ := Numerics.exists_exact
  refine ⟨L, hL, fun _ _ => rfl, ?_, ?_⟩
  · exact Matrix.PosSemidef.diagonal (fun _ => by norm_num)
  rw [prediction_initial_trace L hL]
  have h0 : Matrix.trace (initialization (blankFilter ℝ)).P = 1.2 := by
    simp [initialization, Matrix.trace, Finset.sum_fin_eq_sum_range, Finset.sum_range_succ]
    norm_num
  rw [h0]
  have h1 : (Real.sin 0.0001 / 0.0001) ^ 2 ≤ 1 := by
    rw [div_pow, div_le_one (by norm_num)]
    exact Real.sin_sq_le_sq
  have h2 : (Real.sin (0.005 * 0.0001) / 0.0001) ^ 2 ≤ 1 := by
    rw [div_pow, div_le_one (by norm_num)]
    refine le_trans Real.sin_sq_le_sq ?_
    norm_num
  nlinarith [h1, h2]

end PredictionReal

section Select
variable {α : Type} [LinearOrderedField α]

/-- Row `i` of the wheel `H` is the unit vector of state 6 resp. 11. -/
theorem wheel_H_apply (i : Fin 2) (k : Fin 12) :
    wheel_H α i k = if k = ![6, 11] i then 1 else 0 := by
  fin_cases i <;> fin_cases k <;> simp [wheel_H, setEntry]

/-- Row `i` of the IMU `H` is the unit vector of state `3 + i`. -/
theorem imu_H_apply (i : Fin 3) (k : Fin 12) :
    imu_H α i k = if k = ⟨3 + i.val, by omega⟩ then 1 else 0 := by
  have := i.isLt
  simp only [imu_H, setBlock_apply, Matrix.one_apply, Matrix.zero_apply, Fin.ext_iff]
  split_ifs <;> first | rfl | (exfalso; omega)

/-- Row `i` of the lidar `H` is the unit vector of state `6 + i`. -/
theorem lidar_H_apply (i : Fin 6) (k : Fin 12) :
    lidar_H α i k = if k = ⟨6 + i.val, by omega⟩ then 1 else 0 := by
  have := i.isLt
  simp only [lidar_H, setBlock_apply, Matrix.one_apply, Matrix.zero_apply, Fin.ext_iff]
  split_ifs <;> first | rfl | (exfalso; omega)

theorem wheel_H_mul {p : ℕ} (M : Matrix (Fin 12) (Fin p) α) (i : Fin 2) (j : Fin p) :
    (wheel_H α * M) i j = M (![6, 11] i) j := by
  simp [Matrix.mul_apply, wheel_H_apply]

theorem mul_wheel_H_transpose {p : ℕ} (M : Matrix (Fin p) (Fin 12) α) (i : Fin p) (j : Fin 2) :
    (M * (wheel_H α).transpose) i j = M i (![6, 11] j) := by
  simp [Matrix.mul_apply, wheel_H_apply]

theorem imu_H_mul {p : ℕ} (M : Matrix (Fin 12) (Fin p) α) (i : Fin 3) (j : Fin p) :
    (imu_H α * M) i j = M ⟨3 + i.val, by omega⟩ j := by
  simp [Matrix.mul_apply, imu_H_apply]

theorem mul_imu_H_transpose {p : ℕ} (M : Matrix (Fin p) (Fin 12) α) (i : Fin p) (j : Fin 3) :
    (M * (imu_H α).transpose) i j = M i ⟨3 + j.val, by omega⟩ := by
  simp [Matrix.mul_apply, imu_H_apply]

theorem lidar_H_mul {p : ℕ} (M : Matrix (Fin 12) (Fin p) α) (i : Fin 6) (j : Fin p) :
    (lidar_H α * M) i j = M ⟨6 + i.val, by omega⟩ j := by
  simp [Matrix.mul_apply, lidar_H_apply]

theorem mul_lidar_H_transpose {p : ℕ} (M : Matrix (Fin p) (Fin 12) α) (i : Fin p) (j : Fin 6) :
    (M * (lidar_H α).transpose) i j = M i ⟨6 + j.val, by omega⟩ := by
  simp [Matrix.mul_apply, lidar_H_apply]

/-- The entries of the wheel innovation covariance. -/
theorem wheel_S_apply (s : AdaptiveFilter α) (i j : Fin 2) :
    wheel_S s i j = s.P (![6, 11] i) (![6, 11] j) + s.E_wheel i j := by
  simp only [wheel_S, Matrix.add_apply, mul_wheel_H_transpose, wheel_H_mul]

/-- The entries of the IMU innovation covariance. -/
theorem imu_S_apply (s : AdaptiveFilter α) (i j : Fin 3) :
    imu_S s i j = s.P ⟨3 + i.val, by omega⟩ ⟨3 + j.val, by omega⟩
      + s.E_imu ⟨6 + i.val, by omega⟩ ⟨6 + j.val, by omega⟩ := by
  simp only [imu_S, Matrix.add_apply, mul_imu_H_transpose, imu_H_mul, block_apply]

/-- The entries of the lidar innovation covariance. -/
theorem lidar_S_apply (L : Numerics α) (s : AdaptiveFilter α) (dt : α) (i j : Fin 6) :
    lidar_S L s dt i j = s.P ⟨6 + i.val, by omega⟩ ⟨6 + j.val, by omega⟩ + lidar_Q L s dt i j := by
  simp only [lidar_S, Matrix.add_apply, mul_lidar_H_transpose, lidar_H_mul]

/-- The state left by `correction_imu_stage`: the plain sum `X + K·residues`
in positions and velocities, the wrapped sum in roll, pitch and yaw. -/
theorem correction_imu_stage_X (L : Numerics α) (s : AdaptiveFilter α) (dt : α) (i : Fin 12) :
    (correction_imu_stage L s dt).X i
      = if i.val = 3 ∨ i.val = 4 ∨ i.val = 5 then
          L.atan2 (L.sin (s.X i + (imu_K L s).mulVec (imu_residues L s) i))
            (L.cos (s.X i + (imu_K L s).mulVec (imu_residues L s) i))
        else s.X i + (imu_K L s).mulVec (imu_residues L s) i := by
  fin_cases i <;>
    simp [correction_imu_stage, setVecBlock_apply, vecBlock_apply, Function.update,
      Fin.coe_ofNat_eq_mod]

end Select

section Kalman
open Matrix

/-- A positive semi-definite real matrix has a non-negative trace. -/
theorem posSemidef_trace_nonneg {n : ℕ} {M : Matrix (Fin n) (Fin n) ℝ} (hM : M.PosSemidef) :
    0 ≤ M.trace := by
  refine Finset.sum_nonneg fun i _ => ?_
  have h := hM.2 (Pi.single i 1)
  simpa [Matrix.mulVec_single, Matrix.dotProduct, Pi.single_apply] using h

/-- The Kalman covariance update does not increase the trace when both the
prior covariance and the measurement noise are positive semi-definite. -/
theorem kalman_trace_le {m n : ℕ} (H : Matrix (Fin m) (Fin n) ℝ)
    (P : Matrix (Fin n) (Fin n) ℝ) (E : Matrix (Fin m) (Fin m) ℝ)
    (hP : P.PosSemidef) (hE : E.PosSemidef) :
    (P - P * Hᵀ * (H * P * Hᵀ + E)⁻¹ * H * P).trace ≤ P.trace := by
  have hS : (H * P * Hᵀ + E).PosSemidef := by
    have := hP.mul_mul_conjTranspose_same H
    rw [Matrix.conjTranspose_eq_transpose_of_trivial] at this
    exact this.add hE
  have hSi := hS.inv
  have hM := hSi.conjTranspose_mul_mul_same (H * P)
  rw [Matrix.conjTranspose_eq_transpose_of_trivial, Matrix.transpose_mul] at hM
  have hPt : Pᵀ = P := by
    have := hP.1
    rwa [Matrix.IsHermitian, Matrix.conjTranspose_eq_transpose_of_trivial] at this
  rw [hPt] at hM
  have h0 := posSemidef_trace_nonneg hM
  rw [Matrix.trace_sub]
  have e : P * Hᵀ * (H * P * Hᵀ + E)⁻¹ * H * P = P * Hᵀ * (H * P * Hᵀ + E)⁻¹ * (H * P) := by
    simp only [Matrix.mul_assoc]
  rw [e]
  linarith
end Kalman

section Corrections

open Matrix

/-- A diagonal matrix with non-zero diagonal has an invertible determinant. -/
theorem isUnit_det_of_eq_diagonal {n : ℕ} (S : Matrix (Fin n) (Fin n) ℝ) (d : Fin n → ℝ)
    (hS : S = Matrix.diagonal d) (hd : ∀ i, d i ≠ 0) : IsUnit S.det := by
  rw [hS, Matrix.det_diagonal, isUnit_iff_ne_zero]
  exact Finset.prod_ne_zero_iff.mpr fun i _ => hd i

/-- C6 (amended): for every symmetric positive semi-definite covariance `P`
and every symmetric positive semi-definite measurement noise (`E_wheel`, the
orientation block of `E_imu`, `E_lidar` and `E_lidarL` for the lidar) for which
`S = H·P·Hᵀ + E` is invertible, the covariance `P − K·H·P` left by each
correction stage has trace at most the trace of `P`. -/
theorem correction_stage_trace_le (L : Numerics ℝ) (hL : L.Exact) (s : AdaptiveFilter ℝ)
    (dt : ℝ) (hP : s.P.PosSemidef) :
    (s.E_wheel.PosSemidef → IsUnit (wheel_S s).det →
      (correction_wheel_stage L s dt).P.trace ≤ s.P.trace) ∧
    ((block s.E_imu 6 6 3 3 (by decide) (by decide)).PosSemidef → IsUnit (imu_S s).det →
      (correction_imu_stage L s dt).P.trace ≤ s.P.trace) ∧
    (s.E_lidar.PosSemidef → s.E_lidarL.PosSemidef → IsUnit (lidar_S L s dt).det →
      (correction_lidar_stage L s dt).P.trace ≤ s.P.trace) := by
  refine ⟨fun hE hS => ?_, fun hE hS => ?_, fun hE hEl hS => ?_⟩
  · have h := kalman_trace_le (wheel_H ℝ) s.P s.E_wheel hP hE
    have e : (correction_wheel_stage L s dt).P
        = s.P - s.P * (wheel_H ℝ).transpose * L.inverse 2 (wheel_S s) * wheel_H ℝ * s.P := rfl
    rw [e, hL.inverse_eq 2 _ hS]; unfold wheel_S; exact h
  · have h := kalman_trace_le (imu_H ℝ) s.P _ hP hE
    have e : (correction_imu_stage L s dt).P
        = s.P - s.P * (imu_H ℝ).transpose * L.inverse 3 (imu_S s) * imu_H ℝ * s.P := rfl
    rw [e, hL.inverse_eq 3 _ hS]; unfold imu_S; exact h
  · have hQ : (lidar_Q L s dt).PosSemidef := by
      have h1 := hE.mul_mul_conjTranspose_same
        (jacobian_lidar_measurement L s.lidarMeasure s.lidarMeasureL dt)
      have h2 := hEl.mul_mul_conjTranspose_same
        (jacobian_lidar_measurementL L s.lidarMeasure s.lidarMeasureL dt)
      rw [Matrix.conjTranspose_eq_transpose_of_trivial] at h1 h2
      exact h1.add h2
    have h := kalman_trace_le (lidar_H ℝ) s.P _ hP hQ
    have e : (correction_lidar_stage L s dt).P
        = s.P - s.P * (lidar_H ℝ).transpose * L.inverse 6 (lidar_S L s dt) * lidar_H ℝ * s.P := rfl
    rw [e, hL.inverse_eq 6 _ hS]
    have e2 : lidar_S L s dt = lidar_H ℝ * s.P * (lidar_H ℝ).transpose + lidar_Q L s dt := rfl
    rw [e2]
    exact h

/-- The initial covariance `0.1·I` is positive semi-definite. -/
theorem initial_P_posSemidef : (initialization (blankFilter ℝ)).P.PosSemidef :=
  Matrix.PosSemidef.diagonal (fun _ => by norm_num)

/-- The wheel innovation covariance of the initialized filter. -/
theorem initial_wheel_S : wheel_S (initialization (blankFilter ℝ)) = Matrix.diagonal fun _ => 0.1 := by
  ext i j
  rw [wheel_S_apply]
  fin_cases i <;> fin_cases j <;> simp [initialization]

/-- The IMU innovation covariance of the initialized filter. -/
theorem initial_imu_S : imu_S (initialization (blankFilter ℝ)) = Matrix.diagonal fun _ => 0.1 := by
  ext i j
  rw [imu_S_apply]
  fin_cases i <;> fin_cases j <;> simp [initialization]

/-- The propagated lidar noise of the initialized filter is zero. -/
theorem initial_lidar_Q (L : Numerics ℝ) (dt : ℝ) :
    lidar_Q L (initialization (blankFilter ℝ)) dt = 0 := by
  simp [lidar_Q, initialization]

/-- The lidar innovation covariance of the initialized filter. -/
theorem initial_lidar_S (L : Numerics ℝ) (dt : ℝ) :
    lidar_S L (initialization (blankFilter ℝ)) dt = Matrix.diagonal fun _ => 0.1 := by
  ext i j
  rw [lidar_S_apply, initial_lidar_Q]
  fin_cases i <;> fin_cases j <;> simp [initialization]

/-- C6 (amended) at a concrete input: the three stages run on the initialized
filter (`P = 0.1·I`, all noises zero, each `S = 0.1·I`). -/
theorem correction_stage_trace_le_witness :
    ∃ L : Numerics ℝ, L.Exact ∧
      (correction_wheel_stage L (initialization (blankFilter ℝ)) 0.02).P.trace
        ≤ (initialization (blankFilter ℝ)).P.trace ∧
      (correction_imu_stage L (initialization (blankFilter ℝ)) 0.02).P.trace
        ≤ (initialization (blankFilter ℝ)).P.trace ∧
      (correction_lidar_stage L (initialization (blankFilter ℝ)) 0.1).P.trace
        ≤ (initialization (blankFilter ℝ)).P.trace := by
  obtain ⟨L, hL⟩ := Numerics.exists_exact
  have hz2 : (initialization (blankFilter ℝ)).E_wheel.PosSemidef := Matrix.PosSemidef.zero
  have hz3 : (block (initialization (blankFilter ℝ)).E_imu 6 6 3 3 (by decide)
      (by decide)).PosSemidef := by
    have : block (initialization (blankFilter ℝ)).E_imu 6 6 3 3 (by decide) (by decide) = 0 := by
      ext i j; simp [block_apply, initialization]
    rw [this]; exact Matrix.PosSemidef.zero
  have hz6 : (initialization (blankFilter ℝ)).E_lidar.PosSemidef := Matrix.PosSemidef.zero
  have hz6l : (initialization (blankFilter ℝ)).E_lidarL.PosSemidef := Matrix.PosSemidef.zero
  have hd : ∀ n (i : Fin n), (fun _ : Fin n => (0.1 : ℝ)) i ≠ 0 := fun _ _ => by norm_num
  refine ⟨L, hL, ?_, ?_, ?_⟩
  · exact (correction_stage_trace_le L hL _ 0.02 initial_P_posSemidef).1 hz2
      (isUnit_det_of_eq_diagonal _ _ initial_wheel_S (hd 2))
  · exact (correction_stage_trace_le L hL _ 0.02 initial_P_posSemidef).2.1 hz3
      (isUnit_det_of_eq_diagonal _ _ initial_imu_S (hd 3))
  · exact (correction_stage_trace_le L hL _ 0.1 initial_P_posSemidef).2.2 hz6 hz6l
      (isUnit_det_of_eq_diagonal _ _ (initial_lidar_S L 0.1) (hd 6))
/-- C1 (amended): no correction stage tests `S`. Each one always sets
`P ← P − K·H·P` and `X ← X + K·(Y − hx)` (in the IMU stage with the wrapped
residual, and the sum wrapped in the three angles) with
`K = P·Hᵀ·inverse(S)`; whenever `S = H·P·Hᵀ + E` is invertible this `K` is the
Kalman gain, `K·S = P·Hᵀ`.  For a singular `S` the same update is applied with
whatever `inverse` returns. -/
theorem correction_stage_applies_gain (L : Numerics ℝ) (hL : L.Exact) (s : AdaptiveFilter ℝ)
    (dt : ℝ) :
    ((correction_wheel_stage L s dt).P = s.P - wheel_K L s * wheel_H ℝ * s.P ∧
      (correction_wheel_stage L s dt).X
        = s.X + (wheel_K L s).mulVec (s.wheelMeasure - wheel_hx s) ∧
      (IsUnit (wheel_S s).det → wheel_K L s * wheel_S s = s.P * (wheel_H ℝ).transpose)) ∧
    ((correction_imu_stage L s dt).P = s.P - imu_K L s * imu_H ℝ * s.P ∧
      (∀ i : Fin 12, ¬ (i.val = 3 ∨ i.val = 4 ∨ i.val = 5) →
        (correction_imu_stage L s dt).X i
          = s.X i + (imu_K L s).mulVec (imu_residues L s) i) ∧
      (IsUnit (imu_S s).det → imu_K L s * imu_S s = s.P * (imu_H ℝ).transpose)) ∧
    ((correction_lidar_stage L s dt).P = s.P - lidar_K L s dt * lidar_H ℝ * s.P ∧
      (correction_lidar_stage L s dt).X
        = s.X + (lidar_K L s dt).mulVec
            (indirect_lidar_measurement L s.lidarMeasure s.lidarMeasureL dt
              - vecBlock s.X 6 6 (by decide)) ∧
      (IsUnit (lidar_S L s dt).det →
        lidar_K L s dt * lidar_S L s dt = s.P * (lidar_H ℝ).transpose)) := by
  refine ⟨⟨rfl, rfl, fun h => ?_⟩, ⟨rfl, fun i hi => ?_, fun h => ?_⟩, ⟨rfl, rfl, fun h => ?_⟩⟩
  · rw [wheel_K, hL.inverse_eq 2 _ h, Matrix.mul_assoc, Matrix.nonsing_inv_mul _ h,
      Matrix.mul_one]
  · rw [correction_imu_stage_X, if_neg hi]
  · rw [imu_K, hL.inverse_eq 3 _ h, Matrix.mul_assoc, Matrix.nonsing_inv_mul _ h,
      Matrix.mul_one]
  · rw [lidar_K, hL.inverse_eq 6 _ h, Matrix.mul_assoc, Matrix.nonsing_inv_mul _ h,
      Matrix.mul_one]

/-- C1 (amended) at a concrete input: the wheel stage on the initialized
filter, where `S = 0.1·I`. -/
theorem correction_stage_applies_gain_witness :
    ∃ L : Numerics ℝ, L.Exact ∧
      wheel_K L (initialization (blankFilter ℝ)) * wheel_S (initialization (blankFilter ℝ))
        = (initialization (blankFilter ℝ)).P * (wheel_H ℝ).transpose ∧
      (correction_wheel_stage L (initialization (blankFilter ℝ)) 0.02).P
        = (initialization (blankFilter ℝ)).P
          - wheel_K L (initialization (blankFilter ℝ)) * wheel_H ℝ
            * (initialization (blankFilter ℝ)).P := by
  obtain ⟨L, hL⟩ := Numerics.exists_exact
  have h := correction_stage_applies_gain L hL (initialization (blankFilter ℝ)) 0.02
  exact ⟨L, hL, h.1.2.2 (isUnit_det_of_eq_diagonal _ _ initial_wheel_S (fun _ => by norm_num)),
    h.1.1⟩

/-- C1 (as stated, refuted): in `correlatedWheelFilter` the wheel innovation
covariance is the matrix of ones, which is singular, and the stage has no
branch for it.  Eigen leaves `inverse()` of a singular matrix undefined; with
a library that is exact on invertible matrices and returns the identity on
singular ones, `correction_wheel_stage` changes `X(6)` from 0 to 1. -/
theorem correction_wheel_stage_singular_not_skipped :
    ∃ L : Numerics ℝ, L.Exact ∧
      ¬ IsUnit (wheel_S (correlatedWheelFilter ℝ)).det ∧
      (correction_wheel_stage L (correlatedWheelFilter ℝ) 0.02).X 6
        ≠ (correlatedWheelFilter ℝ).X 6 := by
  classical
  obtain ⟨L0, hL0⟩ := Numerics.exists_exact
  set s : AdaptiveFilter ℝ := correlatedWheelFilter ℝ with hs
  have hS : wheel_S s = !![1, 1; 1, 1] := by
    ext i j
    rw [wheel_S_apply]
    fin_cases i <;> fin_cases j <;> simp [hs, correlatedWheelFilter, initialization]
  have hdet : ¬ IsUnit (wheel_S s).det := by
    rw [hS, Matrix.det_fin_two]
    simp
  refine ⟨{ L0 with inverse := fun n S => if IsUnit S.det then S⁻¹ else 1 },
    ⟨hL0.sin_eq, hL0.cos_eq, hL0.tan_eq, hL0.atan2_eq, fun n S h => if_pos h⟩, hdet, ?_⟩
  have hK : wheel_K { L0 with inverse := fun n S => if IsUnit S.det then S⁻¹ else 1 } s
      = s.P * (wheel_H ℝ).transpose := by
    simp only [wheel_K]
    rw [if_neg hdet, Matrix.mul_one]
  have hX : (correction_wheel_stage
      { L0 with inverse := fun n S => if IsUnit S.det then S⁻¹ else 1 } s 0.02).X 6
      = s.X 6 + (s.P * (wheel_H ℝ).transpose).mulVec (s.wheelMeasure - wheel_hx s) 6 := by
    rw [← hK]; rfl
  rw [hX]
  simp [Matrix.mulVec, Matrix.dotProduct, mul_wheel_H_transpose, Fin.sum_univ_two, wheel_hx, hs,
    correlatedWheelFilter, initialization]

end Corrections

section HandlerLemmas

variable {α : Type} [LinearOrderedField α]

/-- The three diagonal blocks of `E_imu` after `imuHandler`. -/
theorem imuHandler_E_imu (cfg : Config α) (timeL timeEnd : α) (imuIn : Imu α)
    (s : AdaptiveFilter α) (i j : Fin 3) :
    (imuHandler cfg timeL timeEnd imuIn s).E_imu ⟨0 + i.val, by omega⟩ ⟨0 + j.val, by omega⟩
      = imuIn.linear_acceleration_covariance ⟨3 * i.val + j.val, by omega⟩ ∧
    (imuHandler cfg timeL timeEnd imuIn s).E_imu ⟨3 + i.val, by omega⟩ ⟨3 + j.val, by omega⟩
      = cfg.imuG * imuIn.angular_velocity_covariance ⟨3 * i.val + j.val, by omega⟩ ∧
    (imuHandler cfg timeL timeEnd imuIn s).E_imu ⟨6 + i.val, by omega⟩ ⟨6 + j.val, by omega⟩
      = cfg.imuG * (!![imuIn.orientation_covariance 0, imuIn.orientation_covariance 1,
            imuIn.orientation_covariance 2;
          imuIn.orientation_covariance 3, imuIn.orientation_covariance 4,
            imuIn.orientation_covariance 5;
          imuIn.orientation_covariance 6, imuIn.orientation_covariance 7,
            imuIn.orientation_covariance 4] : Matrix (Fin 3) (Fin 3) α) i j := by
  have hi := i.isLt
  have hj := j.isLt
  refine ⟨?_, ?_, ?_⟩
  · simp only [imuHandler]
    rw [setBlock_apply_of_not _ _ _ _ _ _ (by simp; omega),
      setBlock_apply_of_not _ _ _ _ _ _ (by simp),
      setBlock_apply_of_not _ _ _ _ _ _ (by simp; omega),
      setBlock_apply_of_not _ _ _ _ _ _ (by simp),
      setBlock_apply_add, mat3_apply]
  · simp only [imuHandler]
    rw [setBlock_apply_of_not _ _ _ _ _ _ (by simp; omega), setBlock_apply_add,
      Matrix.smul_apply, block_apply, smul_eq_mul,
      setBlock_apply_of_not _ _ _ _ _ _ (by simp; omega),
      setBlock_apply_add, mat3_apply]
  · simp only [imuHandler]
    rw [setBlock_apply_add, Matrix.smul_apply, block_apply, smul_eq_mul,
      setBlock_apply_of_not _ _ _ _ _ _ (by simp), setBlock_apply_add]

/-- The orientation block of `E_imu` after `imuHandler`, entry by entry. -/
theorem imuHandler_E_imu_orientation (cfg : Config α) (timeL timeEnd : α) (imuIn : Imu α)
    (s : AdaptiveFilter α) (i j : Fin 3) :
    (imuHandler cfg timeL timeEnd imuIn s).E_imu ⟨6 + i.val, by omega⟩ ⟨6 + j.val, by omega⟩
      = cfg.imuG * (if i = 2 ∧ j = 2 then imuIn.orientation_covariance 4
          else imuIn.orientation_covariance ⟨3 * i.val + j.val, by omega⟩) := by
  refine (imuHandler_E_imu cfg timeL timeEnd imuIn s i j).2.2.trans ?_
  congr 1
  fin_cases i <;> fin_cases j <;> rfl

/-- C10 (amended): after `imuHandler` the gyro block of `E_imu` is the
reported angular-velocity covariance scaled by `imuG`, and the orientation
block is the reported orientation covariance scaled by `imuG` except in its
last entry: `E_imu(8,8) = imuG · orientation_covariance[4]` (the pitch
variance stands in for the yaw variance). -/
theorem imuHandler_covariance_blocks (cfg : Config α) (timeL timeEnd : α) (imuIn : Imu α)
    (s : AdaptiveFilter α) (i j : Fin 3) :
    (imuHandler cfg timeL timeEnd imuIn s).E_imu ⟨3 + i.val, by omega⟩ ⟨3 + j.val, by omega⟩
      = cfg.imuG * imuIn.angular_velocity_covariance ⟨3 * i.val + j.val, by omega⟩ ∧
    (imuHandler cfg timeL timeEnd imuIn s).E_imu ⟨6 + i.val, by omega⟩ ⟨6 + j.val, by omega⟩
      = cfg.imuG * (if i = 2 ∧ j = 2 then imuIn.orientation_covariance 4
          else imuIn.orientation_covariance ⟨3 * i.val + j.val, by omega⟩) :=
  ⟨(imuHandler_E_imu cfg timeL timeEnd imuIn s i j).2.1,
    imuHandler_E_imu_orientation cfg timeL timeEnd imuIn s i j⟩

end HandlerLemmas

section HandlerReal

open Matrix

/-- C10 (as stated, refuted): with `imuG = 100` and a reported orientation
covariance `diag(0, 1, 2)`, `E_imu(8,8)` is `100 · 1`, not
`imuG · orientation_covariance[8] = 100 · 2`. -/
theorem imuHandler_yaw_covariance_not_reported :
    (imuHandler (defaultConfig ℝ) 0 0
        { zeroImu ℝ with orientation_covariance := ![0, 0, 0, 0, 1, 0, 0, 0, 2] }
        (initialization (blankFilter ℝ))).E_imu 8 8
      ≠ (defaultConfig ℝ).imuG * (![0, 0, 0, 0, 1, 0, 0, 0, 2] : Fin 9 → ℝ) 8 := by
  have h := imuHandler_E_imu_orientation (defaultConfig ℝ) 0 0
        { zeroImu ℝ with orientation_covariance := ![0, 0, 0, 0, 1, 0, 0, 0, 2] }
        (initialization (blankFilter ℝ)) 2 2
  have e : (imuHandler (defaultConfig ℝ) 0 0
        { zeroImu ℝ with orientation_covariance := ![0, 0, 0, 0, 1, 0, 0, 0, 2] }
        (initialization (blankFilter ℝ))).E_imu 8 8 = (defaultConfig ℝ).imuG * 1 := by
    refine Eq.trans ?_ (h.trans ?_)
    · rfl
    · simp
  rw [e]
  show (100 : ℝ) * 1 ≠ 100 * 2
  norm_num

/-- The rows of the IMU `H` are orthonormal. -/
theorem imu_H_mul_transpose_self : imu_H ℝ * (imu_H ℝ).transpose = 1 := by
  ext i j
  rw [mul_imu_H_transpose, imu_H_apply, Matrix.one_apply]
  simp only [Fin.mk.injEq, Nat.add_left_cancel_iff, Fin.val_inj]
  by_cases h : i = j
  · simp [h]
  · rw [if_neg h, if_neg (fun h' => h h'.symm)]

/-- C6 (as stated, refuted): the IMU record reports the orientation
covariance `diag(-1, -1, -1)`; with the default `imuG = 100` and the initial
`P = 0.1·I` the innovation covariance is `S = -99.9·I`, invertible, and the
covariance left by `correction_imu_stage` has a larger trace than `P`. -/
theorem correction_imu_stage_trace_increases :
    ∃ L : Numerics ℝ, L.Exact ∧
      (imuHandler (defaultConfig ℝ) 0 0
        { zeroImu ℝ with orientation_covariance := ![-1, 0, 0, 0, -1, 0, 0, 0, -1] }
        (initialization (blankFilter ℝ))).P.PosSemidef ∧
      IsUnit (imu_S (imuHandler (defaultConfig ℝ) 0 0
        { zeroImu ℝ with orientation_covariance := ![-1, 0, 0, 0, -1, 0, 0, 0, -1] }
        (initialization (blankFilter ℝ)))).det ∧
      (imuHandler (defaultConfig ℝ) 0 0
        { zeroImu ℝ with orientation_covariance := ![-1, 0, 0, 0, -1, 0, 0, 0, -1] }
        (initialization (blankFilter ℝ))).P.trace
      < (correction_imu_stage L (imuHandler (defaultConfig ℝ) 0 0
        { zeroImu ℝ with orientation_covariance := ![-1, 0, 0, 0, -1, 0, 0, 0, -1] }
        (initialization (blankFilter ℝ))) 0.02).P.trace := by
  obtain ⟨L, hL⟩ := Numerics.exists_exact
  set s := imuHandler (defaultConfig ℝ) 0 0
        { zeroImu ℝ with orientation_covariance := ![-1, 0, 0, 0, -1, 0, 0, 0, -1] }
        (initialization (blankFilter ℝ)) with hs
  have hP : s.P = (0.1 : ℝ) • (1 : Matrix (Fin 12) (Fin 12) ℝ) := by
    rw [Matrix.smul_one_eq_diagonal]; rfl
  have hS : imu_S s = (-99.9 : ℝ) • (1 : Matrix (Fin 3) (Fin 3) ℝ) := by
    ext i j
    rw [imu_S_apply, imuHandler_E_imu_orientation _ _ _ _ _ i j, hP]
    fin_cases i <;> fin_cases j <;> simp [defaultConfig, zeroImu, Matrix.one_apply] <;>
      first | rfl | norm_num
  have hU : IsUnit (imu_S s).det := by
    rw [hS, Matrix.smul_one_eq_diagonal]
    exact isUnit_det_of_eq_diagonal _ _ rfl (fun _ => by norm_num)
  have hI : (imu_S s)⁻¹ = (-(1 / 99.9) : ℝ) • (1 : Matrix (Fin 3) (Fin 3) ℝ) := by
    apply Matrix.inv_eq_right_inv
    rw [hS, Matrix.smul_mul, Matrix.mul_smul, Matrix.one_mul, smul_smul]
    norm_num
  have hPsd : s.P.PosSemidef := initial_P_posSemidef
  refine ⟨L, hL, hPsd, hU, ?_⟩
  have e : (correction_imu_stage L s 0.02).P
      = s.P - s.P * (imu_H ℝ).transpose * L.inverse 3 (imu_S s) * imu_H ℝ * s.P := rfl
  rw [e, hL.inverse_eq 3 _ hU, hI, hP]
  simp only [Matrix.smul_mul, Matrix.mul_smul, Matrix.one_mul, Matrix.mul_one, smul_smul,
    Matrix.trace_sub, Matrix.trace_smul, Matrix.trace_one, Fintype.card_fin]
  rw [Matrix.trace_mul_comm, imu_H_mul_transpose_self, Matrix.trace_one, Fintype.card_fin]
  norm_num

end HandlerReal

section Angles

open Real

/-- The wrap `atan2(sin d, cos d)` is the argument of `cos d + i sin d`. -/
theorem wrap_eq_arg (L : Numerics ℝ) (hL : L.Exact) (d : ℝ) :
    L.atan2 (L.sin d) (L.cos d) = Complex.arg (Complex.cos d + Complex.sin d * Complex.I) := by
  rw [hL.atan2_eq, hL.sin_eq, hL.cos_eq, Complex.ofReal_cos, Complex.ofReal_sin]

/-- The wrap lies in `(-π, π]`. -/
theorem wrap_mem (L : Numerics ℝ) (hL : L.Exact) (d : ℝ) :
    -π < L.atan2 (L.sin d) (L.cos d) ∧ L.atan2 (L.sin d) (L.cos d) ≤ π := by
  rw [hL.atan2_eq]
  exact Complex.arg_mem_Ioc _

/-- The wrap differs from its argument by a multiple of `2π`. -/
theorem wrap_sub (L : Numerics ℝ) (hL : L.Exact) (d : ℝ) :
    ∃ k : ℤ, L.atan2 (L.sin d) (L.cos d) = d + 2 * π * k := by
  refine ⟨⌊(π - d) / (2 * π)⌋, ?_⟩
  rw [wrap_eq_arg L hL, ← Complex.arg_cos_add_sin_mul_I_sub d]
  ring

/-- The wrap is the identity on `(-π, π]`. -/
theorem wrap_of_mem (L : Numerics ℝ) (hL : L.Exact) (d : ℝ) (h1 : -π < d) (h2 : d ≤ π) :
    L.atan2 (L.sin d) (L.cos d) = d := by
  rw [wrap_eq_arg L hL]
  exact Complex.arg_cos_add_sin_mul_I ⟨h1, h2⟩

/-- The wrap is `2π`-periodic. -/
theorem wrap_periodic (L : Numerics ℝ) (hL : L.Exact) (d : ℝ) :
    L.atan2 (L.sin (d - 2 * π)) (L.cos (d - 2 * π)) = L.atan2 (L.sin d) (L.cos d) ∧
    L.atan2 (L.sin (d + 2 * π)) (L.cos (d + 2 * π)) = L.atan2 (L.sin d) (L.cos d) := by
  simp only [hL.sin_eq, hL.cos_eq, Real.sin_sub_two_pi, Real.cos_sub_two_pi,
    Real.sin_add_two_pi, Real.cos_add_two_pi, and_self]

/-- The entries of `residues` in `correction_imu_stage`. -/
theorem imu_residues_apply (L : Numerics ℝ) (s : AdaptiveFilter ℝ) (i : Fin 3) :
    imu_residues L s i
      = L.atan2 (L.sin (s.imuMeasure ⟨6 + i.val, by omega⟩ - s.X ⟨3 + i.val, by omega⟩))
          (L.cos (s.imuMeasure ⟨6 + i.val, by omega⟩ - s.X ⟨3 + i.val, by omega⟩)) := by
  fin_cases i <;> rfl

/-- C8: the angle residual of the IMU correction, `atan2(sin Δ, cos Δ)` with
`Δ = Y − hx`, lies in `(-π, π]` and differs from `Δ` by an integer multiple of
`2π`; for `0 < ε < π/2`, a measured angle `-π + ε` against a predicted `π − ε`
gives the residual `2ε`, and with the roles swapped `-2ε`: magnitude `2ε` in
both cases. -/
theorem imu_residues_wrapped (L : Numerics ℝ) (hL : L.Exact) (s : AdaptiveFilter ℝ)
    (i : Fin 3) :
    (-π < imu_residues L s i ∧ imu_residues L s i ≤ π) ∧
    (∃ k : ℤ, imu_residues L s i
      = (s.imuMeasure ⟨6 + i.val, by omega⟩ - s.X ⟨3 + i.val, by omega⟩) + 2 * π * k) ∧
    (∀ ε : ℝ, 0 < ε → ε < π / 2 →
      (s.imuMeasure ⟨6 + i.val, by omega⟩ = -π + ε → s.X ⟨3 + i.val, by omega⟩ = π - ε →
        imu_residues L s i = 2 * ε ∧ |imu_residues L s i| = 2 * ε) ∧
      (s.imuMeasure ⟨6 + i.val, by omega⟩ = π - ε → s.X ⟨3 + i.val, by omega⟩ = -π + ε →
        imu_residues L s i = -(2 * ε) ∧ |imu_residues L s i| = 2 * ε)) := by
  rw [imu_residues_apply]
  refine ⟨wrap_mem L hL _, wrap_sub L hL _, fun ε h0 h1 => ⟨fun hY hx => ?_, fun hY hx => ?_⟩⟩
  · have e : s.imuMeasure ⟨6 + i.val, by omega⟩ - s.X ⟨3 + i.val, by omega⟩
        = 2 * ε - 2 * π := by rw [hY, hx]; ring
    have hv : L.atan2 (L.sin (2 * ε - 2 * π)) (L.cos (2 * ε - 2 * π)) = 2 * ε := by
      rw [(wrap_periodic L hL (2 * ε)).1]
      exact wrap_of_mem L hL _ (by linarith [Real.pi_pos]) (by linarith)
    rw [e, hv]
    exact ⟨rfl, abs_of_pos (by linarith)⟩
  · have e : s.imuMeasure ⟨6 + i.val, by omega⟩ - s.X ⟨3 + i.val, by omega⟩
        = -(2 * ε) + 2 * π := by rw [hY, hx]; ring
    have hv : L.atan2 (L.sin (-(2 * ε) + 2 * π)) (L.cos (-(2 * ε) + 2 * π)) = -(2 * ε) := by
      rw [(wrap_periodic L hL (-(2 * ε))).2]
      exact wrap_of_mem L hL _ (by linarith) (by linarith [Real.pi_pos])
    rw [e, hv]
    refine ⟨rfl, ?_⟩
    rw [abs_neg]
    exact abs_of_pos (by linarith)

/-- C8 at a concrete input: measured roll `-π + 1`, predicted roll `π - 1`,
residual 2. -/
theorem imu_residues_wrapped_witness :
    ∃ L : Numerics ℝ, L.Exact ∧
      imu_residues L
        { initialization (blankFilter ℝ) with
          X := ![0, 0, 0, π - 1, 0, 0, 0, 0, 0, 0, 0, 0]
          imuMeasure := ![0, 0, 0, 0, 0, 0, -π + 1, 0, 0] } 0 = 2 * 1 := by
  obtain ⟨L, hL⟩ := Numerics.exists_exact
  refine ⟨L, hL, ?_⟩
  have h1 : (1 : ℝ) < π / 2 := by linarith [Real.pi_gt_three]
  exact (((imu_residues_wrapped L hL _ 0).2.2 1 one_pos h1).1 rfl rfl).1

/-- C7 (as stated, refuted): in `nearPiYawFilter` roll, pitch and yaw are 0,
0 and 3.14, all in `(-π, π]`; after `prediction_stage` with the nominal
`dt = 0.005` the yaw is `3.14 + 0.005·2 = 3.15 > π`. -/
theorem prediction_stage_leaves_orientation_range :
    ∃ L : Numerics ℝ, L.Exact ∧
      (∀ i : Fin 12, i.val = 3 ∨ i.val = 4 ∨ i.val = 5 →
        -π < (nearPiYawFilter ℝ).X i ∧ (nearPiYawFilter ℝ).X i ≤ π) ∧
      π < (prediction_stage L (nearPiYawFilter ℝ) 0.005).X 5 := by
  obtain ⟨L, hL⟩ := Numerics.exists_exact
  refine ⟨L, hL, ?_, ?_⟩
  · intro i hi
    have hp := Real.pi_gt_d2
    fin_cases i <;> simp at hi
    · show -π < (0 : ℝ) ∧ (0 : ℝ) ≤ π
      constructor <;> linarith
    · show -π < (0 : ℝ) ∧ (0 : ℝ) ≤ π
      constructor <;> linarith
    · show -π < (3.14 : ℝ) ∧ (3.14 : ℝ) ≤ π
      constructor <;> linarith
  · have h5 := (f_prediction_model_pose_explicit L (nearPiYawFilter ℝ).X 0.005).2.2.2.2.2
    simp only [hL.sin_eq, hL.cos_eq, hL.tan_eq] at h5
    show π < f_prediction_model L (nearPiYawFilter ℝ).X 0.005 5
    rw [h5]
    have h3 : (![0, 0, 0, 0, 0, 3.14, 0, 0, 0, 0, 0, 2] : Fin 12 → ℝ) 3 = 0 := rfl
    have h4 : (![0, 0, 0, 0, 0, 3.14, 0, 0, 0, 0, 0, 2] : Fin 12 → ℝ) 4 = 0 := rfl
    have h5 : (![0, 0, 0, 0, 0, 3.14, 0, 0, 0, 0, 0, 2] : Fin 12 → ℝ) 5 = 3.14 := rfl
    have h11 : (![0, 0, 0, 0, 0, 3.14, 0, 0, 0, 0, 0, 2] : Fin 12 → ℝ) 11 = 2 := rfl
    show π < (![0, 0, 0, 0, 0, 3.14, 0, 0, 0, 0, 0, 2] : Fin 12 → ℝ) 5
      + 0.005 * (Real.cos ((![0, 0, 0, 0, 0, 3.14, 0, 0, 0, 0, 0, 2] : Fin 12 → ℝ) 3)
        / Real.cos ((![0, 0, 0, 0, 0, 3.14, 0, 0, 0, 0, 0, 2] : Fin 12 → ℝ) 4)
        * (![0, 0, 0, 0, 0, 3.14, 0, 0, 0, 0, 0, 2] : Fin 12 → ℝ) 11)
    rw [h3, h4, h5, h11, Real.cos_zero]
    have hp := Real.pi_lt_d2
    norm_num
    linarith

end Angles

section Scheduler

/-- Publishing does not touch the filter object. -/
theorem run_publish_AF {α : Type} (st : RunState α) : (run_publish st).1.AF = st.AF := by
  unfold run_publish
  split_ifs <;> rfl

variable {α : Type} [LinearOrderedField α]

/-- No block of the loop body writes `E_wheel`. -/
theorem run_blocks_E_wheel (cfg : Config α) (L : Numerics α) (t_now : α) (st : RunState α) :
    (run_prediction cfg L t_now st).AF.E_wheel = st.AF.E_wheel ∧
    (run_imu cfg L st).AF.E_wheel = st.AF.E_wheel ∧
    (run_wheel cfg L st).AF.E_wheel = st.AF.E_wheel ∧
    (run_lidar cfg L st).AF.E_wheel = st.AF.E_wheel := by
  refine ⟨?_, ?_, ?_, ?_⟩
  · unfold run_prediction; split_ifs <;> rfl
  · unfold run_imu; split_ifs <;> rfl
  · unfold run_wheel; split_ifs <;> rfl
  · unfold run_lidar; split_ifs <;> rfl

/-- No block of the loop body writes `imuMeasure`. -/
theorem run_blocks_imuMeasure (cfg : Config α) (L : Numerics α) (t_now : α) (st : RunState α) :
    (run_prediction cfg L t_now st).AF.imuMeasure = st.AF.imuMeasure ∧
    (run_imu cfg L st).AF.imuMeasure = st.AF.imuMeasure ∧
    (run_wheel cfg L st).AF.imuMeasure = st.AF.imuMeasure ∧
    (run_lidar cfg L st).AF.imuMeasure = st.AF.imuMeasure := by
  refine ⟨?_, ?_, ?_, ?_⟩
  · unfold run_prediction; split_ifs <;> rfl
  · unfold run_imu; split_ifs <;> rfl
  · unfold run_wheel; split_ifs <;> rfl
  · unfold run_lidar; split_ifs <;> rfl

/-- A tick leaves `E_wheel` as it was. -/
theorem run_tick_E_wheel (cfg : Config α) (L : Numerics α) (t_now : α) (st : RunState α) :
    (run_tick cfg L t_now st).1.AF.E_wheel = st.AF.E_wheel := by
  rw [run_tick, run_publish_AF, (run_blocks_E_wheel cfg L t_now _).2.2.2,
    (run_blocks_E_wheel cfg L t_now _).2.2.1, (run_blocks_E_wheel cfg L t_now _).2.1,
    (run_blocks_E_wheel cfg L t_now _).1]

/-- A tick leaves `imuMeasure` as it was. -/
theorem run_tick_imuMeasure (cfg : Config α) (L : Numerics α) (t_now : α) (st : RunState α) :
    (run_tick cfg L t_now st).1.AF.imuMeasure = st.AF.imuMeasure := by
  rw [run_tick, run_publish_AF, (run_blocks_imuMeasure cfg L t_now _).2.2.2,
    (run_blocks_imuMeasure cfg L t_now _).2.2.1, (run_blocks_imuMeasure cfg L t_now _).2.1,
    (run_blocks_imuMeasure cfg L t_now _).1]

/-- `E_wheel` after `wheelOdometryHandler`: the two diagonal entries are
recomputed, the off-diagonal ones are kept. -/
theorem wheelOdometryHandler_E_wheel_eq (cfg : Config α) (timeL timeEnd : α) (w : Odometry α)
    (s : AdaptiveFilter α) :
    (wheelOdometryHandler cfg timeL timeEnd w s).E_wheel
      = !![cfg.gamma_vx * |w.twist_angular 2 - s.imuMeasure 5| + cfg.delta_vx, s.E_wheel 0 1;
           s.E_wheel 1 0, cfg.gamma_omegaz * |w.twist_angular 2 - s.imuMeasure 5| + cfg.delta_omegaz] := by
  ext i j
  fin_cases i <;> fin_cases j <;>
    simp [wheelOdometryHandler, wheelOdometryAdaptiveCovariance, setEntry]

/-- Every event keeps the off-diagonal entries of `E_wheel` zero. -/
theorem step_E_wheel_offdiag (cfg : Config α) (L : Numerics α) (st : RunState α) (e : Event α)
    (h : st.AF.E_wheel 0 1 = 0 ∧ st.AF.E_wheel 1 0 = 0) :
    (step cfg L st e).AF.E_wheel 0 1 = 0 ∧ (step cfg L st e).AF.E_wheel 1 0 = 0 := by
  cases e with
  | imu tl te m => exact h
  | wheel tl te w =>
    show (wheelOdometryHandler cfg tl te w st.AF).E_wheel 0 1 = 0 ∧
      (wheelOdometryHandler cfg tl te w st.AF).E_wheel 1 0 = 0
    rw [wheelOdometryHandler_E_wheel_eq]
    simpa using h
  | lidar tl te l => exact h
  | tick t =>
    show (run_tick cfg L t st).1.AF.E_wheel 0 1 = 0 ∧ (run_tick cfg L t st).1.AF.E_wheel 1 0 = 0
    rw [run_tick_E_wheel]; exact h

/-- The off-diagonal entries of `E_wheel` stay zero along every run. -/
theorem runEvents_E_wheel_offdiag (cfg : Config α) (L : Numerics α) (es : List (Event α))
    (st : RunState α) (h : st.AF.E_wheel 0 1 = 0 ∧ st.AF.E_wheel 1 0 = 0) :
    (runEvents cfg L st es).AF.E_wheel 0 1 = 0 ∧ (runEvents cfg L st es).AF.E_wheel 1 0 = 0 := by
  induction es generalizing st with
  | nil => exact h
  | cons e es ih => exact ih (step cfg L st e) (step_E_wheel_offdiag cfg L st e h)

/-- Only the arrival of an IMU record writes `imuMeasure`. -/
theorem step_imuMeasure (cfg : Config α) (L : Numerics α) (st : RunState α) (e : Event α)
    (h : e.isImu = false) : (step cfg L st e).AF.imuMeasure = st.AF.imuMeasure := by
  cases e with
  | imu tl te m => simp [Event.isImu] at h
  | wheel tl te w => rfl
  | lidar tl te l => rfl
  | tick t => exact run_tick_imuMeasure cfg L t st

/-- A run without IMU arrivals leaves `imuMeasure` as it was. -/
theorem runEvents_imuMeasure (cfg : Config α) (L : Numerics α) (es : List (Event α))
    (st : RunState α) (h : ∀ e ∈ es, e.isImu = false) :
    (runEvents cfg L st es).AF.imuMeasure = st.AF.imuMeasure := by
  induction es generalizing st with
  | nil => rfl
  | cons e es ih =>
    have h1 := ih (step cfg L st e) (fun e' he' => h e' (List.mem_cons_of_mem _ he'))
    exact h1.trans (step_imuMeasure cfg L st e (h e (List.mem_cons_self _ _)))

/-- `imuHandler` stores the reported yaw rate in `imuMeasure(5)`. -/
theorem imuHandler_imuMeasure_gyro_z (cfg : Config α) (tl te : α) (m : Imu α)
    (s : AdaptiveFilter α) : (imuHandler cfg tl te m s).imuMeasure 5 = m.angular_velocity 2 := by
  simp [imuHandler, setVecBlock_apply, Fin.coe_ofNat_eq_mod]

/-- C9: after every wheel sample, in every state reached from the
initialized filter by any sequence of arrivals and ticks, the wheel noise is
`E_wheel = diag(γ_vx·D + δ_vx, γ_ωz·D + δ_ωz)` with both off-diagonal entries
zero, where `D = |wheel yaw rate − imuMeasure(5)|`; for `D = 0` it is
`diag(δ_vx, δ_ωz)`; and `imuMeasure(5)` is the yaw rate of the latest IMU
record, whatever other events came after it. -/
theorem wheelOdometryHandler_adaptive_covariance (cfg : Config α) (L : Numerics α)
    (s0 : AdaptiveFilter α) (t0 : α) (es : List (Event α)) (timeL timeEnd : α)
    (w : Odometry α) :
    (wheelOdometryHandler cfg timeL timeEnd w
        (runEvents cfg L (run_init (initialization s0) t0) es).AF).E_wheel
      = !![cfg.gamma_vx * |w.twist_angular 2
              - (runEvents cfg L (run_init (initialization s0) t0) es).AF.imuMeasure 5|
            + cfg.delta_vx, 0;
           0, cfg.gamma_omegaz * |w.twist_angular 2
              - (runEvents cfg L (run_init (initialization s0) t0) es).AF.imuMeasure 5|
            + cfg.delta_omegaz] ∧
    (w.twist_angular 2 = (runEvents cfg L (run_init (initialization s0) t0) es).AF.imuMeasure 5 →
      (wheelOdometryHandler cfg timeL timeEnd w
        (runEvents cfg L (run_init (initialization s0) t0) es).AF).E_wheel
        = !![cfg.delta_vx, 0; 0, cfg.delta_omegaz]) ∧
    (∀ (tl te : α) (m : Imu α) (es' : List (Event α)),
      (runEvents cfg L
        (step cfg L (runEvents cfg L (run_init (initialization s0) t0) es) (Event.imu tl te m))
        (es'.filter fun e => !e.isImu)).AF.imuMeasure 5 = m.angular_velocity 2) := by
  have h0 := runEvents_E_wheel_offdiag cfg L es (run_init (initialization s0) t0) ⟨rfl, rfl⟩
  have hE := wheelOdometryHandler_E_wheel_eq cfg timeL timeEnd w
    (runEvents cfg L (run_init (initialization s0) t0) es).AF
  rw [h0.1, h0.2] at hE
  refine ⟨hE, fun hD => ?_, fun tl te m es' => ?_⟩
  · rw [hE, hD]; simp
  · rw [runEvents_imuMeasure]
    · exact imuHandler_imuMeasure_gyro_z cfg tl te m _
    · intro e he
      simpa using (List.mem_filter.mp he).2

/-- The prediction, IMU and wheel blocks leave the lidar flags and
`lidar_dt` as they were. -/
theorem run_blocks_lidar_flags (cfg : Config α) (L : Numerics α) (t_now : α) (st : RunState α) :
    ((run_prediction cfg L t_now st).AF.lidarActivated = st.AF.lidarActivated ∧
      (run_prediction cfg L t_now st).AF.lidarNew = st.AF.lidarNew ∧
      (run_prediction cfg L t_now st).AF.lidar_dt = st.AF.lidar_dt) ∧
    ((run_imu cfg L st).AF.lidarActivated = st.AF.lidarActivated ∧
      (run_imu cfg L st).AF.lidarNew = st.AF.lidarNew ∧
      (run_imu cfg L st).AF.lidar_dt = st.AF.lidar_dt) ∧
    ((run_wheel cfg L st).AF.lidarActivated = st.AF.lidarActivated ∧
      (run_wheel cfg L st).AF.lidarNew = st.AF.lidarNew ∧
      (run_wheel cfg L st).AF.lidar_dt = st.AF.lidar_dt) := by
  refine ⟨?_, ?_, ?_⟩
  · unfold run_prediction; split_ifs <;> exact ⟨rfl, rfl, rfl⟩
  · unfold run_imu; split_ifs <;> exact ⟨rfl, rfl, rfl⟩
  · unfold run_wheel; split_ifs <;> exact ⟨rfl, rfl, rfl⟩

/-- The tick that follows a lidar arrival runs `correction_lidar_stage` with
`dt = 0.1`, after the prediction and any pending IMU and wheel correction, and
clears `lidarNew`. -/
theorem run_tick_after_lidar (cfg : Config α) (L : Numerics α) (hF : cfg.enableFilter = true)
    (hLi : cfg.enableLidar = true) (st : RunState α) (tl te : α) (l : Odometry α) (t_now : α) :
    (run_tick cfg L t_now (step cfg L st (Event.lidar tl te l))).1.AF
      = { correction_lidar_stage L
            (run_wheel cfg L (run_imu cfg L (run_prediction cfg L t_now
              (step cfg L st (Event.lidar tl te l))))).AF 0.1 with lidarNew := false } := by
  have h := run_blocks_lidar_flags cfg L t_now
  have hp := (h (step cfg L st (Event.lidar tl te l))).1
  have hi := (h (run_prediction cfg L t_now (step cfg L st (Event.lidar tl te l)))).2.1
  have hw := (h (run_imu cfg L (run_prediction cfg L t_now
    (step cfg L st (Event.lidar tl te l))))).2.2
  have hA : (run_wheel cfg L (run_imu cfg L (run_prediction cfg L t_now
      (step cfg L st (Event.lidar tl te l))))).AF.lidarActivated = true := by
    rw [hw.1, hi.1, hp.1]; rfl
  have hN : (run_wheel cfg L (run_imu cfg L (run_prediction cfg L t_now
      (step cfg L st (Event.lidar tl te l))))).AF.lidarNew = true := by
    rw [hw.2.1, hi.2.1, hp.2.1]; rfl
  have hD : (run_wheel cfg L (run_imu cfg L (run_prediction cfg L t_now
      (step cfg L st (Event.lidar tl te l))))).AF.lidar_dt = 0.1 := by
    rw [hw.2.2, hi.2.2, hp.2.2]; rfl
  rw [run_tick, run_publish_AF]
  unfold run_lidar
  rw [if_pos (by simp [hF, hLi, hA, hN]), hD]

/-- When the first event after initialization is a lidar arrival, the next
tick runs no IMU and no wheel correction: before its lidar block the filter
is what `prediction_stage` made of it. -/
theorem run_blocks_first_lidar (cfg : Config α) (L : Numerics α) (hF : cfg.enableFilter = true)
    (s0 : AdaptiveFilter α) (t0 tl te : α) (l : Odometry α) (t_now : α) :
    (run_wheel cfg L (run_imu cfg L (run_prediction cfg L t_now
      (step cfg L (run_init (initialization s0) t0) (Event.lidar tl te l))))).AF
      = prediction_stage L (laserOdometryHandler cfg tl te l (initialization s0))
          (t_now - t0) := by
  have h1 : run_prediction cfg L t_now
      (step cfg L (run_init (initialization s0) t0) (Event.lidar tl te l))
      = { step cfg L (run_init (initialization s0) t0) (Event.lidar tl te l) with
          t_last := t_now
          AF := prediction_stage L (laserOdometryHandler cfg tl te l (initialization s0))
            (t_now - t0)
          pub_pred := if cfg.filterFreq = "p" then true else false } := by
    unfold run_prediction
    rw [if_pos hF]
    rfl
  rw [h1]
  have h2 : ∀ x : RunState α, x.AF.imuActivated = false → run_imu cfg L x = x := by
    intro x hx
    unfold run_imu
    rw [if_neg (by simp [hx])]
  have h3 : ∀ x : RunState α, x.AF.wheelActivated = false → run_wheel cfg L x = x := by
    intro x hx
    unfold run_wheel
    rw [if_neg (by simp [hx])]
  rw [h2 _ rfl, h3 _ rfl]

/-- The first component of the indirect lidar measurement: the translation
between the two poses along the body x axis of the previous pose, over `dt`. -/
theorem indirect_lidar_measurement_vx (L : Numerics α) (u ul : Fin 6 → α) (dt : α) :
    indirect_lidar_measurement L u ul dt 0
      = (L.cos (ul 5) * L.cos (ul 4) * (u 0 - ul 0) + L.sin (ul 5) * L.cos (ul 4) * (u 1 - ul 1)
          + -L.sin (ul 4) * (u 2 - ul 2)) / dt := by
  simp [indirect_lidar_measurement, Matrix.mulVec, Matrix.dotProduct, Fin.sum_univ_six,
    Fin.sum_univ_three, setBlock_apply, setVecBlock_apply, vecBlock_apply, Function.update,
    Rx, Ry, Rz, Matrix.mul_apply, Fin.coe_ofNat_eq_mod, Matrix.vecHead, Matrix.vecTail,
    Matrix.transpose]

/-- The lidar `H` applied to a state vector selects its velocity part. -/
theorem lidar_H_mulVec (w : Fin 12 → α) (i : Fin 6) :
    (lidar_H α).mulVec w i = w ⟨6 + i.val, by omega⟩ := by
  simp [Matrix.mulVec, Matrix.dotProduct, lidar_H_apply]

/-- C2 (amended): with the filter and the lidar enabled, the tick that follows
the arrival of a lidar sample always runs `correction_lidar_stage` (with
`dt = 0.1`), the first sample included.  Starting from the initialized filter,
after the first sample that tick leaves `X` and `P` as `correction_lidar_stage`
makes them from the predicted state, the previous pose it differences against
being the initial zero pose with zero covariance; the sample is stored as the
previous pose by that same correction.  The tick that follows any later sample
runs `correction_lidar_stage` as well, after prediction and any pending IMU
and wheel correction. -/
theorem lidar_sample_always_corrected (cfg : Config α) (L : Numerics α)
    (hF : cfg.enableFilter = true) (hLi : cfg.enableLidar = true) (s0 : AdaptiveFilter α)
    (t0 tl te : α) (l : Odometry α) (t_now : α) :
    ((run_tick cfg L t_now
        (step cfg L (run_init (initialization s0) t0) (Event.lidar tl te l))).1.AF
      = { correction_lidar_stage L
            (prediction_stage L (laserOdometryHandler cfg tl te l (initialization s0))
              (t_now - t0)) 0.1 with lidarNew := false }) ∧
    ((laserOdometryHandler cfg tl te l (initialization s0)).lidarMeasureL = 0 ∧
      (laserOdometryHandler cfg tl te l (initialization s0)).E_lidarL = 0) ∧
    ((run_tick cfg L t_now
        (step cfg L (run_init (initialization s0) t0) (Event.lidar tl te l))).1.AF.lidarMeasureL
      = (laserOdometryHandler cfg tl te l (initialization s0)).lidarMeasure) ∧
    (∀ (st : RunState α) (tl2 te2 : α) (l2 : Odometry α) (t2 : α),
      (run_tick cfg L t2 (step cfg L st (Event.lidar tl2 te2 l2))).1.AF
        = { correction_lidar_stage L
              (run_wheel cfg L (run_imu cfg L (run_prediction cfg L t2
                (step cfg L st (Event.lidar tl2 te2 l2))))).AF 0.1 with lidarNew := false }) := by
  have h1 : (run_tick cfg L t_now
        (step cfg L (run_init (initialization s0) t0) (Event.lidar tl te l))).1.AF
      = { correction_lidar_stage L
            (prediction_stage L (laserOdometryHandler cfg tl te l (initialization s0))
              (t_now - t0)) 0.1 with lidarNew := false } := by
    rw [run_tick_after_lidar cfg L hF hLi, run_blocks_first_lidar cfg L hF]
  refine ⟨h1, ⟨rfl, rfl⟩, ?_, fun st tl2 te2 l2 t2 => run_tick_after_lidar cfg L hF hLi st tl2 te2 l2 t2⟩
  rw [h1]
  rfl

end Scheduler

section SchedulerReal

open Matrix

/-- With zero propagated noise and an invertible `S`, the lidar gain maps a
measurement residual onto the velocity states unchanged (`H·K = 1`). -/
theorem lidar_gain_velocity (L : Numerics ℝ) (hL : L.Exact) (s : AdaptiveFilter ℝ) (dt : ℝ)
    (hQ : lidar_Q L s dt = 0) (hS : IsUnit (lidar_S L s dt).det) (v : Fin 6 → ℝ) (i : Fin 6) :
    (lidar_K L s dt).mulVec v ⟨6 + i.val, by omega⟩ = v i := by
  have hHK : lidar_H ℝ * lidar_K L s dt = 1 := by
    have e : lidar_S L s dt = lidar_H ℝ * s.P * (lidar_H ℝ).transpose := by
      rw [lidar_S, hQ, add_zero]
    rw [lidar_K, hL.inverse_eq 6 _ hS, ← Matrix.mul_assoc, ← Matrix.mul_assoc, ← e]
    exact Matrix.mul_nonsing_inv _ hS
  have h := lidar_H_mulVec ((lidar_K L s dt).mulVec v) i
  rw [← h, Matrix.mulVec_mulVec, hHK, Matrix.one_mulVec]

/-- C2 (amended) at a concrete input: default parameters, the first lidar
sample one metre ahead, the tick at `t = 0.005`. -/
theorem lidar_sample_always_corrected_witness :
    ∃ L : Numerics ℝ, L.Exact ∧
      (run_tick (defaultConfig ℝ) L 0.005
        (step (defaultConfig ℝ) L (run_init (initialization (blankFilter ℝ)) 0)
          (Event.lidar 0 0 (oneMetreOdometry ℝ)))).1.AF
      = { correction_lidar_stage L
            (prediction_stage L
              (laserOdometryHandler (defaultConfig ℝ) 0 0
                (oneMetreOdometry ℝ) (initialization (blankFilter ℝ)))
              (0.005 - 0)) 0.1 with lidarNew := false } := by
  obtain ⟨L, hL⟩ := Numerics.exists_exact
  exact ⟨L, hL, (lidar_sample_always_corrected (defaultConfig ℝ) L rfl rfl _ 0 0 0 _ 0.005).1⟩

/-- C2 (as stated, refuted): default parameters, initialized filter, first
lidar sample one metre ahead with zero covariance, then the nominal tick.
The lidar correction runs against the zero previous pose: `vx = X(6)` is 10
(one metre in 0.1 s) after the tick, while prediction alone leaves it 0. -/
theorem first_lidar_sample_is_corrected :
    ∃ L : Numerics ℝ, L.Exact ∧
      (run_tick (defaultConfig ℝ) L 0.005
        (step (defaultConfig ℝ) L (run_init (initialization (blankFilter ℝ)) 0)
          (Event.lidar 0 0 (oneMetreOdometry ℝ)))).1.AF.X 6 = 10 ∧
      (prediction_stage L
        (laserOdometryHandler (defaultConfig ℝ) 0 0
          (oneMetreOdometry ℝ) (initialization (blankFilter ℝ)))
        (0.005 - 0)).X 6 = 0 := by
  obtain ⟨L, hL⟩ := Numerics.exists_exact
  obtain ⟨s1, hs1⟩ : ∃ s1, s1 = laserOdometryHandler (defaultConfig ℝ) 0 0
          (oneMetreOdometry ℝ) (initialization (blankFilter ℝ)) := ⟨_, rfl⟩
  obtain ⟨sp, hsp⟩ : ∃ sp, sp = prediction_stage L s1 (0.005 - 0) := ⟨_, rfl⟩
  have hX6 : sp.X 6 = 0 := by
    rw [hsp]
    show f_prediction_model L s1.X (0.005 - 0) 6 = 0
    rw [(f_prediction_model_vel L s1.X (0.005 - 0)).1, hs1]
    rfl
  refine ⟨L, hL, ?_, by rw [← hs1, ← hsp]; exact hX6⟩
  rw [run_tick_after_lidar (defaultConfig ℝ) L rfl rfl,
    run_blocks_first_lidar (defaultConfig ℝ) L rfl, ← hs1, ← hsp]
  show (correction_lidar_stage L sp 0.1).X 6 = 10
  have hQ : lidar_Q L sp 0.1 = 0 := by
    have e1 : sp.E_lidar = 0 := by
      rw [hsp, hs1]
      ext i j
      show (defaultConfig ℝ).lidarG * (0 : ℝ) = 0
      simp
    have e2 : sp.E_lidarL = 0 := by rw [hsp, hs1]; rfl
    simp [lidar_Q, e1, e2]
  have hS : lidar_S L sp 0.1
      = Matrix.diagonal fun i : Fin 6 => if i = 0 ∨ i = 5 then (0.101 : ℝ) else 0.001 := by
    ext i j
    rw [lidar_S_apply, hQ, hsp, prediction_stage_P_vel L s1 _ _ _ (by simp) (by simp)]
    have hP : s1.P = Matrix.diagonal fun _ => (0.1 : ℝ) := by rw [hs1]; rfl
    have hE : s1.E_pred = (initialization (blankFilter ℝ)).E_pred := by rw [hs1]; rfl
    rw [hP, hE, initialization_E_pred]
    fin_cases i <;> fin_cases j <;>
      simp [Matrix.diagonal_apply, Fin.ext_iff, Fin.coe_ofNat_eq_mod] <;> norm_num
  have hU : IsUnit (lidar_S L sp 0.1).det :=
    isUnit_det_of_eq_diagonal _ _ hS (fun i => by split_ifs <;> norm_num)
  have hK := lidar_gain_velocity L hL sp 0.1 hQ hU
    (indirect_lidar_measurement L sp.lidarMeasure sp.lidarMeasureL 0.1
      - vecBlock sp.X 6 6 (by decide)) 0
  have hXv : (correction_lidar_stage L sp 0.1).X 6
      = sp.X 6 + (lidar_K L sp 0.1).mulVec
          (indirect_lidar_measurement L sp.lidarMeasure sp.lidarMeasureL 0.1
            - vecBlock sp.X 6 6 (by decide)) ⟨6 + (0 : Fin 6).val, by decide⟩ := rfl
  rw [hXv, hK, hX6, Pi.sub_apply, indirect_lidar_measurement_vx]
  have hm : sp.lidarMeasure = ![1, 0, 0, 0, 0, 0] := by
    rw [hsp, hs1]
    funext i
    fin_cases i <;> rfl
  have hml : sp.lidarMeasureL = 0 := by rw [hsp, hs1]; rfl
  have hv : vecBlock sp.X 6 6 (by decide) 0 = 0 := hX6
  rw [hm, hml, hv]
  simp [hL.sin_eq, hL.cos_eq]
  norm_num

end SchedulerReal

/-! ## The prediction model and the covariance invariant -/

section PredictionModel

variable {α : Type} [LinearOrderedField α]

/-- Overwriting `vy, vz, wx, wy` of the input does not change the scratch copy `x2`. -/
theorem f_prediction_model_x2_setVecBlock (x : Fin 12 → α) (v : Fin 4 → α) :
    f_prediction_model_x2 (setVecBlock x 7 v) = f_prediction_model_x2 x := by
  funext i
  simp only [f_prediction_model_x2, setVecBlock_apply]
  split_ifs <;> rfl

/-- Overwriting `vy, vz, wx, wy` of the input does not change the matrix `A`. -/
theorem f_prediction_model_A_setVecBlock (L : Numerics α) (x : Fin 12 → α) (v : Fin 4 → α) :
    f_prediction_model_A L (setVecBlock x 7 v) = f_prediction_model_A L x := by
  have h3 : setVecBlock x 7 v 3 = x 3 := rfl
  have h4 : setVecBlock x 7 v 4 = x 4 := rfl
  have h5 : setVecBlock x 7 v 5 = x 5 := rfl
  simp only [f_prediction_model_A, h3, h4, h5]

/-- C11: for every state `x` and every `dt`, `f_prediction_model` adds
`A·velocities·dt` to the pose block, `A` being the identity with the rotation
`R = Rz(yaw)·Ry(pitch)·Rx(roll)` and the Euler-rate matrix `J` as its diagonal
blocks and the velocities being `(vx, 0, 0, 0, 0, wz)`; written out,
`x' = x + vx·cos(yaw)·cos(pitch)·dt`, `y' = y + vx·sin(yaw)·cos(pitch)·dt`,
`z' = z − vx·sin(pitch)·dt`, `roll' = roll + wz·cos(roll)·tan(pitch)·dt`,
`pitch' = pitch − wz·sin(roll)·dt`, `yaw' = yaw + wz·cos(roll)/cos(pitch)·dt`;
and the returned pose is the same whatever `vy, vz, wx, wy` are. -/
theorem f_prediction_model_kinematics (L : Numerics α) (x : Fin 12 → α) (dt : α) :
    (∀ i : Fin 6, f_prediction_model L x dt ⟨i.val, by omega⟩
      = x ⟨i.val, by omega⟩
        + ((setBlock (setBlock (1 : Matrix (Fin 6) (Fin 6) α) 0 0
              (Rz L (x 5) * Ry L (x 4) * Rx L (x 3))) 3 3 (eulerRateJ L (x 3) (x 4))).mulVec
            ![x 6, 0, 0, 0, 0, x 11]) i * dt) ∧
    (f_prediction_model L x dt 0 = x 0 + x 6 * L.cos (x 5) * L.cos (x 4) * dt ∧
      f_prediction_model L x dt 1 = x 1 + x 6 * L.sin (x 5) * L.cos (x 4) * dt ∧
      f_prediction_model L x dt 2 = x 2 - x 6 * L.sin (x 4) * dt ∧
      f_prediction_model L x dt 3 = x 3 + x 11 * L.cos (x 3) * L.tan (x 4) * dt ∧
      f_prediction_model L x dt 4 = x 4 - x 11 * L.sin (x 3) * dt ∧
      f_prediction_model L x dt 5 = x 5 + x 11 * L.cos (x 3) / L.cos (x 4) * dt) ∧
    (∀ (v : Fin 4 → α) (i : Fin 12), i.val < 6 →
      f_prediction_model L (setVecBlock x 7 v) dt i = f_prediction_model L x dt i) := by
  obtain ⟨h0, h1, h2, h3, h4, h5⟩ := f_prediction_model_pose_explicit L x dt
  refine ⟨fun i => ?_, ⟨?_, ?_, ?_, ?_, ?_, ?_⟩, fun v i _ => ?_⟩
  · rw [f_prediction_model_pose L x dt ⟨i.val, by omega⟩ i.isLt, mul_comm]
    rfl
  · rw [h0]; ring
  · rw [h1]; ring
  · rw [h2]; ring
  · rw [h3]; ring
  · rw [h4]; ring
  · rw [h5]; ring
  · simp only [f_prediction_model, f_prediction_model_x2_setVecBlock,
      f_prediction_model_A_setVecBlock]

end PredictionModel

section ProcessNoise

variable {α : Type} [LinearOrderedField α]

/-- No block of the loop body writes `E_pred`. -/
theorem run_blocks_E_pred (cfg : Config α) (L : Numerics α) (t_now : α) (st : RunState α) :
    (run_prediction cfg L t_now st).AF.E_pred = st.AF.E_pred ∧
    (run_imu cfg L st).AF.E_pred = st.AF.E_pred ∧
    (run_wheel cfg L st).AF.E_pred = st.AF.E_pred ∧
    (run_lidar cfg L st).AF.E_pred = st.AF.E_pred := by
  refine ⟨?_, ?_, ?_, ?_⟩
  · unfold run_prediction; split_ifs <;> rfl
  · unfold run_imu; split_ifs <;> rfl
  · unfold run_wheel; split_ifs <;> rfl
  · unfold run_lidar; split_ifs <;> rfl

/-- No event writes `E_pred`. -/
theorem step_E_pred (cfg : Config α) (L : Numerics α) (st : RunState α) (e : Event α) :
    (step cfg L st e).AF.E_pred = st.AF.E_pred := by
  cases e with
  | imu tl te m => rfl
  | wheel tl te w => rfl
  | lidar tl te l => rfl
  | tick t =>
    show (run_tick cfg L t st).1.AF.E_pred = st.AF.E_pred
    rw [run_tick, run_publish_AF, (run_blocks_E_pred cfg L t _).2.2.2,
      (run_blocks_E_pred cfg L t _).2.2.1, (run_blocks_E_pred cfg L t _).2.1,
      (run_blocks_E_pred cfg L t _).1]

/-- `E_pred` is the same along every run. -/
theorem runEvents_E_pred (cfg : Config α) (L : Numerics α) (es : List (Event α))
    (st : RunState α) : (runEvents cfg L st es).AF.E_pred = st.AF.E_pred := by
  induction es generalizing st with
  | nil => rfl
  | cons e es ih => exact (ih (step cfg L st e)).trans (step_E_pred cfg L st e)

/-- C12: for every prior `X`, `P` and `dt`, `prediction_stage` sets `X` to
`f_prediction_model (X_prior, dt)` and `P` to `F·P_prior·Fᵀ + E_pred` with
`F = jacobian_state` at the prior `X`; along every run from the initialized
filter `E_pred` is zero except for the diagonal entries 6..11, each `0.01 × 0.1`;
and none of the four stages changes `E_pred`. -/
theorem prediction_stage_update (cfg : Config α) (L : Numerics α) (s : AdaptiveFilter α)
    (dt : α) :
    (prediction_stage L s dt).X = f_prediction_model L s.X dt ∧
    (prediction_stage L s dt).P
      = jacobian_state L s.X dt * s.P * (jacobian_state L s.X dt).transpose + s.E_pred ∧
    (∀ (s0 : AdaptiveFilter α) (t0 : α) (es : List (Event α)) (i j : Fin 12),
      (runEvents cfg L (run_init (initialization s0) t0) es).AF.E_pred i j
        = if i = j ∧ 6 ≤ i.val then 0.01 * 0.1 else 0) ∧
    ((prediction_stage L s dt).E_pred = s.E_pred ∧
      (correction_imu_stage L s dt).E_pred = s.E_pred ∧
      (correction_wheel_stage L s dt).E_pred = s.E_pred ∧
      (correction_lidar_stage L s dt).E_pred = s.E_pred) := by
  refine ⟨rfl, rfl, fun s0 t0 es i j => ?_, ⟨rfl, rfl, rfl, rfl⟩⟩
  rw [runEvents_E_pred]
  show (initialization s0).E_pred i j = _
  rw [initialization_E_pred]
  norm_num

end ProcessNoise

section CovarianceInvariant

open Matrix

/-- The process noise set by `initialization()` is positive semi-definite. -/
theorem initialization_E_pred_posSemidef (s0 : AdaptiveFilter ℝ) :
    (initialization s0).E_pred.PosSemidef := by
  have h : (initialization s0).E_pred
      = Matrix.diagonal fun i : Fin 12 => if 6 ≤ i.val then (0.001 : ℝ) else 0 := by
    ext i j
    rw [initialization_E_pred, Matrix.diagonal_apply]
    by_cases hij : i = j
    · subst hij; simp
    · simp [hij]
  rw [h]
  exact Matrix.PosSemidef.diagonal (fun i => by
    show (0 : ℝ) ≤ if 6 ≤ i.val then (0.001 : ℝ) else 0
    split_ifs <;> norm_num)

/-- C13: for every `X` and `dt`, if `P` is symmetric positive semi-definite
before `prediction_stage` and `E_pred` is the matrix set by `initialization()`,
then `P` is symmetric positive semi-definite after it. -/
theorem prediction_stage_posSemidef (L : Numerics ℝ) (s s0 : AdaptiveFilter ℝ) (dt : ℝ)
    (hP : s.P.PosSemidef) (hE : s.E_pred = (initialization s0).E_pred) :
    (prediction_stage L s dt).P.PosSemidef ∧ (prediction_stage L s dt).P.IsSymm := by
  have h1 := hP.mul_mul_conjTranspose_same (jacobian_state L s.X dt)
  rw [Matrix.conjTranspose_eq_transpose_of_trivial] at h1
  have h2 := initialization_E_pred_posSemidef s0
  rw [← hE] at h2
  have h : (prediction_stage L s dt).P.PosSemidef := h1.add h2
  refine ⟨h, ?_⟩
  have := h.1
  rwa [Matrix.IsHermitian, Matrix.conjTranspose_eq_transpose_of_trivial] at this

/-- The covariance after the first prediction from the initialized filter, with
`dt = 0.005`, is symmetric positive semi-definite. -/
theorem prediction_stage_posSemidef_witness :
    ∃ L : Numerics ℝ, L.Exact ∧
      (prediction_stage L (initialization (blankFilter ℝ)) 0.005).P.PosSemidef ∧
      (prediction_stage L (initialization (blankFilter ℝ)) 0.005).P.IsSymm := by
  obtain ⟨L, hL⟩ := Numerics.exists_exact
  exact ⟨L, hL, prediction_stage_posSemidef L _ (blankFilter ℝ) 0.005 initial_P_posSemidef rfl⟩

end CovarianceInvariant

section Joseph

open Matrix

/-- The Joseph form of the covariance update: with `K = P·Hᵀ·S⁻¹` and `S = H·P·Hᵀ + E`
invertible, `P − K·H·P = (1 − K·H)·P·(1 − K·H)ᵀ + K·E·Kᵀ`. -/
theorem kalman_joseph {m n : ℕ} (H : Matrix (Fin m) (Fin n) ℝ) (P : Matrix (Fin n) (Fin n) ℝ)
    (E : Matrix (Fin m) (Fin m) ℝ) (hS : IsUnit (H * P * Hᵀ + E).det) :
    P - P * Hᵀ * (H * P * Hᵀ + E)⁻¹ * H * P
      = (1 - P * Hᵀ * (H * P * Hᵀ + E)⁻¹ * H) * P * (1 - P * Hᵀ * (H * P * Hᵀ + E)⁻¹ * H)ᵀ
        + P * Hᵀ * (H * P * Hᵀ + E)⁻¹ * E * (P * Hᵀ * (H * P * Hᵀ + E)⁻¹)ᵀ := by
  set S := H * P * Hᵀ + E with hSdef
  set K := P * Hᵀ * S⁻¹ with hK
  have hKS : K * S = P * Hᵀ := by
    rw [hK, Matrix.mul_assoc, Matrix.nonsing_inv_mul _ hS, Matrix.mul_one]
  have hE : E = S - H * P * Hᵀ := by rw [hSdef]; abel
  have e1 : K * E * Kᵀ = P * Hᵀ * Kᵀ - K * H * P * Hᵀ * Kᵀ := by
    rw [hE, Matrix.mul_sub, Matrix.sub_mul, hKS]
    simp only [Matrix.mul_assoc]
  have e2 : (1 - K * H) * P * (1 - K * H)ᵀ
      = P - K * H * P - P * Hᵀ * Kᵀ + K * H * P * Hᵀ * Kᵀ := by
    rw [Matrix.transpose_sub, Matrix.transpose_one, Matrix.transpose_mul]
    simp only [Matrix.sub_mul, Matrix.mul_sub, Matrix.one_mul, Matrix.mul_one, Matrix.mul_assoc]
    abel
  rw [e1, e2]
  abel

/-- The Kalman covariance update keeps a positive semi-definite covariance positive
semi-definite when the measurement noise is positive semi-definite and `S` is invertible. -/
theorem kalman_posSemidef {m n : ℕ} (H : Matrix (Fin m) (Fin n) ℝ)
    (P : Matrix (Fin n) (Fin n) ℝ) (E : Matrix (Fin m) (Fin m) ℝ) (hP : P.PosSemidef)
    (hE : E.PosSemidef) (hS : IsUnit (H * P * Hᵀ + E).det) :
    (P - P * Hᵀ * (H * P * Hᵀ + E)⁻¹ * H * P).PosSemidef := by
  rw [kalman_joseph H P E hS]
  have h1 := hP.mul_mul_conjTranspose_same (1 - P * Hᵀ * (H * P * Hᵀ + E)⁻¹ * H)
  have h2 := hE.mul_mul_conjTranspose_same (P * Hᵀ * (H * P * Hᵀ + E)⁻¹)
  rw [Matrix.conjTranspose_eq_transpose_of_trivial] at h1 h2
  exact h1.add h2

/-- C14: for each correction stage (wheel, IMU, lidar), if `P` is symmetric
positive semi-definite, the measurement noise the stage uses (`E_wheel`, the
orientation block of `E_imu`, the propagated lidar noise `Q`) is symmetric
positive semi-definite and `S = H·P·Hᵀ + E` is invertible, then the updated
`P − K·H·P` is symmetric positive semi-definite (in exact arithmetic, `inverse`
being the matrix inverse). -/
theorem correction_stage_posSemidef (L : Numerics ℝ) (hL : L.Exact) (s : AdaptiveFilter ℝ)
    (dt : ℝ) (hP : s.P.PosSemidef) :
    (s.E_wheel.PosSemidef → IsUnit (wheel_S s).det →
      (correction_wheel_stage L s dt).P.PosSemidef ∧ (correction_wheel_stage L s dt).P.IsSymm) ∧
    ((block s.E_imu 6 6 3 3 (by decide) (by decide)).PosSemidef → IsUnit (imu_S s).det →
      (correction_imu_stage L s dt).P.PosSemidef ∧ (correction_imu_stage L s dt).P.IsSymm) ∧
    ((lidar_Q L s dt).PosSemidef → IsUnit (lidar_S L s dt).det →
      (correction_lidar_stage L s dt).P.PosSemidef ∧ (correction_lidar_stage L s dt).P.IsSymm) := by
  have sym : ∀ M : Matrix (Fin 12) (Fin 12) ℝ, M.PosSemidef → M.PosSemidef ∧ M.IsSymm := by
    intro M h
    refine ⟨h, ?_⟩
    have := h.1
    rwa [Matrix.IsHermitian, Matrix.conjTranspose_eq_transpose_of_trivial] at this
  refine ⟨fun hE hS => sym _ ?_, fun hE hS => sym _ ?_, fun hQ hS => sym _ ?_⟩
  · have h := kalman_posSemidef (wheel_H ℝ) s.P s.E_wheel hP hE hS
    have e : (correction_wheel_stage L s dt).P
        = s.P - s.P * (wheel_H ℝ).transpose * L.inverse 2 (wheel_S s) * wheel_H ℝ * s.P := rfl
    rw [e, hL.inverse_eq 2 _ hS]; unfold wheel_S; exact h
  · have h := kalman_posSemidef (imu_H ℝ) s.P _ hP hE hS
    have e : (correction_imu_stage L s dt).P
        = s.P - s.P * (imu_H ℝ).transpose * L.inverse 3 (imu_S s) * imu_H ℝ * s.P := rfl
    rw [e, hL.inverse_eq 3 _ hS]; unfold imu_S; exact h
  · have e2 : lidar_S L s dt = lidar_H ℝ * s.P * (lidar_H ℝ).transpose + lidar_Q L s dt := rfl
    have hS' := hS
    rw [e2] at hS'
    have h := kalman_posSemidef (lidar_H ℝ) s.P _ hP hQ hS'
    have e : (correction_lidar_stage L s dt).P
        = s.P - s.P * (lidar_H ℝ).transpose * L.inverse 6 (lidar_S L s dt) * lidar_H ℝ * s.P := rfl
    rw [e, hL.inverse_eq 6 _ hS, e2]
    exact h

/-- The three corrections of the initialized filter, whose `S` is `0.1·I`, leave
a positive semi-definite covariance. -/
theorem correction_stage_posSemidef_witness :
    ∃ L : Numerics ℝ, L.Exact ∧
      (correction_wheel_stage L (initialization (blankFilter ℝ)) 0.02).P.PosSemidef ∧
      (correction_imu_stage L (initialization (blankFilter ℝ)) 0.02).P.PosSemidef ∧
      (correction_lidar_stage L (initialization (blankFilter ℝ)) 0.1).P.PosSemidef := by
  obtain ⟨L, hL⟩ := Numerics.exists_exact
  have hz2 : (initialization (blankFilter ℝ)).E_wheel.PosSemidef := Matrix.PosSemidef.zero
  have hz3 : (block (initialization (blankFilter ℝ)).E_imu 6 6 3 3 (by decide)
      (by decide)).PosSemidef := by
    have : block (initialization (blankFilter ℝ)).E_imu 6 6 3 3 (by decide) (by decide) = 0 := by
      ext i j; simp [block_apply, initialization]
    rw [this]; exact Matrix.PosSemidef.zero
  have hz6 : (lidar_Q L (initialization (blankFilter ℝ)) 0.1).PosSemidef := by
    rw [initial_lidar_Q]; exact Matrix.PosSemidef.zero
  have hd : ∀ n (i : Fin n), (fun _ : Fin n => (0.1 : ℝ)) i ≠ 0 := fun _ _ => by norm_num
  refine ⟨L, hL, ?_, ?_, ?_⟩
  · exact ((correction_stage_posSemidef L hL _ 0.02 initial_P_posSemidef).1 hz2
      (isUnit_det_of_eq_diagonal _ _ initial_wheel_S (hd 2))).1
  · exact ((correction_stage_posSemidef L hL _ 0.02 initial_P_posSemidef).2.1 hz3
      (isUnit_det_of_eq_diagonal _ _ initial_imu_S (hd 3))).1
  · exact ((correction_stage_posSemidef L hL _ 0.1 initial_P_posSemidef).2.2 hz6
      (isUnit_det_of_eq_diagonal _ _ (initial_lidar_S L 0.1) (hd 6))).1

end Joseph

/-! ## The guards of the correction blocks -/

section GuardLemmas

variable {α : Type} [LinearOrderedField α]

/-- The correction blocks of the loop body in terms of their guards. -/
theorem run_blocks_guard (cfg : Config α) (L : Numerics α) (st : RunState α) :
    (run_imu cfg L st
      = if correctionGuard cfg .imu st.AF then
          { st with
            AF := { correction_imu_stage L st.AF st.AF.imu_dt with imuNew := false }
            pub_imu := if cfg.filterFreq = "i" then true else st.pub_imu }
        else st) ∧
    (run_wheel cfg L st
      = if correctionGuard cfg .wheel st.AF then
          { st with
            AF := { correction_wheel_stage L st.AF st.AF.wheel_dt with wheelNew := false }
            pub_wheel := if cfg.filterFreq = "w" then true else st.pub_wheel }
        else st) ∧
    (run_lidar cfg L st
      = if correctionGuard cfg .lidar st.AF then
          { st with
            AF := { correction_lidar_stage L st.AF st.AF.lidar_dt with lidarNew := false }
            pub_lidar := if cfg.filterFreq = "l" then true else st.pub_lidar }
        else st) :=
  ⟨rfl, rfl, rfl⟩

/-- The flags after the prediction block. -/
theorem run_prediction_flags (cfg : Config α) (L : Numerics α) (t_now : α) (st : RunState α)
    (k : Sensor) :
    k.activated (run_prediction cfg L t_now st).AF = k.activated st.AF ∧
    k.isNew (run_prediction cfg L t_now st).AF = k.isNew st.AF := by
  unfold run_prediction
  cases k <;> split_ifs <;> exact ⟨rfl, rfl⟩

/-- The flags after the IMU block: `imuNew` is cleared when the guard holds,
nothing else changes. -/
theorem run_imu_flags (cfg : Config α) (L : Numerics α) (st : RunState α) (k : Sensor) :
    k.activated (run_imu cfg L st).AF = k.activated st.AF ∧
    k.isNew (run_imu cfg L st).AF
      = (match k with
          | .imu => k.isNew st.AF && !correctionGuard cfg .imu st.AF
          | _ => k.isNew st.AF) := by
  rw [(run_blocks_guard cfg L st).1]
  cases k <;> by_cases h : correctionGuard cfg .imu st.AF = true <;>
    simp [h, Sensor.activated, Sensor.isNew, correction_imu_stage]

/-- The flags after the wheel block. -/
theorem run_wheel_flags (cfg : Config α) (L : Numerics α) (st : RunState α) (k : Sensor) :
    k.activated (run_wheel cfg L st).AF = k.activated st.AF ∧
    k.isNew (run_wheel cfg L st).AF
      = (match k with
          | .wheel => k.isNew st.AF && !correctionGuard cfg .wheel st.AF
          | _ => k.isNew st.AF) := by
  rw [(run_blocks_guard cfg L st).2.1]
  cases k <;> by_cases h : correctionGuard cfg .wheel st.AF = true <;>
    simp [h, Sensor.activated, Sensor.isNew, correction_wheel_stage]

/-- The flags after the lidar block. -/
theorem run_lidar_flags (cfg : Config α) (L : Numerics α) (st : RunState α) (k : Sensor) :
    k.activated (run_lidar cfg L st).AF = k.activated st.AF ∧
    k.isNew (run_lidar cfg L st).AF
      = (match k with
          | .lidar => k.isNew st.AF && !correctionGuard cfg .lidar st.AF
          | _ => k.isNew st.AF) := by
  rw [(run_blocks_guard cfg L st).2.2]
  cases k <;> by_cases h : correctionGuard cfg .lidar st.AF = true <;>
    simp [h, Sensor.activated, Sensor.isNew, correction_lidar_stage]

end GuardLemmas

/-- The guard of a sensor in terms of its flags. -/
theorem correctionGuard_eq {α : Type} (cfg : Config α) (k : Sensor) (s : AdaptiveFilter α) :
    correctionGuard cfg k s
      = (cfg.enableFilter && k.enabled cfg && k.activated s && k.isNew s) := by
  cases k <;> rfl

/-- The guard of a sensor depends on the filter through its two flags only. -/
theorem correctionGuard_congr {α : Type} (cfg : Config α) (k : Sensor) (s s' : AdaptiveFilter α)
    (ha : k.activated s = k.activated s') (hn : k.isNew s = k.isNew s') :
    correctionGuard cfg k s = correctionGuard cfg k s' := by
  rw [correctionGuard_eq, correctionGuard_eq, ha, hn]

section TickFlags

variable {α : Type} [LinearOrderedField α]

/-- Whether a tick calls a sensor's correction, read off the state before the tick. -/
theorem correctionRuns_eq (cfg : Config α) (L : Numerics α) (k : Sensor) (t_now : α)
    (st : RunState α) : correctionRuns cfg L k t_now st = correctionGuard cfg k st.AF := by
  have hp := run_prediction_flags cfg L t_now st
  have hi := run_imu_flags cfg L (run_prediction cfg L t_now st)
  have hw := run_wheel_flags cfg L (run_imu cfg L (run_prediction cfg L t_now st))
  cases k
  · exact correctionGuard_congr cfg _ _ _ (hp .imu).1 (hp .imu).2
  · exact correctionGuard_congr cfg _ _ _ ((hi .wheel).1.trans (hp .wheel).1)
      ((hi .wheel).2.trans (hp .wheel).2)
  · exact correctionGuard_congr cfg _ _ _
      ((hw .lidar).1.trans ((hi .lidar).1.trans (hp .lidar).1))
      ((hw .lidar).2.trans ((hi .lidar).2.trans (hp .lidar).2))

/-- The flags of a sensor after a tick: `Activated` is kept, `New` is cleared exactly
when the tick called the sensor's correction. -/
theorem run_tick_flags (cfg : Config α) (L : Numerics α) (k : Sensor) (t_now : α)
    (st : RunState α) :
    k.activated (run_tick cfg L t_now st).1.AF = k.activated st.AF ∧
    k.isNew (run_tick cfg L t_now st).1.AF
      = (k.isNew st.AF && !correctionRuns cfg L k t_now st) := by
  have hp := run_prediction_flags cfg L t_now st
  have hi := run_imu_flags cfg L (run_prediction cfg L t_now st)
  have hw := run_wheel_flags cfg L (run_imu cfg L (run_prediction cfg L t_now st))
  have hl := run_lidar_flags cfg L
    (run_wheel cfg L (run_imu cfg L (run_prediction cfg L t_now st)))
  rw [run_tick, run_publish_AF]
  cases k
  · refine ⟨(hl .imu).1.trans ((hw .imu).1.trans ((hi .imu).1.trans (hp .imu).1)), ?_⟩
    rw [(hl .imu).2, (hw .imu).2, (hi .imu).2, (hp .imu).2]
    rfl
  · refine ⟨(hl .wheel).1.trans ((hw .wheel).1.trans ((hi .wheel).1.trans (hp .wheel).1)), ?_⟩
    rw [(hl .wheel).2, (hw .wheel).2, (hi .wheel).2, (hp .wheel).2]
    rfl
  · refine ⟨(hl .lidar).1.trans ((hw .lidar).1.trans ((hi .lidar).1.trans (hp .lidar).1)), ?_⟩
    rw [(hl .lidar).2, (hw .lidar).2, (hi .lidar).2, (hp .lidar).2]
    rfl

/-- An event that is neither a tick nor an arrival of the sensor keeps its flags. -/
theorem step_flags_other (cfg : Config α) (L : Numerics α) (k : Sensor) (st : RunState α)
    (e : Event α) (ht : e.isTick = false) (ha : e.isArrivalOf k = false) :
    k.activated (step cfg L st e).AF = k.activated st.AF ∧
    k.isNew (step cfg L st e).AF = k.isNew st.AF := by
  cases e <;> cases k <;>
    first
      | exact ⟨rfl, rfl⟩
      | (exfalso; revert ht ha; simp [Event.isTick, Event.isArrivalOf, Event.isImu,
          Event.isWheel, Event.isLidar])

/-- The arrival of a record of a sensor sets both of its flags. -/
theorem step_flags_arrival (cfg : Config α) (L : Numerics α) (k : Sensor) (st : RunState α)
    (e : Event α) (ha : e.isArrivalOf k = true) :
    k.activated (step cfg L st e).AF = true ∧ k.isNew (step cfg L st e).AF = true := by
  cases e <;> cases k <;>
    first
      | exact ⟨rfl, rfl⟩
      | (exfalso; revert ha; simp [Event.isArrivalOf, Event.isImu, Event.isWheel,
          Event.isLidar])

end TickFlags

/-! ## Consumption of arrivals -/

section Consumption

variable {α : Type} [LinearOrderedField α]

/-- Along events without an arrival of an activated, enabled sensor, its correction is
called in the first tick if a sample is pending and in no other tick. -/
theorem correctionCount_of_no_arrival (cfg : Config α) (L : Numerics α) (k : Sensor)
    (hF : cfg.enableFilter = true) (hk : k.enabled cfg = true) (es : List (Event α))
    (hes : ∀ e ∈ es, e.isArrivalOf k = false) (st : RunState α)
    (hact : k.activated st.AF = true) :
    correctionCount cfg L k st es = (if k.isNew st.AF && es.any Event.isTick then 1 else 0) ∧
    k.isNew (runEvents cfg L st es).AF = (k.isNew st.AF && !es.any Event.isTick) ∧
    k.activated (runEvents cfg L st es).AF = true := by
  induction es generalizing st with
  | nil => simp [correctionCount, runEvents, hact]
  | cons e es ih =>
    have he := hes e (List.mem_cons_self _ _)
    have hes' : ∀ e' ∈ es, e'.isArrivalOf k = false :=
      fun e' h' => hes e' (List.mem_cons_of_mem _ h')
    by_cases ht : e.isTick = true
    · obtain ⟨t, rfl⟩ : ∃ t, e = Event.tick t := by
        cases e <;> first | exact ⟨_, rfl⟩ | simp [Event.isTick] at ht
      have hr : correctionRuns cfg L k t st = k.isNew st.AF := by
        rw [correctionRuns_eq, correctionGuard_eq, hF, hk, hact]; simp
      have hfl := run_tick_flags cfg L k t st
      have hact' : k.activated (step cfg L st (Event.tick t)).AF = true := hfl.1.trans hact
      have hnew' : k.isNew (step cfg L st (Event.tick t)).AF = false := by
        show k.isNew (run_tick cfg L t st).1.AF = false
        rw [hfl.2, hr]; simp
      obtain ⟨h1, h2, h3⟩ := ih hes' (step cfg L st (Event.tick t)) hact'
      refine ⟨?_, ?_, h3⟩
      · show (if correctionRuns cfg L k t st then 1 else 0)
          + correctionCount cfg L k (step cfg L st (Event.tick t)) es = _
        rw [h1, hnew', hr]
        cases k.isNew st.AF <;> simp [Event.isTick]
      · show k.isNew (runEvents cfg L (step cfg L st (Event.tick t)) es).AF = _
        rw [h2, hnew']
        simp [Event.isTick]
    · have ht' : e.isTick = false := by simpa using ht
      have hfl := step_flags_other cfg L k st e ht' he
      obtain ⟨h1, h2, h3⟩ := ih hes' (step cfg L st e) (hfl.1.trans hact)
      have hc : correctionCount cfg L k st (e :: es)
          = correctionCount cfg L k (step cfg L st e) es := by
        cases e <;> first | (exfalso; simp [Event.isTick] at ht'; done) | simp [correctionCount]
      refine ⟨?_, ?_, h3⟩
      · rw [hc, h1, hfl.2]; simp [ht']
      · show k.isNew (runEvents cfg L (step cfg L st e) es).AF = _
        rw [h2, hfl.2]; simp [ht']

/-- Along events without an arrival of a sensor that is not activated, its correction
is never called and the sensor stays not activated. -/
theorem correctionCount_of_not_activated (cfg : Config α) (L : Numerics α) (k : Sensor)
    (es : List (Event α)) (hes : ∀ e ∈ es, e.isArrivalOf k = false) (st : RunState α)
    (hact : k.activated st.AF = false) :
    correctionCount cfg L k st es = 0 ∧ k.activated (runEvents cfg L st es).AF = false := by
  induction es generalizing st with
  | nil => exact ⟨rfl, hact⟩
  | cons e es ih =>
    have he := hes e (List.mem_cons_self _ _)
    have hes' : ∀ e' ∈ es, e'.isArrivalOf k = false :=
      fun e' h' => hes e' (List.mem_cons_of_mem _ h')
    by_cases ht : e.isTick = true
    · obtain ⟨t, rfl⟩ : ∃ t, e = Event.tick t := by
        cases e <;> first | exact ⟨_, rfl⟩ | simp [Event.isTick] at ht
      have hr : correctionRuns cfg L k t st = false := by
        rw [correctionRuns_eq, correctionGuard_eq, hact]; simp
      have hfl := run_tick_flags cfg L k t st
      obtain ⟨h1, h2⟩ := ih hes' (step cfg L st (Event.tick t)) (hfl.1.trans hact)
      refine ⟨?_, h2⟩
      show (if correctionRuns cfg L k t st then 1 else 0)
          + correctionCount cfg L k (step cfg L st (Event.tick t)) es = 0
      rw [h1, hr]; simp
    · have ht' : e.isTick = false := by simpa using ht
      have hfl := step_flags_other cfg L k st e ht' he
      obtain ⟨h1, h2⟩ := ih hes' (step cfg L st e) (hfl.1.trans hact)
      have hc : correctionCount cfg L k st (e :: es)
          = correctionCount cfg L k (step cfg L st e) es := by
        cases e <;> first | (exfalso; simp [Event.isTick] at ht'; done) | simp [correctionCount]
      exact ⟨hc.trans h1, h2⟩

end Consumption

section Publish

variable {α : Type}

/-- Publishing does not touch `t_last`. -/
theorem run_publish_t_last (st : RunState α) : (run_publish st).1.t_last = st.t_last := by
  unfold run_publish
  split_ifs <;> rfl

/-- The publishing block chooses by the priority prediction, lidar, wheel, IMU. -/
theorem run_publish_priority (st : RunState α) :
    ((run_publish st).2.toList.length ≤ 1) ∧
    (st.pub_pred = true → (run_publish st).2 = some 'p') ∧
    (st.pub_pred = false → st.pub_lidar = true → (run_publish st).2 = some 'l') ∧
    (st.pub_pred = false → st.pub_lidar = false → st.pub_wheel = true →
      (run_publish st).2 = some 'w') ∧
    (st.pub_pred = false → st.pub_lidar = false → st.pub_wheel = false → st.pub_imu = true →
      (run_publish st).2 = some 'i') ∧
    (st.pub_pred = false → st.pub_lidar = false → st.pub_wheel = false → st.pub_imu = false →
      (run_publish st).2 = none) := by
  refine ⟨?_, ?_, ?_, ?_, ?_, ?_⟩
  · cases (run_publish st).2 <;> simp
  · intro h1; simp [run_publish, h1]
  · intro h1 h2; simp [run_publish, h1, h2]
  · intro h1 h2 h3; simp [run_publish, h1, h2, h3]
  · intro h1 h2 h3 h4; simp [run_publish, h1, h2, h3, h4]
  · intro h1 h2 h3 h4; simp [run_publish, h1, h2, h3, h4]

end Publish

section Startup

variable {α : Type} [LinearOrderedField α]

/-- A tick on a filter none of whose sensors is activated is the prediction alone. -/
theorem run_tick_not_activated (cfg : Config α) (L : Numerics α) (t_now : α) (st : RunState α)
    (hi : st.AF.imuActivated = false) (hw : st.AF.wheelActivated = false)
    (hl : st.AF.lidarActivated = false) :
    (run_tick cfg L t_now st).1.AF
      = (if cfg.enableFilter then prediction_stage L st.AF (t_now - st.t_last) else st.AF) ∧
    (run_tick cfg L t_now st).1.t_last = (if cfg.enableFilter then t_now else st.t_last) := by
  have h2 : ∀ x : RunState α, x.AF.imuActivated = false → run_imu cfg L x = x := by
    intro x hx
    unfold run_imu
    rw [if_neg (by simp [hx])]
  have h3 : ∀ x : RunState α, x.AF.wheelActivated = false → run_wheel cfg L x = x := by
    intro x hx
    unfold run_wheel
    rw [if_neg (by simp [hx])]
  have h4 : ∀ x : RunState α, x.AF.lidarActivated = false → run_lidar cfg L x = x := by
    intro x hx
    unfold run_lidar
    rw [if_neg (by simp [hx])]
  have hp : (run_prediction cfg L t_now st).AF.imuActivated = false ∧
      (run_prediction cfg L t_now st).AF.wheelActivated = false ∧
      (run_prediction cfg L t_now st).AF.lidarActivated = false := by
    unfold run_prediction
    split_ifs <;> exact ⟨hi, hw, hl⟩
  rw [run_tick, run_publish_AF, run_publish_t_last, h2 _ hp.1, h3 _ hp.2.1, h4 _ hp.2.2]
  unfold run_prediction
  split_ifs <;> exact ⟨rfl, rfl⟩

/-- With no arrivals at all the filter evolves by `prediction_stage` alone. -/
theorem runEvents_ticks_not_activated (cfg : Config α) (L : Numerics α) (ts : List α)
    (st : RunState α) (hi : st.AF.imuActivated = false) (hw : st.AF.wheelActivated = false)
    (hl : st.AF.lidarActivated = false) :
    (runEvents cfg L st (ts.map Event.tick)).AF
      = (if cfg.enableFilter then predictionOnly L st.AF st.t_last ts else st.AF) := by
  induction ts generalizing st with
  | nil => simp [runEvents, predictionOnly]
  | cons t ts ih =>
    obtain ⟨hA, hT⟩ := run_tick_not_activated cfg L t st hi hw hl
    have hflags : (run_tick cfg L t st).1.AF.imuActivated = false ∧
        (run_tick cfg L t st).1.AF.wheelActivated = false ∧
        (run_tick cfg L t st).1.AF.lidarActivated = false := by
      rw [hA]
      split_ifs
      · exact ⟨hi, hw, hl⟩
      · exact ⟨hi, hw, hl⟩
    have h := ih (run_tick cfg L t st).1 hflags.1 hflags.2.1 hflags.2.2
    show (runEvents cfg L (run_tick cfg L t st).1 (ts.map Event.tick)).AF = _
    rw [h, hA, hT]
    split_ifs <;> rfl

/-- C15: in every tick `publish_odom` is called at most once, whatever
corrections ran, and its argument is fixed by the four pending-publish flags as
they stand after the correction blocks, in the priority prediction, lidar,
wheel, IMU: the first flag set in that order wins, and nothing is published when
none is set. -/
theorem tick_publishes_at_most_once_by_priority (cfg : Config α) (L : Numerics α) (t_now : α)
    (st : RunState α) :
    ((run_tick cfg L t_now st).2.toList.length ≤ 1) ∧
    ((run_lidar cfg L (run_wheel cfg L (run_imu cfg L
        (run_prediction cfg L t_now st)))).pub_pred = true →
      (run_tick cfg L t_now st).2 = some 'p') ∧
    ((run_lidar cfg L (run_wheel cfg L (run_imu cfg L
        (run_prediction cfg L t_now st)))).pub_pred = false →
      (run_lidar cfg L (run_wheel cfg L (run_imu cfg L
        (run_prediction cfg L t_now st)))).pub_lidar = true →
      (run_tick cfg L t_now st).2 = some 'l') ∧
    ((run_lidar cfg L (run_wheel cfg L (run_imu cfg L
        (run_prediction cfg L t_now st)))).pub_pred = false →
      (run_lidar cfg L (run_wheel cfg L (run_imu cfg L
        (run_prediction cfg L t_now st)))).pub_lidar = false →
      (run_lidar cfg L (run_wheel cfg L (run_imu cfg L
        (run_prediction cfg L t_now st)))).pub_wheel = true →
      (run_tick cfg L t_now st).2 = some 'w') ∧
    ((run_lidar cfg L (run_wheel cfg L (run_imu cfg L
        (run_prediction cfg L t_now st)))).pub_pred = false →
      (run_lidar cfg L (run_wheel cfg L (run_imu cfg L
        (run_prediction cfg L t_now st)))).pub_lidar = false →
      (run_lidar cfg L (run_wheel cfg L (run_imu cfg L
        (run_prediction cfg L t_now st)))).pub_wheel = false →
      (run_lidar cfg L (run_wheel cfg L (run_imu cfg L
        (run_prediction cfg L t_now st)))).pub_imu = true →
      (run_tick cfg L t_now st).2 = some 'i') ∧
    ((run_lidar cfg L (run_wheel cfg L (run_imu cfg L
        (run_prediction cfg L t_now st)))).pub_pred = false →
      (run_lidar cfg L (run_wheel cfg L (run_imu cfg L
        (run_prediction cfg L t_now st)))).pub_lidar = false →
      (run_lidar cfg L (run_wheel cfg L (run_imu cfg L
        (run_prediction cfg L t_now st)))).pub_wheel = false →
      (run_lidar cfg L (run_wheel cfg L (run_imu cfg L
        (run_prediction cfg L t_now st)))).pub_imu = false →
      (run_tick cfg L t_now st).2 = none) :=
  run_publish_priority _

/-- The tick after a lidar arrival, with the default publishing source `"l"`,
publishes the lidar-triggered odometry. -/
theorem tick_publishes_at_most_once_by_priority_witness :
    ∃ L : Numerics ℝ, L.Exact ∧
      (run_tick (defaultConfig ℝ) L 0.005
        (step (defaultConfig ℝ) L (run_init (initialization (blankFilter ℝ)) 0)
          (Event.lidar 0 0 (oneMetreOdometry ℝ)))).2 = some 'l' := by
  obtain ⟨L, hL⟩ := Numerics.exists_exact
  exact ⟨L, hL, (tick_publishes_at_most_once_by_priority (defaultConfig ℝ) L 0.005
    (step (defaultConfig ℝ) L (run_init (initialization (blankFilter ℝ)) 0)
      (Event.lidar 0 0 (oneMetreOdometry ℝ)))).2.2.1 rfl rfl⟩

/-- C16: with the filter and a sensor enabled, an arrival of that sensor is
consumed exactly once. After the arrival `a`, along any events without a further
arrival of that sensor, the sensor's correction is called once if there is a tick
and never otherwise, and the `New` flag is left set exactly when there was no
tick; the first tick after the arrival, whatever arrivals of other sensors come
before it, calls the correction and ends with the `New` flag false. The guard
that is counted is the condition under which the loop body calls the stage. -/
theorem arrival_consumed_exactly_once (cfg : Config α) (L : Numerics α) (k : Sensor)
    (hF : cfg.enableFilter = true) (hk : k.enabled cfg = true) (st : RunState α)
    (a : Event α) (ha : a.isArrivalOf k = true) (es : List (Event α)) :
    (correctionCount cfg L k (step cfg L st a) (es.filter fun e => !e.isArrivalOf k)
      = if (es.filter fun e => !e.isArrivalOf k).any Event.isTick then 1 else 0) ∧
    (k.isNew (runEvents cfg L (step cfg L st a) (es.filter fun e => !e.isArrivalOf k)).AF
      = !(es.filter fun e => !e.isArrivalOf k).any Event.isTick) ∧
    (∀ t_now : α,
      correctionRuns cfg L k t_now
          (runEvents cfg L (step cfg L st a)
            (es.filter fun e => !e.isArrivalOf k && !e.isTick)) = true ∧
      k.isNew (step cfg L
          (runEvents cfg L (step cfg L st a)
            (es.filter fun e => !e.isArrivalOf k && !e.isTick)) (Event.tick t_now)).AF
        = false) ∧
    (∀ x : RunState α,
      (run_imu cfg L x
        = if correctionGuard cfg .imu x.AF then
            { x with
              AF := { correction_imu_stage L x.AF x.AF.imu_dt with imuNew := false }
              pub_imu := if cfg.filterFreq = "i" then true else x.pub_imu }
          else x) ∧
      (run_wheel cfg L x
        = if correctionGuard cfg .wheel x.AF then
            { x with
              AF := { correction_wheel_stage L x.AF x.AF.wheel_dt with wheelNew := false }
              pub_wheel := if cfg.filterFreq = "w" then true else x.pub_wheel }
          else x) ∧
      (run_lidar cfg L x
        = if correctionGuard cfg .lidar x.AF then
            { x with
              AF := { correction_lidar_stage L x.AF x.AF.lidar_dt with lidarNew := false }
              pub_lidar := if cfg.filterFreq = "l" then true else x.pub_lidar }
          else x)) := by
  obtain ⟨hact, hnew⟩ := step_flags_arrival cfg L k st a ha
  have hes : ∀ e ∈ es.filter (fun e => !e.isArrivalOf k), e.isArrivalOf k = false := by
    intro e he
    simpa using (List.mem_filter.mp he).2
  have hes2 : ∀ e ∈ es.filter (fun e => !e.isArrivalOf k && !e.isTick),
      e.isArrivalOf k = false := by
    intro e he
    have := (List.mem_filter.mp he).2
    simp only [Bool.and_eq_true, Bool.not_eq_true'] at this
    exact this.1
  have hnt : (es.filter fun e => !e.isArrivalOf k && !e.isTick).any Event.isTick = false := by
    rw [List.any_eq_false]
    intro e he
    have := (List.mem_filter.mp he).2
    simp only [Bool.and_eq_true, Bool.not_eq_true'] at this
    simp [this.2]
  obtain ⟨h1, h2, -⟩ := correctionCount_of_no_arrival cfg L k hF hk _ hes (step cfg L st a) hact
  obtain ⟨-, g2, g3⟩ :=
    correctionCount_of_no_arrival cfg L k hF hk _ hes2 (step cfg L st a) hact
  rw [hnew] at h1 h2 g2
  rw [hnt] at g2
  refine ⟨by simpa using h1, by simpa using h2, fun t_now => ?_, fun x => ⟨rfl, rfl, rfl⟩⟩
  have hr : correctionRuns cfg L k t_now
      (runEvents cfg L (step cfg L st a)
        (es.filter fun e => !e.isArrivalOf k && !e.isTick)) = true := by
    rw [correctionRuns_eq, correctionGuard_eq, hF, hk, g3, g2]; rfl
  refine ⟨hr, ?_⟩
  show k.isNew (run_tick cfg L t_now _).1.AF = false
  rw [(run_tick_flags cfg L k t_now _).2, hr]
  simp

/-- One lidar arrival followed by three ticks and an IMU arrival: the lidar
correction is called once. -/
theorem arrival_consumed_exactly_once_witness :
    ∃ L : Numerics ℝ, L.Exact ∧
      correctionCount (defaultConfig ℝ) L Sensor.lidar
        (step (defaultConfig ℝ) L (run_init (initialization (blankFilter ℝ)) 0)
          (Event.lidar 0 0 (oneMetreOdometry ℝ)))
        [Event.tick 0.005, Event.imu 0 0 (zeroImu ℝ), Event.tick 0.01, Event.tick 0.015] = 1 := by
  obtain ⟨L, hL⟩ := Numerics.exists_exact
  refine ⟨L, hL, ?_⟩
  have h := (arrival_consumed_exactly_once (defaultConfig ℝ) L Sensor.lidar rfl rfl
    (run_init (initialization (blankFilter ℝ)) 0) (Event.lidar 0 0 (oneMetreOdometry ℝ)) rfl
    [Event.tick 0.005, Event.imu 0 0 (zeroImu ℝ), Event.tick 0.01, Event.tick 0.015]).1
  simpa [Event.isArrivalOf, Event.isLidar, Event.isTick] using h

/-- C17: from the initialized filter, along every sequence of events in which a
given sensor's handler is not called, that sensor's correction stage is never
called; and with no arrivals at all, the filter after the ticks at the clock
readings `ts` is what `prediction_stage` alone produces (the initialized filter
itself when the filter is disabled). -/
theorem no_correction_before_first_sample (cfg : Config α) (L : Numerics α) (k : Sensor)
    (s0 : AdaptiveFilter α) (t0 : α) (es : List (Event α)) (ts : List α) :
    correctionCount cfg L k (run_init (initialization s0) t0)
      (es.filter fun e => !e.isArrivalOf k) = 0 ∧
    (runEvents cfg L (run_init (initialization s0) t0) (ts.map Event.tick)).AF
      = (if cfg.enableFilter then predictionOnly L (initialization s0) t0 ts
         else initialization s0) := by
  refine ⟨(correctionCount_of_not_activated cfg L k _ ?_ _ ?_).1,
    runEvents_ticks_not_activated cfg L ts _ rfl rfl rfl⟩
  · intro e he
    simpa using (List.mem_filter.mp he).2
  · cases k <;> rfl

end Startup

/-! ## Fixed correction periods and the numeric Jacobians -/

section FixedDt
variable {α : Type} [LinearOrderedField α]

/-- The three handlers store a record's stamp in the time-keeping fields only. -/
theorem handlers_stamp (cfg : Config α) (tl te tl' te' stamp' : α) (m : Imu α)
    (o : Odometry α) (s : AdaptiveFilter α) :
    imuHandler cfg tl' te' { m with stamp := stamp' } s
      = withClockFieldsOf (imuHandler cfg tl te m s)
          (imuHandler cfg tl' te' { m with stamp := stamp' } s) ∧
    wheelOdometryHandler cfg tl' te' { o with stamp := stamp' } s
      = withClockFieldsOf (wheelOdometryHandler cfg tl te o s)
          (wheelOdometryHandler cfg tl' te' { o with stamp := stamp' } s) ∧
    laserOdometryHandler cfg tl' te' { o with stamp := stamp' } s
      = withClockFieldsOf (laserOdometryHandler cfg tl te o s)
          (laserOdometryHandler cfg tl' te' { o with stamp := stamp' } s) :=
  ⟨rfl, rfl, rfl⟩

/-- The four stages neither read nor write the time-keeping fields. -/
theorem stages_withClockFieldsOf (L : Numerics α) (s t : AdaptiveFilter α) (dt : α) :
    prediction_stage L (withClockFieldsOf s t) dt
      = withClockFieldsOf (prediction_stage L s dt) t ∧
    correction_imu_stage L (withClockFieldsOf s t) dt
      = withClockFieldsOf (correction_imu_stage L s dt) t ∧
    correction_wheel_stage L (withClockFieldsOf s t) dt
      = withClockFieldsOf (correction_wheel_stage L s dt) t ∧
    correction_lidar_stage L (withClockFieldsOf s t) dt
      = withClockFieldsOf (correction_lidar_stage L s dt) t :=
  ⟨rfl, rfl, rfl, rfl⟩

/-- Each block of the loop body commutes with a change of the time-keeping fields. -/
theorem run_blocks_withClockFieldsOf (cfg : Config α) (L : Numerics α) (t_now : α)
    (st : RunState α) (t : AdaptiveFilter α) :
    run_prediction cfg L t_now { st with AF := withClockFieldsOf st.AF t }
      = { run_prediction cfg L t_now st with
          AF := withClockFieldsOf (run_prediction cfg L t_now st).AF t } ∧
    run_imu cfg L { st with AF := withClockFieldsOf st.AF t }
      = { run_imu cfg L st with AF := withClockFieldsOf (run_imu cfg L st).AF t } ∧
    run_wheel cfg L { st with AF := withClockFieldsOf st.AF t }
      = { run_wheel cfg L st with AF := withClockFieldsOf (run_wheel cfg L st).AF t } ∧
    run_lidar cfg L { st with AF := withClockFieldsOf st.AF t }
      = { run_lidar cfg L st with AF := withClockFieldsOf (run_lidar cfg L st).AF t } := by
  refine ⟨?_, ?_, ?_, ?_⟩
  · unfold run_prediction
    by_cases h : cfg.enableFilter = true
    · rw [if_pos h, if_pos h]; rfl
    · rw [if_neg h, if_neg h]
  · by_cases h : (cfg.enableFilter && cfg.enableImu && st.AF.imuActivated && st.AF.imuNew) = true
    · have h' : (cfg.enableFilter && cfg.enableImu && (withClockFieldsOf st.AF t).imuActivated
          && (withClockFieldsOf st.AF t).imuNew) = true := h
      unfold run_imu; rw [if_pos h, if_pos h']; rfl
    · have h' : ¬ (cfg.enableFilter && cfg.enableImu && (withClockFieldsOf st.AF t).imuActivated
          && (withClockFieldsOf st.AF t).imuNew) = true := h
      unfold run_imu; rw [if_neg h, if_neg h']
  · by_cases h : (cfg.enableFilter && cfg.enableWheel && st.AF.wheelActivated
        && st.AF.wheelNew) = true
    · have h' : (cfg.enableFilter && cfg.enableWheel
          && (withClockFieldsOf st.AF t).wheelActivated
          && (withClockFieldsOf st.AF t).wheelNew) = true := h
      unfold run_wheel; rw [if_pos h, if_pos h']; rfl
    · have h' : ¬ (cfg.enableFilter && cfg.enableWheel
          && (withClockFieldsOf st.AF t).wheelActivated
          && (withClockFieldsOf st.AF t).wheelNew) = true := h
      unfold run_wheel; rw [if_neg h, if_neg h']
  · by_cases h : (cfg.enableFilter && cfg.enableLidar && st.AF.lidarActivated
        && st.AF.lidarNew) = true
    · have h' : (cfg.enableFilter && cfg.enableLidar
          && (withClockFieldsOf st.AF t).lidarActivated
          && (withClockFieldsOf st.AF t).lidarNew) = true := h
      unfold run_lidar; rw [if_pos h, if_pos h']; rfl
    · have h' : ¬ (cfg.enableFilter && cfg.enableLidar
          && (withClockFieldsOf st.AF t).lidarActivated
          && (withClockFieldsOf st.AF t).lidarNew) = true := h
      unfold run_lidar; rw [if_neg h, if_neg h']

/-- The state and covariance after a tick do not depend on the time-keeping fields
the tick starts from. -/
theorem run_tick_withClockFieldsOf (cfg : Config α) (L : Numerics α) (t_now : α)
    (st : RunState α) (t : AdaptiveFilter α) :
    (run_tick cfg L t_now { st with AF := withClockFieldsOf st.AF t }).1.AF.X
      = (run_tick cfg L t_now st).1.AF.X ∧
    (run_tick cfg L t_now { st with AF := withClockFieldsOf st.AF t }).1.AF.P
      = (run_tick cfg L t_now st).1.AF.P := by
  have hp := (run_blocks_withClockFieldsOf cfg L t_now st t).1
  have hi := (run_blocks_withClockFieldsOf cfg L t_now (run_prediction cfg L t_now st) t).2.1
  have hw := (run_blocks_withClockFieldsOf cfg L t_now
    (run_imu cfg L (run_prediction cfg L t_now st)) t).2.2.1
  have hl := (run_blocks_withClockFieldsOf cfg L t_now
    (run_wheel cfg L (run_imu cfg L (run_prediction cfg L t_now st))) t).2.2.2
  rw [run_tick, run_tick, run_publish_AF, run_publish_AF, hp, hi, hw, hl]
  exact ⟨rfl, rfl⟩

/-- The prediction, IMU and wheel blocks keep the stored `dt` of the sensors
whose block comes later in the tick. -/
theorem run_blocks_dt (cfg : Config α) (L : Numerics α) (t_now : α) (st : RunState α) :
    (run_prediction cfg L t_now st).AF.imu_dt = st.AF.imu_dt ∧
    (run_prediction cfg L t_now st).AF.wheel_dt = st.AF.wheel_dt ∧
    (run_imu cfg L st).AF.wheel_dt = st.AF.wheel_dt := by
  refine ⟨?_, ?_, ?_⟩
  · unfold run_prediction; split_ifs <;> rfl
  · unfold run_prediction; split_ifs <;> rfl
  · unfold run_imu; split_ifs <;> rfl

/-- C18: the `dt` handed to each correction is a fixed per-sensor constant.
After `imuHandler`, `wheelOdometryHandler`, `laserOdometryHandler` process any
record in any state, `imu_dt = 0.02`, `wheel_dt = 0.02`, `lidar_dt = 0.1`; these
are the values the correction blocks of the following tick read; and `X` and `P`
after that tick are the same whatever the stamp of the record and the clock
readings of the handler were. -/
theorem correction_dt_fixed (cfg : Config α) (L : Numerics α) (st : RunState α)
    (timeL timeEnd timeL' timeEnd' stamp' t_now : α) (m : Imu α) (w l : Odometry α) :
    ((imuHandler cfg timeL timeEnd m st.AF).imu_dt = 0.02 ∧
      (wheelOdometryHandler cfg timeL timeEnd w st.AF).wheel_dt = 0.02 ∧
      (laserOdometryHandler cfg timeL timeEnd l st.AF).lidar_dt = 0.1) ∧
    ((run_prediction cfg L t_now (step cfg L st (Event.imu timeL timeEnd m))).AF.imu_dt = 0.02 ∧
      (run_imu cfg L (run_prediction cfg L t_now
        (step cfg L st (Event.wheel timeL timeEnd w)))).AF.wheel_dt = 0.02 ∧
      (run_wheel cfg L (run_imu cfg L (run_prediction cfg L t_now
        (step cfg L st (Event.lidar timeL timeEnd l))))).AF.lidar_dt = 0.1) ∧
    ((step cfg L (step cfg L st (Event.imu timeL' timeEnd' { m with stamp := stamp' }))
          (Event.tick t_now)).AF.X
        = (step cfg L (step cfg L st (Event.imu timeL timeEnd m)) (Event.tick t_now)).AF.X ∧
      (step cfg L (step cfg L st (Event.imu timeL' timeEnd' { m with stamp := stamp' }))
          (Event.tick t_now)).AF.P
        = (step cfg L (step cfg L st (Event.imu timeL timeEnd m)) (Event.tick t_now)).AF.P) ∧
    ((step cfg L (step cfg L st (Event.wheel timeL' timeEnd' { w with stamp := stamp' }))
          (Event.tick t_now)).AF.X
        = (step cfg L (step cfg L st (Event.wheel timeL timeEnd w)) (Event.tick t_now)).AF.X ∧
      (step cfg L (step cfg L st (Event.wheel timeL' timeEnd' { w with stamp := stamp' }))
          (Event.tick t_now)).AF.P
        = (step cfg L (step cfg L st (Event.wheel timeL timeEnd w)) (Event.tick t_now)).AF.P) ∧
    ((step cfg L (step cfg L st (Event.lidar timeL' timeEnd' { l with stamp := stamp' }))
          (Event.tick t_now)).AF.X
        = (step cfg L (step cfg L st (Event.lidar timeL timeEnd l)) (Event.tick t_now)).AF.X ∧
      (step cfg L (step cfg L st (Event.lidar timeL' timeEnd' { l with stamp := stamp' }))
          (Event.tick t_now)).AF.P
        = (step cfg L (step cfg L st (Event.lidar timeL timeEnd l)) (Event.tick t_now)).AF.P) := by
  have hd := run_blocks_dt cfg L t_now
  have hf := run_blocks_lidar_flags cfg L t_now
  refine ⟨⟨rfl, rfl, rfl⟩, ⟨?_, ?_, ?_⟩, ?_, ?_, ?_⟩
  · rw [(hd _).1]; rfl
  · rw [(hd _).2.2, (hd _).2.1]; rfl
  · rw [(hf _).2.2.2.2, (hf _).2.1.2.2, (hf _).1.2.2]; rfl
  · exact run_tick_withClockFieldsOf cfg L t_now
      (step cfg L st (Event.imu timeL timeEnd m))
      (imuHandler cfg timeL' timeEnd' { m with stamp := stamp' } st.AF)
  · exact run_tick_withClockFieldsOf cfg L t_now
      (step cfg L st (Event.wheel timeL timeEnd w))
      (wheelOdometryHandler cfg timeL' timeEnd' { w with stamp := stamp' } st.AF)
  · exact run_tick_withClockFieldsOf cfg L t_now
      (step cfg L st (Event.lidar timeL timeEnd l))
      (laserOdometryHandler cfg timeL' timeEnd' { l with stamp := stamp' } st.AF)

end FixedDt

section JacobianEntries
variable {α : Type} [LinearOrderedField α]

/-- Adding `d` to coordinate `i` is adding `d·eᵢ`. -/
theorem update_add_eq_add_single {n : ℕ} (x : Fin n → α) (i : Fin n) (d : α) :
    Function.update x i (x i + d) = x + Pi.single i d := by
  funext j
  by_cases h : j = i
  · subst h; simp
  · simp [Function.update, h, Pi.single_apply]

/-- With `sin 0 = 0`, columns 0, 1, 2 of `jacobian_state` are the unit vectors. -/
theorem jacobian_state_position_columns (L : Numerics α) (h0 : L.sin 0 = 0) (x : Fin 12 → α)
    (dt : α) (r k : Fin 12) (hk : k.val < 3) :
    jacobian_state L x dt r k = if r = k then 1 else 0 := by
  by_cases hr : 6 ≤ r.val
  · rw [jacobian_state_vel_rows L x dt r k hr]
    have h1 : ¬ ((r = 6 ∨ r = 11) ∧ k = r) := by
      rintro ⟨-, h⟩; rw [h] at hk; omega
    have h2 : ¬ r = k := by
      intro h; rw [h] at hr; omega
    rw [if_neg h1, if_neg h2]
  · have hp := fun y => f_prediction_model_pose_explicit L y dt
    have hd : (0.0001 : α) ≠ 0 := by norm_num
    simp only [jacobian_state, Matrix.of_apply]
    fin_cases r <;> simp at hr <;> fin_cases k <;> simp at hk <;>
      simp [hp, Function.update, h0, hd]

/-- C20: the three numeric Jacobians are forward differences. For every input,
entry `(r, i)` of `jacobian_state (x, dt)` is `(f(x + δ·eᵢ) − f(x))(r)/δ` with
`δ = 0.0001`, and entry `(r, i)` of `jacobian_lidar_measurement` and of
`jacobian_lidar_measurementL` is the same quotient of
`indirect_lidar_measurement` perturbed in `u`, respectively `ul`, with
`δ = 0.0000001`, except that in rows 3, 4, 5 the entry is `sin(f₁ − f₀)/δ`;
and, `sin 0` being `0`, columns 0, 1, 2 of `jacobian_state` are the unit vectors
`e₀, e₁, e₂` (in exact arithmetic). -/
theorem jacobians_forward_differences (L : Numerics α) (h0 : L.sin 0 = 0) (x : Fin 12 → α)
    (u ul : Fin 6 → α) (dt : α) :
    (∀ r i : Fin 12, jacobian_state L x dt r i
      = if r.val = 3 ∨ r.val = 4 ∨ r.val = 5 then
          L.sin (f_prediction_model L (x + Pi.single i 0.0001) dt r
            - f_prediction_model L x dt r) / 0.0001
        else (f_prediction_model L (x + Pi.single i 0.0001) dt r
            - f_prediction_model L x dt r) / 0.0001) ∧
    (∀ r i : Fin 6, jacobian_lidar_measurement L u ul dt r i
      = if r.val = 3 ∨ r.val = 4 ∨ r.val = 5 then
          L.sin (indirect_lidar_measurement L (u + Pi.single i 0.0000001) ul dt r
            - indirect_lidar_measurement L u ul dt r) / 0.0000001
        else (indirect_lidar_measurement L (u + Pi.single i 0.0000001) ul dt r
            - indirect_lidar_measurement L u ul dt r) / 0.0000001) ∧
    (∀ r i : Fin 6, jacobian_lidar_measurementL L u ul dt r i
      = if r.val = 3 ∨ r.val = 4 ∨ r.val = 5 then
          L.sin (indirect_lidar_measurement L u (ul + Pi.single i 0.0000001) dt r
            - indirect_lidar_measurement L u ul dt r) / 0.0000001
        else (indirect_lidar_measurement L u (ul + Pi.single i 0.0000001) dt r
            - indirect_lidar_measurement L u ul dt r) / 0.0000001) ∧
    (∀ r k : Fin 12, k.val < 3 → jacobian_state L x dt r k = if r = k then 1 else 0) := by
  refine ⟨fun r i => ?_, fun r i => ?_, fun r i => ?_, fun r k hk => ?_⟩
  · simp only [jacobian_state, Matrix.of_apply, update_add_eq_add_single]
  · simp only [jacobian_lidar_measurement, Matrix.of_apply, update_add_eq_add_single]
  · simp only [jacobian_lidar_measurementL, Matrix.of_apply, update_add_eq_add_single]
  · exact jacobian_state_position_columns L h0 x dt r k hk

/-- With the library sine, at yaw 3.14 and `dt = 0.005`: entry `(0, 0)` is 1,
entry `(5, 0)` is 0, and entry `(5, 5)` is the sine quotient. -/
theorem jacobians_forward_differences_witness :
    ∃ L : Numerics ℝ, L.Exact ∧
      jacobian_state L (nearPiYawFilter ℝ).X 0.005 0 0 = 1 ∧
      jacobian_state L (nearPiYawFilter ℝ).X 0.005 5 0 = 0 ∧
      jacobian_state L (nearPiYawFilter ℝ).X 0.005 5 5
        = L.sin (f_prediction_model L ((nearPiYawFilter ℝ).X + Pi.single 5 0.0001) 0.005 5
            - f_prediction_model L (nearPiYawFilter ℝ).X 0.005 5) / 0.0001 := by
  obtain ⟨L, hL⟩ := Numerics.exists_exact
  have h0 : L.sin 0 = 0 := by rw [hL.sin_eq, Real.sin_zero]
  have h := jacobians_forward_differences L h0 (nearPiYawFilter ℝ).X 0 0 0.005
  refine ⟨L, hL, ?_, ?_, ?_⟩
  · rw [h.2.2.2 0 0 (by decide)]; rfl
  · rw [h.2.2.2 5 0 (by decide)]; rfl
  · rw [h.1 5 5]; rfl

end JacobianEntries

/-! ## The previous lidar pose -/

section PreviousPose

variable {α : Type} [LinearOrderedField α]

/-- The prediction, IMU and wheel blocks leave the lidar buffers as they were. -/
theorem run_blocks_lidar_buffers (cfg : Config α) (L : Numerics α) (t_now : α)
    (st : RunState α) :
    ((run_prediction cfg L t_now st).AF.lidarMeasure = st.AF.lidarMeasure ∧
      (run_prediction cfg L t_now st).AF.E_lidar = st.AF.E_lidar ∧
      (run_prediction cfg L t_now st).AF.lidarMeasureL = st.AF.lidarMeasureL ∧
      (run_prediction cfg L t_now st).AF.E_lidarL = st.AF.E_lidarL) ∧
    ((run_imu cfg L st).AF.lidarMeasure = st.AF.lidarMeasure ∧
      (run_imu cfg L st).AF.E_lidar = st.AF.E_lidar ∧
      (run_imu cfg L st).AF.lidarMeasureL = st.AF.lidarMeasureL ∧
      (run_imu cfg L st).AF.E_lidarL = st.AF.E_lidarL) ∧
    ((run_wheel cfg L st).AF.lidarMeasure = st.AF.lidarMeasure ∧
      (run_wheel cfg L st).AF.E_lidar = st.AF.E_lidar ∧
      (run_wheel cfg L st).AF.lidarMeasureL = st.AF.lidarMeasureL ∧
      (run_wheel cfg L st).AF.E_lidarL = st.AF.E_lidarL) := by
  refine ⟨?_, ?_, ?_⟩
  · unfold run_prediction; split_ifs <;> exact ⟨rfl, rfl, rfl, rfl⟩
  · unfold run_imu; split_ifs <;> exact ⟨rfl, rfl, rfl, rfl⟩
  · unfold run_wheel; split_ifs <;> exact ⟨rfl, rfl, rfl, rfl⟩

/-- The previous lidar pose and covariance after a tick: the current ones when the
tick called the lidar correction, the old ones otherwise. -/
theorem run_tick_previous_pose (cfg : Config α) (L : Numerics α) (t_now : α)
    (st : RunState α) :
    (run_tick cfg L t_now st).1.AF.lidarMeasureL
        = (if correctionRuns cfg L .lidar t_now st then st.AF.lidarMeasure
           else st.AF.lidarMeasureL) ∧
    (run_tick cfg L t_now st).1.AF.E_lidarL
        = (if correctionRuns cfg L .lidar t_now st then st.AF.E_lidar else st.AF.E_lidarL) := by
  have hp := (run_blocks_lidar_buffers cfg L t_now st).1
  have hi := (run_blocks_lidar_buffers cfg L t_now (run_prediction cfg L t_now st)).2.1
  have hw := (run_blocks_lidar_buffers cfg L t_now
    (run_imu cfg L (run_prediction cfg L t_now st))).2.2
  have e1 : (run_wheel cfg L (run_imu cfg L (run_prediction cfg L t_now st))).AF.lidarMeasure
      = st.AF.lidarMeasure := hw.1.trans (hi.1.trans hp.1)
  have e2 : (run_wheel cfg L (run_imu cfg L (run_prediction cfg L t_now st))).AF.E_lidar
      = st.AF.E_lidar := hw.2.1.trans (hi.2.1.trans hp.2.1)
  have e3 : (run_wheel cfg L (run_imu cfg L (run_prediction cfg L t_now st))).AF.lidarMeasureL
      = st.AF.lidarMeasureL := hw.2.2.1.trans (hi.2.2.1.trans hp.2.2.1)
  have e4 : (run_wheel cfg L (run_imu cfg L (run_prediction cfg L t_now st))).AF.E_lidarL
      = st.AF.E_lidarL := hw.2.2.2.trans (hi.2.2.2.trans hp.2.2.2)
  rw [run_tick, run_publish_AF, (run_blocks_guard cfg L _).2.2]
  have hc : correctionRuns cfg L .lidar t_now st
      = correctionGuard cfg .lidar
          (run_wheel cfg L (run_imu cfg L (run_prediction cfg L t_now st))).AF := rfl
  rw [hc]
  by_cases h : correctionGuard cfg .lidar
      (run_wheel cfg L (run_imu cfg L (run_prediction cfg L t_now st))).AF = true
  · rw [if_pos h, if_pos h, if_pos h]
    exact ⟨e1, e2⟩
  · rw [if_neg h, if_neg h, if_neg h]
    exact ⟨e3, e4⟩

/-- C21: `correction_lidar_stage` uses as measurement noise
`Q = G·E_lidar·Gᵀ + Gl·E_lidarL·Glᵀ`, with `G` and `Gl` the numeric Jacobians of
the indirect measurement in the current and in the previous pose (`S` is
`H·P·Hᵀ + Q` and the covariance update uses that `S`); on return
`lidarMeasureL` and `E_lidarL` hold the pose and covariance it just used, which
themselves are unchanged; `prediction_stage`, the IMU and the wheel correction
and the three handlers leave `lidarMeasureL` and `E_lidarL` as they were; so
after a tick they are the current pose and covariance if the tick called the
lidar correction and the old ones otherwise. -/
theorem correction_lidar_stage_previous_pose (cfg : Config α) (L : Numerics α)
    (s : AdaptiveFilter α) (dt : α) (st : RunState α) (t_now timeL timeEnd : α) (m : Imu α)
    (o : Odometry α) :
    (lidar_Q L s dt
        = jacobian_lidar_measurement L s.lidarMeasure s.lidarMeasureL dt * s.E_lidar
            * (jacobian_lidar_measurement L s.lidarMeasure s.lidarMeasureL dt).transpose
          + jacobian_lidar_measurementL L s.lidarMeasure s.lidarMeasureL dt * s.E_lidarL
            * (jacobian_lidar_measurementL L s.lidarMeasure s.lidarMeasureL dt).transpose ∧
      lidar_S L s dt = lidar_H α * s.P * (lidar_H α).transpose + lidar_Q L s dt ∧
      (correction_lidar_stage L s dt).P
        = s.P - s.P * (lidar_H α).transpose * L.inverse 6 (lidar_S L s dt) * lidar_H α * s.P) ∧
    ((correction_lidar_stage L s dt).lidarMeasureL = s.lidarMeasure ∧
      (correction_lidar_stage L s dt).E_lidarL = s.E_lidar ∧
      (correction_lidar_stage L s dt).lidarMeasure = s.lidarMeasure ∧
      (correction_lidar_stage L s dt).E_lidar = s.E_lidar) ∧
    ((prediction_stage L s dt).lidarMeasureL = s.lidarMeasureL ∧
      (prediction_stage L s dt).E_lidarL = s.E_lidarL ∧
      (correction_imu_stage L s dt).lidarMeasureL = s.lidarMeasureL ∧
      (correction_imu_stage L s dt).E_lidarL = s.E_lidarL ∧
      (correction_wheel_stage L s dt).lidarMeasureL = s.lidarMeasureL ∧
      (correction_wheel_stage L s dt).E_lidarL = s.E_lidarL) ∧
    ((imuHandler cfg timeL timeEnd m s).lidarMeasureL = s.lidarMeasureL ∧
      (imuHandler cfg timeL timeEnd m s).E_lidarL = s.E_lidarL ∧
      (wheelOdometryHandler cfg timeL timeEnd o s).lidarMeasureL = s.lidarMeasureL ∧
      (wheelOdometryHandler cfg timeL timeEnd o s).E_lidarL = s.E_lidarL ∧
      (laserOdometryHandler cfg timeL timeEnd o s).lidarMeasureL = s.lidarMeasureL ∧
      (laserOdometryHandler cfg timeL timeEnd o s).E_lidarL = s.E_lidarL) ∧
    ((run_tick cfg L t_now st).1.AF.lidarMeasureL
        = (if correctionRuns cfg L .lidar t_now st then st.AF.lidarMeasure
           else st.AF.lidarMeasureL) ∧
      (run_tick cfg L t_now st).1.AF.E_lidarL
        = (if correctionRuns cfg L .lidar t_now st then st.AF.E_lidar
           else st.AF.E_lidarL)) :=
  ⟨⟨rfl, rfl, rfl⟩, ⟨rfl, rfl, rfl, rfl⟩, ⟨rfl, rfl, rfl, rfl, rfl, rfl⟩,
    ⟨rfl, rfl, rfl, rfl, rfl, rfl⟩, run_tick_previous_pose cfg L t_now st⟩

end PreviousPose

/-! ## The suppressed velocities -/

section LateralVelocities

variable {α : Type} [LinearOrderedField α]

/-- The prediction model does not read `vy, vz, wx, wy`. -/
theorem f_prediction_model_update (L : Numerics α) (x : Fin 12 → α) (dt : α) (i : Fin 12)
    (c : α) (h7 : 7 ≤ i.val) (h10 : i.val ≤ 10) :
    f_prediction_model L (Function.update x i c) dt = f_prediction_model L x dt := by
  have hx2 : f_prediction_model_x2 (Function.update x i c) = f_prediction_model_x2 x := by
    funext j
    simp only [f_prediction_model_x2, setVecBlock_apply]
    split_ifs with h
    · rfl
    · have : j ≠ i := by
        intro hji; rw [hji] at h; omega
      rw [Function.update_noteq this]
  have h3 : Function.update x i c 3 = x 3 :=
    Function.update_noteq (by intro h; rw [← h] at h7; revert h7; decide) _ _
  have h4 : Function.update x i c 4 = x 4 :=
    Function.update_noteq (by intro h; rw [← h] at h7; revert h7; decide) _ _
  have h5 : Function.update x i c 5 = x 5 :=
    Function.update_noteq (by intro h; rw [← h] at h7; revert h7; decide) _ _
  simp only [f_prediction_model, f_prediction_model_A, hx2, h3, h4, h5]

/-- With `sin 0 = 0`, columns 7..10 of `jacobian_state` are zero. -/
theorem jacobian_state_lateral_columns (L : Numerics α) (h0 : L.sin 0 = 0) (x : Fin 12 → α)
    (dt : α) (r i : Fin 12) (h7 : 7 ≤ i.val) (h10 : i.val ≤ 10) :
    jacobian_state L x dt r i = 0 := by
  simp only [jacobian_state, Matrix.of_apply, f_prediction_model_update L x dt i _ h7 h10,
    sub_self, h0, zero_div, ite_self]

/-- Rows 7..10 of `jacobian_state` are zero. -/
theorem jacobian_state_lateral_rows (L : Numerics α) (x : Fin 12 → α) (dt : α) (i k : Fin 12)
    (h7 : 7 ≤ i.val) (h10 : i.val ≤ 10) : jacobian_state L x dt i k = 0 := by
  rw [jacobian_state_vel_rows L x dt i k (by omega), if_neg]
  rintro ⟨h | h, -⟩ <;> (rw [h] at h7 h10; revert h7 h10; decide)

/-- Rows and columns 7..10 of the predicted covariance are those of `E_pred`. -/
theorem prediction_stage_P_lateral (L : Numerics α) (s : AdaptiveFilter α) (dt : α)
    (i j : Fin 12) (h7 : 7 ≤ i.val) (h10 : i.val ≤ 10) :
    (prediction_stage L s dt).P i j = s.E_pred i j ∧
    (prediction_stage L s dt).P j i = s.E_pred j i := by
  have hF := fun k => jacobian_state_lateral_rows L s.X dt i k h7 h10
  constructor
  · simp [prediction_stage, Matrix.add_apply, Matrix.mul_apply, hF]
  · simp [prediction_stage, Matrix.add_apply, Matrix.mul_apply, Matrix.transpose_apply, hF]

/-- C23: for every prior `X`, `P` and `dt` and every `i` in 7..10 (`vy, vz, wx,
wy`): after `prediction_stage` the state component `X(i)` is 0; row `i` and,
`sin 0` being `0`, column `i` of `jacobian_state` are zero; row and column `i`
of the new `P` are those of `E_pred`, whatever the prior covariance; and in
every state reached from the initialized filter these are `0.001` on the
diagonal and 0 elsewhere. -/
theorem prediction_stage_lateral_velocities (cfg : Config α) (L : Numerics α)
    (h0 : L.sin 0 = 0) (s : AdaptiveFilter α) (dt : α) (i : Fin 12) (h7 : 7 ≤ i.val)
    (h10 : i.val ≤ 10) :
    (prediction_stage L s dt).X i = 0 ∧
    (∀ k : Fin 12, jacobian_state L s.X dt i k = 0 ∧ jacobian_state L s.X dt k i = 0) ∧
    (∀ j : Fin 12, (prediction_stage L s dt).P i j = s.E_pred i j ∧
      (prediction_stage L s dt).P j i = s.E_pred j i) ∧
    (∀ (s0 : AdaptiveFilter α) (t0 : α) (es : List (Event α)) (j : Fin 12),
      (prediction_stage L (runEvents cfg L (run_init (initialization s0) t0) es).AF dt).P i j
          = (if i = j then 0.001 else 0) ∧
      (prediction_stage L (runEvents cfg L (run_init (initialization s0) t0) es).AF dt).P j i
          = (if i = j then 0.001 else 0)) := by
  obtain ⟨-, h7', h8', h9', h10', -⟩ := f_prediction_model_vel L s.X dt
  refine ⟨?_, fun k => ⟨jacobian_state_lateral_rows L s.X dt i k h7 h10,
    jacobian_state_lateral_columns L h0 s.X dt k i h7 h10⟩,
    fun j => prediction_stage_P_lateral L s dt i j h7 h10, fun s0 t0 es j => ?_⟩
  · show f_prediction_model L s.X dt i = 0
    fin_cases i <;> simp at h7 h10 <;> assumption
  · obtain ⟨e1, e2⟩ := prediction_stage_P_lateral L
      (runEvents cfg L (run_init (initialization s0) t0) es).AF dt i j h7 h10
    rw [e1, e2, runEvents_E_pred]
    show (initialization s0).E_pred i j = _ ∧ (initialization s0).E_pred j i = _
    rw [initialization_E_pred, initialization_E_pred]
    have h6 : 6 ≤ i.val := by omega
    by_cases hij : i = j
    · subst hij; simp [h6]
    · have hji : ¬ j = i := fun h => hij h.symm
      simp [hij, hji]

/-- With the library sine, at the filter with yaw 3.14 and `wz = 2`: `vy` is 0
after the prediction, entry `(3, 7)` of the Jacobian is 0 and the new `P(7,7)`
is that of `E_pred`. -/
theorem prediction_stage_lateral_velocities_witness :
    ∃ L : Numerics ℝ, L.Exact ∧
      (prediction_stage L (nearPiYawFilter ℝ) 0.005).X 7 = 0 ∧
      jacobian_state L (nearPiYawFilter ℝ).X 0.005 3 7 = 0 ∧
      (prediction_stage L (nearPiYawFilter ℝ) 0.005).P 7 7 = (nearPiYawFilter ℝ).E_pred 7 7 := by
  obtain ⟨L, hL⟩ := Numerics.exists_exact
  have h0 : L.sin 0 = 0 := by rw [hL.sin_eq, Real.sin_zero]
  have h := prediction_stage_lateral_velocities (defaultConfig ℝ) L h0 (nearPiYawFilter ℝ)
    0.005 7 (by decide) (by decide)
  exact ⟨L, hL, h.1, (h.2.1 3).2, (h.2.2.1 7).1⟩

end LateralVelocities

/-! ## The wheel innovation covariance -/

section WheelNoise

variable {α : Type} [LinearOrderedField α]

/-- The form of `E_wheel` that `wheelOdometryAdaptiveCovariance` produces: in every
state reached from a state with zero off-diagonal entries, once a wheel sample has
arrived `E_wheel` is `diag(γ_vx·D + δ_vx, γ_ωz·D + δ_ωz)` for some `D ≥ 0`. -/
theorem runEvents_E_wheel_form (cfg : Config α) (L : Numerics α) (es : List (Event α))
    (st : RunState α) (h0 : st.AF.E_wheel 0 1 = 0 ∧ st.AF.E_wheel 1 0 = 0)
    (h : st.AF.wheelActivated = true → ∃ D : α, 0 ≤ D ∧
      st.AF.E_wheel = !![cfg.gamma_vx * D + cfg.delta_vx, 0;
                         0, cfg.gamma_omegaz * D + cfg.delta_omegaz]) :
    (runEvents cfg L st es).AF.wheelActivated = true → ∃ D : α, 0 ≤ D ∧
      (runEvents cfg L st es).AF.E_wheel = !![cfg.gamma_vx * D + cfg.delta_vx, 0;
                         0, cfg.gamma_omegaz * D + cfg.delta_omegaz] := by
  induction es generalizing st with
  | nil => exact h
  | cons e es ih =>
    refine ih (step cfg L st e) (step_E_wheel_offdiag cfg L st e h0) ?_
    cases e with
    | imu tl te m => exact h
    | wheel tl te w =>
      intro _
      refine ⟨|w.twist_angular 2 - st.AF.imuMeasure 5|, abs_nonneg _, ?_⟩
      show (wheelOdometryHandler cfg tl te w st.AF).E_wheel = _
      rw [wheelOdometryHandler_E_wheel_eq, h0.1, h0.2]
    | lidar tl te l => exact h
    | tick t =>
      intro ha
      have ha' : st.AF.wheelActivated = true :=
        ((run_tick_flags cfg L .wheel t st).1).symm.trans ha
      obtain ⟨D, hD, hE⟩ := h ha'
      refine ⟨D, hD, ?_⟩
      show (run_tick cfg L t st).1.AF.E_wheel = _
      rw [run_tick_E_wheel]; exact hE

end WheelNoise

section WheelInnovation

open Matrix

/-- With a positive semi-definite `P` and `E_wheel` a diagonal matrix with positive
entries, the wheel innovation covariance is positive definite. -/
theorem wheel_S_posDef_of_diag (s : AdaptiveFilter ℝ) (a b : ℝ) (hP : s.P.PosSemidef)
    (ha : 0 < a) (hb : 0 < b) (hE : s.E_wheel = !![a, 0; 0, b]) :
    (wheel_S s).PosDef ∧ IsUnit (wheel_S s).det := by
  have hd : (!![a, 0; 0, b] : Matrix (Fin 2) (Fin 2) ℝ) = Matrix.diagonal ![a, b] := by
    ext i j
    fin_cases i <;> fin_cases j <;> simp
  have h1 := hP.mul_mul_conjTranspose_same (wheel_H ℝ)
  rw [Matrix.conjTranspose_eq_transpose_of_trivial] at h1
  have h2 : (Matrix.diagonal ![a, b]).PosDef :=
    Matrix.PosDef.diagonal (fun i => by fin_cases i <;> simpa)
  have h : (wheel_S s).PosDef := by
    unfold wheel_S
    rw [hE, hd]
    exact Matrix.PosDef.posSemidef_add h1 h2
  exact ⟨h, isUnit_iff_ne_zero.mpr h.det_pos.ne'⟩

/-- C25: with `γ_vx, γ_ωz ≥ 0` and `δ_vx, δ_ωz > 0`, for every symmetric
positive semi-definite `P`, every `D ≥ 0` and
`E_wheel = diag(γ_vx·D + δ_vx, γ_ωz·D + δ_ωz)` the innovation covariance
`S = H·P·Hᵀ + E_wheel` of `correction_wheel_stage` is positive definite, hence
invertible; and in every run from the initialized filter, whenever a tick calls
the wheel correction with a positive semi-definite `P`, `E_wheel` has that form
and `S` is positive definite. -/
theorem wheel_S_posDef (cfg : Config ℝ) (hgv : 0 ≤ cfg.gamma_vx) (hgw : 0 ≤ cfg.gamma_omegaz)
    (hdv : 0 < cfg.delta_vx) (hdw : 0 < cfg.delta_omegaz) :
    (∀ (s : AdaptiveFilter ℝ) (D : ℝ), 0 ≤ D → s.P.PosSemidef →
      s.E_wheel = !![cfg.gamma_vx * D + cfg.delta_vx, 0;
                     0, cfg.gamma_omegaz * D + cfg.delta_omegaz] →
      (wheel_S s).PosDef ∧ IsUnit (wheel_S s).det) ∧
    (∀ (L : Numerics ℝ) (s0 : AdaptiveFilter ℝ) (t0 : ℝ) (es : List (Event ℝ)) (t_now : ℝ),
      correctionRuns cfg L .wheel t_now (runEvents cfg L (run_init (initialization s0) t0) es)
        = true →
      (run_imu cfg L (run_prediction cfg L t_now
        (runEvents cfg L (run_init (initialization s0) t0) es))).AF.P.PosSemidef →
      (wheel_S (run_imu cfg L (run_prediction cfg L t_now
        (runEvents cfg L (run_init (initialization s0) t0) es))).AF).PosDef ∧
      IsUnit (wheel_S (run_imu cfg L (run_prediction cfg L t_now
        (runEvents cfg L (run_init (initialization s0) t0) es))).AF).det) := by
  have key : ∀ (s : AdaptiveFilter ℝ) (D : ℝ), 0 ≤ D → s.P.PosSemidef →
      s.E_wheel = !![cfg.gamma_vx * D + cfg.delta_vx, 0;
                     0, cfg.gamma_omegaz * D + cfg.delta_omegaz] →
      (wheel_S s).PosDef ∧ IsUnit (wheel_S s).det := by
    intro s D hD hP hE
    exact wheel_S_posDef_of_diag s _ _ hP
      (add_pos_of_nonneg_of_pos (mul_nonneg hgv hD) hdv)
      (add_pos_of_nonneg_of_pos (mul_nonneg hgw hD) hdw) hE
  refine ⟨key, fun L s0 t0 es t_now hr hP => ?_⟩
  have hact : (runEvents cfg L (run_init (initialization s0) t0) es).AF.wheelActivated
      = true := by
    rw [correctionRuns_eq, correctionGuard_eq] at hr
    simp only [Bool.and_eq_true] at hr
    exact hr.1.2
  obtain ⟨D, hD, hE⟩ := runEvents_E_wheel_form cfg L es (run_init (initialization s0) t0)
    ⟨rfl, rfl⟩ (fun h => by simp [run_init, initialization] at h) hact
  refine key _ D hD hP ?_
  rw [(run_blocks_E_wheel cfg L t_now _).2.1, (run_blocks_E_wheel cfg L t_now _).1]
  exact hE

/-- With the default constants, after a first wheel sample on the initialized
filter the wheel innovation covariance is positive definite. -/
theorem wheel_S_posDef_witness :
    ∃ L : Numerics ℝ, L.Exact ∧
      (wheel_S (wheelOdometryHandler (defaultConfig ℝ) 0 0 (zeroOdometry ℝ)
        (initialization (blankFilter ℝ)))).PosDef := by
  obtain ⟨L, hL⟩ := Numerics.exists_exact
  have h := (wheel_S_posDef (defaultConfig ℝ)
    (by norm_num [defaultConfig]) (by norm_num [defaultConfig])
    (by norm_num [defaultConfig]) (by norm_num [defaultConfig])).1
    (wheelOdometryHandler (defaultConfig ℝ) 0 0 (zeroOdometry ℝ)
      (initialization (blankFilter ℝ))) 0 le_rfl initial_P_posSemidef
    (by rw [wheelOdometryHandler_E_wheel_eq]
        simp [initialization, zeroOdometry])
  exact ⟨L, hL, h.1⟩

end WheelInnovation

/-! ## The pending-publish flags -/

section PublishFlags

variable {α : Type}

/-- The publishing block when each flag is set only under its own value of
`filterFreq`: it clears the one flag that can be set. -/
theorem run_publish_of_flags (y : RunState α) (ff : String) (a b c d : Bool)
    (hp : y.pub_pred = (a && decide (ff = "p"))) (hl : y.pub_lidar = (b && decide (ff = "l")))
    (hw : y.pub_wheel = (c && decide (ff = "w"))) (hi : y.pub_imu = (d && decide (ff = "i"))) :
    ((run_publish y).1.pub_pred = false ∧ (run_publish y).1.pub_lidar = false ∧
      (run_publish y).1.pub_wheel = false ∧ (run_publish y).1.pub_imu = false) ∧
    (run_publish y).2
      = (if a = true ∧ ff = "p" then some 'p'
         else if b = true ∧ ff = "l" then some 'l'
         else if c = true ∧ ff = "w" then some 'w'
         else if d = true ∧ ff = "i" then some 'i'
         else none) := by
  unfold run_publish
  by_cases h1 : ff = "p"
  · subst h1
    cases a <;> simp_all
  · by_cases h2 : ff = "l"
    · subst h2
      cases b <;> simp_all
    · by_cases h3 : ff = "w"
      · subst h3
        cases c <;> simp_all
      · by_cases h4 : ff = "i"
        · subst h4
          cases d <;> simp_all
        · simp_all

end PublishFlags

section PublishInvariant

variable {α : Type} [LinearOrderedField α]

/-- The pending-publish flags after each block of the loop body. -/
theorem run_blocks_pub (cfg : Config α) (L : Numerics α) (t_now : α) (st : RunState α) :
    ((run_prediction cfg L t_now st).pub_pred
        = (st.pub_pred || (cfg.enableFilter && decide (cfg.filterFreq = "p"))) ∧
      (run_prediction cfg L t_now st).pub_lidar = st.pub_lidar ∧
      (run_prediction cfg L t_now st).pub_wheel = st.pub_wheel ∧
      (run_prediction cfg L t_now st).pub_imu = st.pub_imu) ∧
    ((run_imu cfg L st).pub_pred = st.pub_pred ∧
      (run_imu cfg L st).pub_lidar = st.pub_lidar ∧
      (run_imu cfg L st).pub_wheel = st.pub_wheel ∧
      (run_imu cfg L st).pub_imu
        = (st.pub_imu || (correctionGuard cfg .imu st.AF && decide (cfg.filterFreq = "i")))) ∧
    ((run_wheel cfg L st).pub_pred = st.pub_pred ∧
      (run_wheel cfg L st).pub_lidar = st.pub_lidar ∧
      (run_wheel cfg L st).pub_wheel
        = (st.pub_wheel || (correctionGuard cfg .wheel st.AF && decide (cfg.filterFreq = "w"))) ∧
      (run_wheel cfg L st).pub_imu = st.pub_imu) ∧
    ((run_lidar cfg L st).pub_pred = st.pub_pred ∧
      (run_lidar cfg L st).pub_lidar
        = (st.pub_lidar || (correctionGuard cfg .lidar st.AF && decide (cfg.filterFreq = "l"))) ∧
      (run_lidar cfg L st).pub_wheel = st.pub_wheel ∧
      (run_lidar cfg L st).pub_imu = st.pub_imu) := by
  refine ⟨?_, ?_, ?_, ?_⟩
  · unfold run_prediction
    by_cases h : cfg.enableFilter = true <;> by_cases h2 : cfg.filterFreq = "p" <;>
      simp [h, h2]
  · rw [(run_blocks_guard cfg L st).1]
    by_cases h : correctionGuard cfg .imu st.AF = true <;>
      by_cases h2 : cfg.filterFreq = "i" <;> simp [h, h2]
  · rw [(run_blocks_guard cfg L st).2.1]
    by_cases h : correctionGuard cfg .wheel st.AF = true <;>
      by_cases h2 : cfg.filterFreq = "w" <;> simp [h, h2]
  · rw [(run_blocks_guard cfg L st).2.2]
    by_cases h : correctionGuard cfg .lidar st.AF = true <;>
      by_cases h2 : cfg.filterFreq = "l" <;> simp [h, h2]

/-- A tick that starts with no pending publish request ends with none, and
publishes exactly when the stage selected by `filterFreq` ran in it. -/
theorem run_tick_pub (cfg : Config α) (L : Numerics α) (t_now : α) (st : RunState α)
    (h : st.pub_pred = false ∧ st.pub_lidar = false ∧ st.pub_wheel = false ∧
      st.pub_imu = false) :
    ((run_tick cfg L t_now st).1.pub_pred = false ∧
      (run_tick cfg L t_now st).1.pub_lidar = false ∧
      (run_tick cfg L t_now st).1.pub_wheel = false ∧
      (run_tick cfg L t_now st).1.pub_imu = false) ∧
    (run_tick cfg L t_now st).2
      = (if cfg.enableFilter = true ∧ cfg.filterFreq = "p" then some 'p'
         else if correctionRuns cfg L .lidar t_now st = true ∧ cfg.filterFreq = "l" then
           some 'l'
         else if correctionRuns cfg L .wheel t_now st = true ∧ cfg.filterFreq = "w" then
           some 'w'
         else if correctionRuns cfg L .imu t_now st = true ∧ cfg.filterFreq = "i" then
           some 'i'
         else none) := by
  have b0 := (run_blocks_pub cfg L t_now st).1
  have b1 := (run_blocks_pub cfg L t_now (run_prediction cfg L t_now st)).2.1
  have b2 := (run_blocks_pub cfg L t_now (run_imu cfg L (run_prediction cfg L t_now st))).2.2.1
  have b3 := (run_blocks_pub cfg L t_now
    (run_wheel cfg L (run_imu cfg L (run_prediction cfg L t_now st)))).2.2.2
  refine run_publish_of_flags _ cfg.filterFreq cfg.enableFilter
    (correctionRuns cfg L .lidar t_now st) (correctionRuns cfg L .wheel t_now st)
    (correctionRuns cfg L .imu t_now st) ?_ ?_ ?_ ?_
  · rw [b3.1, b2.1, b1.1, b0.1, h.1, Bool.false_or]
  · rw [b3.2.1, b2.2.1, b1.2.1, b0.2.1, h.2.1, Bool.false_or]; rfl
  · rw [b3.2.2.1, b2.2.2.1, b1.2.2.1, b0.2.2.1, h.2.2.1, Bool.false_or]; rfl
  · rw [b3.2.2.2, b2.2.2.2, b1.2.2.2, b0.2.2.2, h.2.2.2, Bool.false_or]; rfl

/-- No publish request is pending between two events of a run. -/
theorem runEvents_pub (cfg : Config α) (L : Numerics α) (es : List (Event α))
    (st : RunState α)
    (h : st.pub_pred = false ∧ st.pub_lidar = false ∧ st.pub_wheel = false ∧
      st.pub_imu = false) :
    (runEvents cfg L st es).pub_pred = false ∧ (runEvents cfg L st es).pub_lidar = false ∧
    (runEvents cfg L st es).pub_wheel = false ∧ (runEvents cfg L st es).pub_imu = false := by
  induction es generalizing st with
  | nil => exact h
  | cons e es ih =>
    refine ih (step cfg L st e) ?_
    cases e with
    | imu tl te m => exact h
    | wheel tl te w => exact h
    | lidar tl te l => exact h
    | tick t => exact (run_tick_pub cfg L t st h).1

/-- C24: along every run from the start of `run()`, for every value of
`filterFreq` and every pattern of arrivals, the four pending-publish flags are
false between any two events, in particular at the end of every tick; so no
request is carried over, and a tick publishes exactly when the stage selected
by `filterFreq` ran in it: the prediction for `"p"`, the lidar, wheel or IMU
correction for `"l"`, `"w"`, `"i"`, and never for any other value. -/
theorem publish_flags_cleared (cfg : Config α) (L : Numerics α) (af : AdaptiveFilter α)
    (t0 : α) (es : List (Event α)) :
    ((runEvents cfg L (run_init af t0) es).pub_pred = false ∧
      (runEvents cfg L (run_init af t0) es).pub_lidar = false ∧
      (runEvents cfg L (run_init af t0) es).pub_wheel = false ∧
      (runEvents cfg L (run_init af t0) es).pub_imu = false) ∧
    (∀ t_now : α,
      (run_tick cfg L t_now (runEvents cfg L (run_init af t0) es)).2
        = (if cfg.enableFilter = true ∧ cfg.filterFreq = "p" then some 'p'
           else if correctionRuns cfg L .lidar t_now (runEvents cfg L (run_init af t0) es) = true
               ∧ cfg.filterFreq = "l" then some 'l'
           else if correctionRuns cfg L .wheel t_now (runEvents cfg L (run_init af t0) es) = true
               ∧ cfg.filterFreq = "w" then some 'w'
           else if correctionRuns cfg L .imu t_now (runEvents cfg L (run_init af t0) es) = true
               ∧ cfg.filterFreq = "i" then some 'i'
           else none)) ∧
    (∀ t_now : α,
      (run_tick cfg L t_now (runEvents cfg L (run_init af t0) es)).2.isSome = true ↔
        (cfg.enableFilter = true ∧ cfg.filterFreq = "p") ∨
        (correctionRuns cfg L .lidar t_now (runEvents cfg L (run_init af t0) es) = true
          ∧ cfg.filterFreq = "l") ∨
        (correctionRuns cfg L .wheel t_now (runEvents cfg L (run_init af t0) es) = true
          ∧ cfg.filterFreq = "w") ∨
        (correctionRuns cfg L .imu t_now (runEvents cfg L (run_init af t0) es) = true
          ∧ cfg.filterFreq = "i")) := by
  have hI := runEvents_pub cfg L es (run_init af t0) ⟨rfl, rfl, rfl, rfl⟩
  refine ⟨hI, fun t_now => (run_tick_pub cfg L t_now _ hI).2, fun t_now => ?_⟩
  rw [(run_tick_pub cfg L t_now _ hI).2]
  split_ifs <;> simp_all

end PublishInvariant

/-! ## The indirect lidar measurement -/

section BlockDiagonal

variable {α : Type} [LinearOrderedField α]

/-- The product of two block-diagonal 6 × 6 matrices with 3 × 3 blocks whose
blocks multiply to the identity is the identity. -/
theorem blockDiag_mul_eq_one (P Q P' Q' : Matrix (Fin 3) (Fin 3) α) (hP : P * P' = 1)
    (hQ : Q * Q' = 1) :
    setBlock (setBlock (0 : Matrix (Fin 6) (Fin 6) α) 0 0 P) 3 3 Q
      * setBlock (setBlock (1 : Matrix (Fin 6) (Fin 6) α) 0 0 P') 3 3 Q' = 1 := by
  have hPe : ∀ a b : Fin 3, P a 0 * P' 0 b + P a 1 * P' 1 b + P a 2 * P' 2 b
      = (1 : Matrix (Fin 3) (Fin 3) α) a b := by
    intro a b
    rw [← hP, Matrix.mul_apply, Fin.sum_univ_three]
  have hQe : ∀ a b : Fin 3, Q a 0 * Q' 0 b + Q a 1 * Q' 1 b + Q a 2 * Q' 2 b
      = (1 : Matrix (Fin 3) (Fin 3) α) a b := by
    intro a b
    rw [← hQ, Matrix.mul_apply, Fin.sum_univ_three]
  ext i j
  rw [Matrix.mul_apply, Fin.sum_univ_six]
  fin_cases i <;> fin_cases j <;>
    simp [setBlock_apply, Fin.coe_ofNat_eq_mod, hPe, hQe]

end BlockDiagonal

section Rotations

open Matrix

/-- With the real sine and cosine the three elementary rotations are orthogonal. -/
theorem rotation_transpose_mul (L : Numerics ℝ) (hL : L.Exact) (a : ℝ) :
    (Rx L a)ᵀ * Rx L a = 1 ∧ (Ry L a)ᵀ * Ry L a = 1 ∧ (Rz L a)ᵀ * Rz L a = 1 := by
  have hsc : L.sin a * L.sin a + L.cos a * L.cos a = 1 := by
    rw [hL.sin_eq, hL.cos_eq]
    have := Real.sin_sq_add_cos_sq a
    nlinarith [this]
  have hcs : L.cos a * L.cos a + L.sin a * L.sin a = 1 := by rw [add_comm]; exact hsc
  refine ⟨?_, ?_, ?_⟩
  · ext i j
    fin_cases i <;> fin_cases j <;>
      simp only [Matrix.mul_apply, Fin.sum_univ_three, Matrix.transpose_apply] <;>
      simp [Rx, Matrix.vecHead, Matrix.vecTail] <;>
      first | linear_combination hsc | ring1
  · ext i j
    fin_cases i <;> fin_cases j <;>
      simp only [Matrix.mul_apply, Fin.sum_univ_three, Matrix.transpose_apply] <;>
      simp [Ry, Matrix.vecHead, Matrix.vecTail] <;>
      first | linear_combination hsc | ring1
  · ext i j
    fin_cases i <;> fin_cases j <;>
      simp only [Matrix.mul_apply, Fin.sum_univ_three, Matrix.transpose_apply] <;>
      simp [Rz, Matrix.vecHead, Matrix.vecTail] <;>
      first | linear_combination hsc | ring1

/-- The rotation `R = Rz·Ry·Rx` is orthogonal. -/
theorem rotation_product_transpose_mul (L : Numerics ℝ) (hL : L.Exact) (a b c : ℝ) :
    (Rz L c * Ry L b * Rx L a)ᵀ * (Rz L c * Ry L b * Rx L a) = 1 := by
  have hx := (rotation_transpose_mul L hL a).1
  have hy := (rotation_transpose_mul L hL b).2.1
  have hz := (rotation_transpose_mul L hL c).2.2
  calc (Rz L c * Ry L b * Rx L a)ᵀ * (Rz L c * Ry L b * Rx L a)
      = (Rx L a)ᵀ * ((Ry L b)ᵀ * ((Rz L c)ᵀ * Rz L c) * Ry L b) * Rx L a := by
        simp only [Matrix.transpose_mul, Matrix.mul_assoc]
    _ = 1 := by rw [hz, Matrix.mul_one, hy, Matrix.mul_one, hx]

/-- Where the cosine of the pitch is not zero the Euler-rate matrix is invertible. -/
theorem eulerRateJ_isUnit_det (L : Numerics ℝ) (hL : L.Exact) (roll pitch : ℝ)
    (hc : L.cos pitch ≠ 0) : IsUnit (eulerRateJ L roll pitch).det := by
  have hsc : L.sin roll * L.sin roll + L.cos roll * L.cos roll = 1 := by
    rw [hL.sin_eq, hL.cos_eq]
    have := Real.sin_sq_add_cos_sq roll
    nlinarith [this]
  have hd : (eulerRateJ L roll pitch).det = 1 / L.cos pitch := by
    rw [Matrix.det_fin_three]
    simp [eulerRateJ, Matrix.vecHead, Matrix.vecTail]
    field_simp
    linear_combination hsc
  rw [hd]
  exact isUnit_iff_ne_zero.mpr (one_div_ne_zero hc)

end Rotations

section IndirectMeasurement

variable {α : Type} [LinearOrderedField α]

/-- The value of `indirect_lidar_measurement`: the block-diagonal matrix of `Rᵀ` and
`inverse(J)` applied to the pose difference, wrapped in the angles, over `dt`. -/
theorem indirect_lidar_measurement_eq (L : Numerics α) (u ul : Fin 6 → α) (dt : α) :
    indirect_lidar_measurement L u ul dt
      = fun i =>
          ((setBlock (setBlock (0 : Matrix (Fin 6) (Fin 6) α) 0 0
              (Rz L (ul 5) * Ry L (ul 4) * Rx L (ul 3)).transpose) 3 3
              (L.inverse 3 (eulerRateJ L (ul 3) (ul 4)))).mulVec
            (fun j => if j.val < 3 then u j - ul j
              else L.atan2 (L.sin (u j - ul j)) (L.cos (u j - ul j)))) i / dt := by
  funext i
  simp only [indirect_lidar_measurement]
  congr 2
  funext j
  fin_cases j <;>
    simp [setVecBlock_apply, vecBlock_apply, Function.update, Fin.coe_ofNat_eq_mod]

/-- The lower three entries of a block-diagonal matrix applied to a vector. -/
theorem blockDiag_mulVec_lower (P Q : Matrix (Fin 3) (Fin 3) α) (w : Fin 6 → α) (i : Fin 3) :
    (setBlock (setBlock (1 : Matrix (Fin 6) (Fin 6) α) 0 0 P) 3 3 Q).mulVec w
        ⟨3 + i.val, by omega⟩
      = (Q.mulVec (vecBlock w 3 3 (by decide))) i := by
  fin_cases i <;>
    simp [Matrix.mulVec, Matrix.dotProduct, Fin.sum_univ_six, Fin.sum_univ_three,
      setBlock_apply, vecBlock_apply, Fin.coe_ofNat_eq_mod]

end IndirectMeasurement

section IndirectMeasurementReal

open Real

/-- The indirect measurement recovers the body velocity from a pose increment
`blockdiag(R, J)·w·dt` whose angle part lies in `(−π, π]`. -/
theorem indirect_lidar_measurement_of_increment (L : Numerics ℝ) (hL : L.Exact)
    (ul w : Fin 6 → ℝ) (dt : ℝ) (hc : L.cos (ul 4) ≠ 0) (hdt : dt ≠ 0)
    (hr : ∀ i : Fin 6, 3 ≤ i.val →
      -π < dt * (setBlock (setBlock (1 : Matrix (Fin 6) (Fin 6) ℝ) 0 0
          (Rz L (ul 5) * Ry L (ul 4) * Rx L (ul 3))) 3 3
          (eulerRateJ L (ul 3) (ul 4))).mulVec w i ∧
      dt * (setBlock (setBlock (1 : Matrix (Fin 6) (Fin 6) ℝ) 0 0
          (Rz L (ul 5) * Ry L (ul 4) * Rx L (ul 3))) 3 3
          (eulerRateJ L (ul 3) (ul 4))).mulVec w i ≤ π) :
    indirect_lidar_measurement L
      (ul + dt • (setBlock (setBlock (1 : Matrix (Fin 6) (Fin 6) ℝ) 0 0
          (Rz L (ul 5) * Ry L (ul 4) * Rx L (ul 3))) 3 3
          (eulerRateJ L (ul 3) (ul 4))).mulVec w) ul dt = w := by
  have hdet := eulerRateJ_isUnit_det L hL (ul 3) (ul 4) hc
  have hRR := rotation_product_transpose_mul L hL (ul 3) (ul 4) (ul 5)
  have hJJ := Matrix.nonsing_inv_mul (eulerRateJ L (ul 3) (ul 4)) hdet
  rw [indirect_lidar_measurement_eq, hL.inverse_eq 3 _ hdet]
  have hud : (fun j : Fin 6 =>
      if j.val < 3 then
        (ul + dt • (setBlock (setBlock (1 : Matrix (Fin 6) (Fin 6) ℝ) 0 0
          (Rz L (ul 5) * Ry L (ul 4) * Rx L (ul 3))) 3 3
          (eulerRateJ L (ul 3) (ul 4))).mulVec w) j - ul j
      else L.atan2
        (L.sin ((ul + dt • (setBlock (setBlock (1 : Matrix (Fin 6) (Fin 6) ℝ) 0 0
          (Rz L (ul 5) * Ry L (ul 4) * Rx L (ul 3))) 3 3
          (eulerRateJ L (ul 3) (ul 4))).mulVec w) j - ul j))
        (L.cos ((ul + dt • (setBlock (setBlock (1 : Matrix (Fin 6) (Fin 6) ℝ) 0 0
          (Rz L (ul 5) * Ry L (ul 4) * Rx L (ul 3))) 3 3
          (eulerRateJ L (ul 3) (ul 4))).mulVec w) j - ul j)))
      = dt • (setBlock (setBlock (1 : Matrix (Fin 6) (Fin 6) ℝ) 0 0
          (Rz L (ul 5) * Ry L (ul 4) * Rx L (ul 3))) 3 3
          (eulerRateJ L (ul 3) (ul 4))).mulVec w := by
    funext j
    simp only [Pi.add_apply, Pi.smul_apply, smul_eq_mul, add_sub_cancel_left]
    split_ifs with h
    · rfl
    · exact wrap_of_mem L hL _ (hr j (by omega)).1 (hr j (by omega)).2
  rw [hud, Matrix.mulVec_smul, Matrix.mulVec_mulVec, blockDiag_mul_eq_one _ _ _ _ hRR hJJ,
    Matrix.one_mulVec]
  funext i
  simp [hdt]

/-- The indirect measurement of a pose against itself is zero. -/
theorem indirect_lidar_measurement_self (L : Numerics ℝ) (hL : L.Exact) (ul : Fin 6 → ℝ)
    (dt : ℝ) : indirect_lidar_measurement L ul ul dt = 0 := by
  rw [indirect_lidar_measurement_eq]
  have hw : L.atan2 (L.sin 0) (L.cos 0) = 0 :=
    wrap_of_mem L hL 0 (by linarith [Real.pi_pos]) Real.pi_pos.le
  have hud : (fun j : Fin 6 => if j.val < 3 then ul j - ul j
      else L.atan2 (L.sin (ul j - ul j)) (L.cos (ul j - ul j))) = 0 := by
    funext j
    simp only [sub_self, hw, ite_self, Pi.zero_apply]
  rw [hud, Matrix.mulVec_zero]
  funext i
  simp

end IndirectMeasurementReal

section IndirectMeasurementClaim

open Real

/-- C22: in exact arithmetic the indirect lidar measurement inverts the pose
increment of the kinematic model. For every `dt ≠ 0`, every previous pose `ul`
with `cos(pitch) ≠ 0` and every body velocity `w = (v, ω)` whose Euler-angle
increments `J(ul)·ω·dt` each lie in `(−π, π]`,
`indirect_lidar_measurement (ul + blockdiag(R(ul), J(ul))·w·dt, ul, dt) = w`;
`indirect_lidar_measurement (ul, ul, dt) = 0`; and for every state `x` whose
predicted Euler angles move by amounts in `(−π, π]`, the measurement of the
predicted pose against the pose of `x` is `(vx, 0, 0, 0, 0, wz)`. -/
theorem indirect_lidar_measurement_inverts_increment (L : Numerics ℝ) (hL : L.Exact) (dt : ℝ)
    (hdt : dt ≠ 0) :
    (∀ ul w : Fin 6 → ℝ, L.cos (ul 4) ≠ 0 →
      (∀ i : Fin 3,
        -π < (eulerRateJ L (ul 3) (ul 4)).mulVec (vecBlock w 3 3 (by decide)) i * dt ∧
        (eulerRateJ L (ul 3) (ul 4)).mulVec (vecBlock w 3 3 (by decide)) i * dt ≤ π) →
      indirect_lidar_measurement L
        (ul + dt • (setBlock (setBlock (1 : Matrix (Fin 6) (Fin 6) ℝ) 0 0
            (Rz L (ul 5) * Ry L (ul 4) * Rx L (ul 3))) 3 3
            (eulerRateJ L (ul 3) (ul 4))).mulVec w) ul dt = w) ∧
    (∀ ul : Fin 6 → ℝ, L.cos (ul 4) ≠ 0 → indirect_lidar_measurement L ul ul dt = 0) ∧
    (∀ x : Fin 12 → ℝ, L.cos (x 4) ≠ 0 →
      (∀ i : Fin 12, 3 ≤ i.val → i.val < 6 →
        -π < f_prediction_model L x dt i - x i ∧ f_prediction_model L x dt i - x i ≤ π) →
      indirect_lidar_measurement L (vecBlock (f_prediction_model L x dt) 0 6 (by decide))
        (vecBlock x 0 6 (by decide)) dt = ![x 6, 0, 0, 0, 0, x 11]) := by
  refine ⟨fun ul w hc hr => ?_, fun ul _ => indirect_lidar_measurement_self L hL ul dt,
    fun x hc hr => ?_⟩
  · refine indirect_lidar_measurement_of_increment L hL ul w dt hc hdt (fun i hi => ?_)
    obtain ⟨k, hk⟩ : ∃ k : Fin 3, i = ⟨3 + k.val, by omega⟩ :=
      ⟨⟨i.val - 3, by omega⟩, Fin.ext (by simp; omega)⟩
    rw [hk, blockDiag_mulVec_lower, mul_comm]
    exact hr k
  · have hu : vecBlock (f_prediction_model L x dt) 0 6 (by decide)
        = vecBlock x 0 6 (by decide)
          + dt • (setBlock (setBlock (1 : Matrix (Fin 6) (Fin 6) ℝ) 0 0
              (Rz L (vecBlock x 0 6 (by decide) 5) * Ry L (vecBlock x 0 6 (by decide) 4)
                * Rx L (vecBlock x 0 6 (by decide) 3))) 3 3
              (eulerRateJ L (vecBlock x 0 6 (by decide) 3)
                (vecBlock x 0 6 (by decide) 4))).mulVec ![x 6, 0, 0, 0, 0, x 11] := by
      funext j
      fin_cases j
      · exact f_prediction_model_pose L x dt 0 (by decide)
      · exact f_prediction_model_pose L x dt 1 (by decide)
      · exact f_prediction_model_pose L x dt 2 (by decide)
      · exact f_prediction_model_pose L x dt 3 (by decide)
      · exact f_prediction_model_pose L x dt 4 (by decide)
      · exact f_prediction_model_pose L x dt 5 (by decide)
    rw [hu]
    refine indirect_lidar_measurement_of_increment L hL (vecBlock x 0 6 (by decide)) _ dt hc hdt
      (fun i hi => ?_)
    have h1 := congrFun hu i
    have h2 := hr ⟨0 + i.val, by omega⟩ (by simp; omega) (by simp)
    change f_prediction_model L x dt ⟨0 + i.val, _⟩ = x ⟨0 + i.val, _⟩ + dt * _ at h1
    constructor
    · linarith [h2.1]
    · linarith [h2.2]

/-- From the zero pose with `dt = 0.1`, the body velocity `(1, 0, 0, 0, 0, 2)` is
recovered from the pose it leads to. -/
theorem indirect_lidar_measurement_inverts_increment_witness :
    ∃ L : Numerics ℝ, L.Exact ∧
      indirect_lidar_measurement L
        ((0 : Fin 6 → ℝ) + (0.1 : ℝ) • (setBlock (setBlock (1 : Matrix (Fin 6) (Fin 6) ℝ) 0 0
            (Rz L 0 * Ry L 0 * Rx L 0)) 3 3 (eulerRateJ L 0 0)).mulVec ![1, 0, 0, 0, 0, 2])
        0 0.1 = ![1, 0, 0, 0, 0, 2] := by
  obtain ⟨L, hL⟩ := Numerics.exists_exact
  refine ⟨L, hL, ?_⟩
  have hc : L.cos ((0 : Fin 6 → ℝ) 4) ≠ 0 := by
    rw [hL.cos_eq]; simp
  have hπ := Real.pi_gt_three
  refine (indirect_lidar_measurement_inverts_increment L hL 0.1 (by norm_num)).1 0
    ![1, 0, 0, 0, 0, 2] hc (fun i => ?_)
  have hw : vecBlock (![1, 0, 0, 0, 0, 2] : Fin 6 → ℝ) 3 3 (by decide) = ![0, 0, 2] := by
    funext k; fin_cases k <;> rfl
  rw [hw]
  fin_cases i <;>
    simp [eulerRateJ, Matrix.mulVec, Matrix.dotProduct, Fin.sum_univ_three, hL.sin_eq,
      hL.cos_eq, hL.tan_eq, Matrix.vecHead, Matrix.vecTail] <;>
    constructor <;> linarith

end IndirectMeasurementClaim

/-! ## The correction stages on two concrete filters -/

section GainOnDiagonal

open Matrix

/-- With `S = c·I`, `c ≠ 0`: `P·Hᵀ·S⁻¹ = c⁻¹·P·Hᵀ`. -/
theorem mul_inv_of_eq_diagonal {m n : ℕ} (PH : Matrix (Fin n) (Fin m) ℝ)
    (S : Matrix (Fin m) (Fin m) ℝ) (c : ℝ) (hc : c ≠ 0)
    (hS : S = Matrix.diagonal fun _ => c) : PH * S⁻¹ = c⁻¹ • PH := by
  have hdet : IsUnit S.det := isUnit_det_of_eq_diagonal S _ hS (fun _ => hc)
  have e : (c⁻¹ • PH) * S = PH := by
    ext i j
    rw [hS, Matrix.mul_diagonal, Matrix.smul_apply, smul_eq_mul]
    field_simp
  calc PH * S⁻¹ = ((c⁻¹ • PH) * S) * S⁻¹ := by rw [e]
    _ = c⁻¹ • PH := Matrix.mul_nonsing_inv_cancel_right _ _ hdet

/-- With `S = c·I`, `c ≠ 0`, the gain `P·Hᵀ·inverse(S)` is `c⁻¹·P·Hᵀ`. -/
theorem mul_inverse_of_eq_diagonal (L : Numerics ℝ) (hL : L.Exact) {m n : ℕ}
    (PH : Matrix (Fin n) (Fin m) ℝ) (S : Matrix (Fin m) (Fin m) ℝ) (c : ℝ) (hc : c ≠ 0)
    (hS : S = Matrix.diagonal fun _ => c) : PH * L.inverse m S = c⁻¹ • PH := by
  rw [hL.inverse_eq m S (isUnit_det_of_eq_diagonal S _ hS (fun _ => hc))]
  exact mul_inv_of_eq_diagonal PH S c hc hS

/-- The three innovation covariances of `yawRateCorrelatedFilter` are `0.1·I`. -/
theorem yawRateCorrelatedFilter_S (L : Numerics ℝ) (dt : ℝ) :
    wheel_S (yawRateCorrelatedFilter ℝ) = Matrix.diagonal (fun _ => 0.1) ∧
    imu_S (yawRateCorrelatedFilter ℝ) = Matrix.diagonal (fun _ => 0.1) ∧
    lidar_S L (yawRateCorrelatedFilter ℝ) dt = Matrix.diagonal (fun _ => 0.1) := by
  have hQ : lidar_Q L (yawRateCorrelatedFilter ℝ) dt = 0 := by
    simp [lidar_Q, yawRateCorrelatedFilter, initialization]
  refine ⟨?_, ?_, ?_⟩
  · ext i j
    rw [wheel_S_apply]
    fin_cases i <;> fin_cases j <;> simp [yawRateCorrelatedFilter, initialization]
  · ext i j
    rw [imu_S_apply]
    fin_cases i <;> fin_cases j <;> simp [yawRateCorrelatedFilter, initialization]
  · ext i j
    rw [lidar_S_apply, hQ]
    fin_cases i <;> fin_cases j <;> simp [yawRateCorrelatedFilter, initialization]

/-- The covariance of `yawRateCorrelatedFilter` is positive semi-definite: it is
`diag(0.1, …, 0.05 at yaw and wz) + 0.05·u·uᵀ` with `u = e₅ + e₁₁`. -/
theorem yawRateCorrelatedFilter_P_posSemidef : (yawRateCorrelatedFilter ℝ).P.PosSemidef := by
  have hD : (Matrix.diagonal fun i : Fin 12 =>
      if i = 5 ∨ i = 11 then (0.05 : ℝ) else 0.1).PosSemidef :=
    Matrix.PosSemidef.diagonal (fun i => by
      show (0 : ℝ) ≤ if i = 5 ∨ i = 11 then (0.05 : ℝ) else 0.1
      split_ifs <;> norm_num)
  have hc : (Matrix.diagonal fun _ : Fin 1 => (0.05 : ℝ)).PosSemidef :=
    Matrix.PosSemidef.diagonal (fun _ => by show (0 : ℝ) ≤ 0.05; norm_num)
  have hA := hc.mul_mul_conjTranspose_same
    (Matrix.of fun (i : Fin 12) (_ : Fin 1) => if i = 5 ∨ i = 11 then (1 : ℝ) else 0)
  rw [Matrix.conjTranspose_eq_transpose_of_trivial] at hA
  have e : (yawRateCorrelatedFilter ℝ).P
      = (Matrix.diagonal fun i : Fin 12 => if i = 5 ∨ i = 11 then (0.05 : ℝ) else 0.1)
        + Matrix.of (fun (i : Fin 12) (_ : Fin 1) => if i = 5 ∨ i = 11 then (1 : ℝ) else 0)
          * (Matrix.diagonal fun _ : Fin 1 => (0.05 : ℝ))
          * (Matrix.of fun (i : Fin 12) (_ : Fin 1) =>
              if i = 5 ∨ i = 11 then (1 : ℝ) else 0).transpose := by
    ext i j
    have hP : (yawRateCorrelatedFilter ℝ).P i j
        = if i = j then 0.1 else if (i = 5 ∧ j = 11) ∨ (i = 11 ∧ j = 5) then 0.05 else 0 := rfl
    rw [hP]
    simp only [Matrix.add_apply, Matrix.mul_apply, Matrix.diagonal_apply, Matrix.of_apply,
      Matrix.transpose_apply, Finset.univ_unique, Finset.sum_singleton, if_true]
    have h511 : ¬ ((5 : Fin 12) = 11) := by decide
    have h115 : ¬ ((11 : Fin 12) = 5) := by decide
    by_cases hi5 : i = 5
    · by_cases hj5 : j = 5
      · subst hi5; subst hj5; norm_num
      · by_cases hj11 : j = 11
        · subst hi5; subst hj11; simp [h511]
        · subst hi5; simp [hj5, hj11, Ne.symm hj5]
    · by_cases hi11 : i = 11
      · by_cases hj5 : j = 5
        · subst hi11; subst hj5; simp [h115]
        · by_cases hj11 : j = 11
          · subst hi11; subst hj11; norm_num
          · subst hi11; simp [hj5, hj11, Ne.symm hj11]
      · by_cases hij : i = j
        · subst hij; simp [hi5, hi11]
        · simp [hi5, hi11, hij]
  rw [e]
  exact hD.add hA

end GainOnDiagonal

section FixtureStages

open Real

/-- The yaw row of the covariance of `yawRateCorrelatedFilter`. -/
theorem yawRateCorrelatedFilter_P_yaw (j : Fin 12) :
    (yawRateCorrelatedFilter ℝ).P 5 j = if j = 5 then 0.1 else if j = 11 then 0.05 else 0 := by
  fin_cases j <;> simp [yawRateCorrelatedFilter]

/-- On `yawRateCorrelatedFilter` the wheel correction moves the yaw from 3.14 to
3.64: the gain of the yaw on the yaw-rate residual is 0.5 and the residual is 1. -/
theorem yawRateCorrelatedFilter_wheel_yaw (L : Numerics ℝ) (hL : L.Exact) (dt : ℝ) :
    (correction_wheel_stage L (yawRateCorrelatedFilter ℝ) dt).X 5 = 3.64 := by
  have hK := mul_inverse_of_eq_diagonal L hL
    ((yawRateCorrelatedFilter ℝ).P * (wheel_H ℝ).transpose)
    (wheel_S (yawRateCorrelatedFilter ℝ)) 0.1 (by norm_num)
    (yawRateCorrelatedFilter_S L dt).1
  have hX : (correction_wheel_stage L (yawRateCorrelatedFilter ℝ) dt).X 5
      = (yawRateCorrelatedFilter ℝ).X 5
        + ((yawRateCorrelatedFilter ℝ).P * (wheel_H ℝ).transpose
            * L.inverse 2 (wheel_S (yawRateCorrelatedFilter ℝ))).mulVec
          ((yawRateCorrelatedFilter ℝ).wheelMeasure - wheel_hx (yawRateCorrelatedFilter ℝ)) 5 :=
    rfl
  have hX5 : (yawRateCorrelatedFilter ℝ).X 5 = 3.14 := rfl
  have hv0 : ((yawRateCorrelatedFilter ℝ).wheelMeasure - wheel_hx (yawRateCorrelatedFilter ℝ)) 0
      = 0 := by
    show (0 : ℝ) - 0 = 0
    norm_num
  have hv1 : ((yawRateCorrelatedFilter ℝ).wheelMeasure - wheel_hx (yawRateCorrelatedFilter ℝ)) 1
      = 1 := by
    show (0 : ℝ) - (-1) = 1
    norm_num
  have h6 : (![6, 11] : Fin 2 → Fin 12) 0 = 6 := rfl
  have h11 : (![6, 11] : Fin 2 → Fin 12) 1 = 11 := rfl
  rw [hX, hK, Matrix.smul_mulVec_assoc, Pi.smul_apply, smul_eq_mul, hX5]
  simp only [Matrix.mulVec, Matrix.dotProduct, Fin.sum_univ_two, mul_wheel_H_transpose, hv0, hv1,
    h6, h11, yawRateCorrelatedFilter_P_yaw]
  rw [if_neg (by decide), if_neg (by decide), if_neg (by decide), if_pos trivial]
  norm_num

/-- On `yawRateCorrelatedFilter` the lidar correction moves the yaw from 3.14 to
3.64 as well: the two lidar poses coincide, so the measured velocity is zero and
the residual of the yaw rate is 1. -/
theorem yawRateCorrelatedFilter_lidar_yaw (L : Numerics ℝ) (hL : L.Exact) (dt : ℝ) :
    (correction_lidar_stage L (yawRateCorrelatedFilter ℝ) dt).X 5 = 3.64 := by
  have hK := mul_inverse_of_eq_diagonal L hL
    ((yawRateCorrelatedFilter ℝ).P * (lidar_H ℝ).transpose)
    (lidar_S L (yawRateCorrelatedFilter ℝ) dt) 0.1 (by norm_num)
    (yawRateCorrelatedFilter_S L dt).2.2
  have hY : indirect_lidar_measurement L (yawRateCorrelatedFilter ℝ).lidarMeasure
      (yawRateCorrelatedFilter ℝ).lidarMeasureL dt = 0 :=
    indirect_lidar_measurement_self L hL 0 dt
  have hX : (correction_lidar_stage L (yawRateCorrelatedFilter ℝ) dt).X 5
      = (yawRateCorrelatedFilter ℝ).X 5
        + ((yawRateCorrelatedFilter ℝ).P * (lidar_H ℝ).transpose
            * L.inverse 6 (lidar_S L (yawRateCorrelatedFilter ℝ) dt)).mulVec
          (indirect_lidar_measurement L (yawRateCorrelatedFilter ℝ).lidarMeasure
              (yawRateCorrelatedFilter ℝ).lidarMeasureL dt
            - vecBlock (yawRateCorrelatedFilter ℝ).X 6 6 (by decide)) 5 :=
    rfl
  have hX5 : (yawRateCorrelatedFilter ℝ).X 5 = 3.14 := rfl
  have hv5 : ((0 : Fin 6 → ℝ) - vecBlock (yawRateCorrelatedFilter ℝ).X 6 6 (by decide)) 5
      = 1 := by
    show (0 : ℝ) - (-1) = 1
    norm_num
  have hsum : ((yawRateCorrelatedFilter ℝ).P * (lidar_H ℝ).transpose).mulVec
      ((0 : Fin 6 → ℝ) - vecBlock (yawRateCorrelatedFilter ℝ).X 6 6 (by decide)) 5 = 0.05 := by
    simp only [Matrix.mulVec, Matrix.dotProduct]
    rw [Finset.sum_eq_single (5 : Fin 6)]
    · rw [mul_lidar_H_transpose, yawRateCorrelatedFilter_P_yaw, hv5, if_neg (by decide),
        if_pos (by decide), mul_one]
    · intro j _ hj
      rw [mul_lidar_H_transpose, yawRateCorrelatedFilter_P_yaw]
      have h1 : ¬ ((⟨6 + j.val, by omega⟩ : Fin 12) = 5) := by
        intro h
        have := congrArg Fin.val h
        simp only [Fin.coe_ofNat_eq_mod] at this
        omega
      have h2 : ¬ ((⟨6 + j.val, by omega⟩ : Fin 12) = 11) := by
        intro h
        have := congrArg Fin.val h
        simp only [Fin.coe_ofNat_eq_mod] at this
        exact hj (Fin.ext (by simp only [Fin.coe_ofNat_eq_mod]; omega))
      rw [if_neg h1, if_neg h2, zero_mul]
    · intro h; exact absurd (Finset.mem_univ _) h
  rw [hX, hK, hY, Matrix.smul_mulVec_assoc, Pi.smul_apply, smul_eq_mul, hX5, hsum]
  norm_num

end FixtureStages

/-! ## The IMU state update -/

section ImuStateUpdate

open Matrix Real

end ImuStateUpdate

section SingularImu

open Matrix Real

end SingularImu

/-! ## The orientation range -/

section OrientationRange

open Real

/-- C7 (amended): where its innovation covariance `S` is invertible,
`correction_imu_stage` applies the Kalman gain and leaves roll, pitch and yaw
in `(-π, π]`, because it wraps the three updated angles.  The other operations
do not wrap: `prediction_stage` adds the plain Euler-rate increment `dt·J·ω` to
the three angles, and `correction_wheel_stage` and `correction_lidar_stage` add
the plain `K·(Y − hx)` to the whole state.  So the range is not an invariant
of the wheel and lidar corrections either: on `yawRateCorrelatedFilter`, whose
angles are in range, whose `P` is positive semi-definite and whose wheel and
lidar `S` are invertible, each of them moves the yaw from 3.14 to `3.64 > π`. -/
theorem orientation_range_imu_only (L : Numerics ℝ) (hL : L.Exact) (s : AdaptiveFilter ℝ)
    (dt : ℝ) (hS : IsUnit (imu_S s).det) :
    (imu_K L s * imu_S s = s.P * (imu_H ℝ).transpose ∧
      ∀ i : Fin 12, i.val = 3 ∨ i.val = 4 ∨ i.val = 5 →
        -π < (correction_imu_stage L s dt).X i ∧ (correction_imu_stage L s dt).X i ≤ π) ∧
    ((prediction_stage L s dt).X 3
        = s.X 3 + dt * (Real.cos (s.X 3) * Real.tan (s.X 4) * s.X 11) ∧
      (prediction_stage L s dt).X 4 = s.X 4 + dt * (-Real.sin (s.X 3) * s.X 11) ∧
      (prediction_stage L s dt).X 5
        = s.X 5 + dt * (Real.cos (s.X 3) / Real.cos (s.X 4) * s.X 11)) ∧
    ((correction_wheel_stage L s dt).X
        = s.X + (wheel_K L s).mulVec (s.wheelMeasure - wheel_hx s) ∧
      (correction_lidar_stage L s dt).X
        = s.X + (lidar_K L s dt).mulVec
            (indirect_lidar_measurement L s.lidarMeasure s.lidarMeasureL dt
              - vecBlock s.X 6 6 (by decide))) ∧
    ((∀ i : Fin 12, i.val = 3 ∨ i.val = 4 ∨ i.val = 5 →
        -π < (yawRateCorrelatedFilter ℝ).X i ∧ (yawRateCorrelatedFilter ℝ).X i ≤ π) ∧
      (yawRateCorrelatedFilter ℝ).P.PosSemidef ∧
      (IsUnit (wheel_S (yawRateCorrelatedFilter ℝ)).det ∧
        (correction_wheel_stage L (yawRateCorrelatedFilter ℝ) dt).X 5 = 3.64) ∧
      (IsUnit (lidar_S L (yawRateCorrelatedFilter ℝ) dt).det ∧
        (correction_lidar_stage L (yawRateCorrelatedFilter ℝ) dt).X 5 = 3.64) ∧
      π < 3.64) := by
  obtain ⟨-, -, -, h3, h4, h5⟩ := f_prediction_model_pose_explicit L s.X dt
  simp only [hL.sin_eq, hL.cos_eq, hL.tan_eq] at h3 h4 h5
  have hd : ∀ n (i : Fin n), (fun _ : Fin n => (0.1 : ℝ)) i ≠ 0 := fun _ _ => by norm_num
  refine ⟨⟨?_, fun i hi => ?_⟩, ⟨h3, h4, h5⟩, ⟨rfl, rfl⟩, ⟨fun i hi => ?_, ?_,
    ⟨isUnit_det_of_eq_diagonal _ _ (yawRateCorrelatedFilter_S L dt).1 (hd 2),
      yawRateCorrelatedFilter_wheel_yaw L hL dt⟩,
    ⟨isUnit_det_of_eq_diagonal _ _ (yawRateCorrelatedFilter_S L dt).2.2 (hd 6),
      yawRateCorrelatedFilter_lidar_yaw L hL dt⟩, ?_⟩⟩
  · rw [imu_K, hL.inverse_eq 3 _ hS, Matrix.mul_assoc, Matrix.nonsing_inv_mul _ hS,
      Matrix.mul_one]
  · rw [correction_imu_stage_X, if_pos hi]
    exact wrap_mem L hL _
  · have hp := Real.pi_gt_d2
    fin_cases i <;> simp at hi
    · show -π < (0 : ℝ) ∧ (0 : ℝ) ≤ π
      constructor <;> linarith
    · show -π < (0 : ℝ) ∧ (0 : ℝ) ≤ π
      constructor <;> linarith
    · show -π < (3.14 : ℝ) ∧ (3.14 : ℝ) ≤ π
      constructor <;> linarith
  · exact yawRateCorrelatedFilter_P_posSemidef
  · have hp := Real.pi_lt_d2
    linarith

/-- C7 (amended) at a concrete input: on `yawRateCorrelatedFilter` the IMU `S` is
`0.1·I`; the yaw after the IMU stage is in `(-π, π]`, the yaw after the wheel
stage is above `π`. -/
theorem orientation_range_imu_only_witness :
    ∃ L : Numerics ℝ, L.Exact ∧
      IsUnit (imu_S (yawRateCorrelatedFilter ℝ)).det ∧
      (-π < (correction_imu_stage L (yawRateCorrelatedFilter ℝ) 0.02).X 5 ∧
        (correction_imu_stage L (yawRateCorrelatedFilter ℝ) 0.02).X 5 ≤ π) ∧
      π < (correction_wheel_stage L (yawRateCorrelatedFilter ℝ) 0.02).X 5 := by
  obtain ⟨L, hL⟩ := Numerics.exists_exact
  have hS : IsUnit (imu_S (yawRateCorrelatedFilter ℝ)).det :=
    isUnit_det_of_eq_diagonal _ _ (yawRateCorrelatedFilter_S L 0.02).2.1 (fun _ => by norm_num)
  have h := orientation_range_imu_only L hL (yawRateCorrelatedFilter ℝ) 0.02 hS
  refine ⟨L, hL, hS, h.1.2 5 (Or.inr (Or.inr rfl)), ?_⟩
  rw [h.2.2.2.2.2.1.2]
  exact h.2.2.2.2.2.2.2

end OrientationRange

end EKF
